import Mathlib

set_option maxHeartbeats 1000000

/-!
Verification of svn2git core components against their specification.

Byte sequences are modelled as `List Nat` (each element a byte value).
Machine integers (`usize`, `u32`, `u64`) are modelled as `Nat`; the places
where the Rust code guards against overflow are modelled with the same
guards (explicit `% 2 ^ 64` where a wrap can matter).  Fallible Rust code
returning `Result` is modelled with `Except`; a Rust panic (out-of-bounds
slice indexing, `unwrap` failure) is modelled by wrapping the result in
`Option`, with `none` standing for the panic.

Rust `while`/`loop` constructs are modelled as structurally recursive
functions over an explicit `fuel : Nat` counter that decreases by one per
iteration; every such loop consumes at least one element of a list per
iteration, so callers pass that list's length as fuel, which provably
never runs out (the fuel-exhaustion arm is unreachable and returns the
panic marker `none`).  Structural recursion keeps all definitions
kernel-reducible, so concrete runs can be checked with `decide`.
-/

namespace GitDelta

/-- Error type of `git/delta.rs::PatchError`. -/
inductive PatchError where
  | badHeaderSize
  | unexpectedBaseSize (expected actual : Nat)
  | truncatedDelta
  | invalidOpcode
  | srcOutOfBounds
  | unexpectedOutputSize (expected actual : Nat)
  deriving DecidableEq, Repr

/-- Loop of `git/delta.rs::read_header_size`: little-endian 7-bit chunks with
MSB continuation.  `shift` and `size` are the loop accumulators; the two
guards (`shift >= usize::BITS` and the wrap-around check on
`chunk << shift`, taken on 64-bit `usize`) are modelled as in the source. -/
def readHeaderSizeGo : List Nat → Nat → Nat → Option (Nat × List Nat)
  | [], _, _ => none
  | b :: rest, shift, size =>
    if 64 ≤ shift then none
    else
      let chunk := b &&& 0x7F
      let shifted := (chunk <<< shift) % 2 ^ 64
      if shifted >>> shift ≠ chunk then none
      else
        let size' := size ||| shifted
        if b &&& 0x80 = 0 then some (size', rest)
        else readHeaderSizeGo rest (shift + 7) size'

/-- `git/delta.rs::read_header_size`. -/
def readHeaderSize (delta : List Nat) : Option (Nat × List Nat) :=
  readHeaderSizeGo delta 0 0

/-- Number of argument bytes that follow a copy opcode `op`: one per bit set
among the four offset-select bits (0x01..0x08) and the three length-select
bits (0x10..0x40).  The Rust code reads them one by one with `get_byte`. -/
def flagCount (op : Nat) : Nat :=
  (if op &&& 0x01 ≠ 0 then 1 else 0) + (if op &&& 0x02 ≠ 0 then 1 else 0) +
    (if op &&& 0x04 ≠ 0 then 1 else 0) + (if op &&& 0x08 ≠ 0 then 1 else 0) +
    (if op &&& 0x10 ≠ 0 then 1 else 0) + (if op &&& 0x20 ≠ 0 then 1 else 0) +
    (if op &&& 0x40 ≠ 0 then 1 else 0)

/-- Take one byte from `l` when `flag` is set, else yield 0 and leave `l`. -/
def takeFlag (flag : Bool) (l : List Nat) : Nat × List Nat :=
  if flag then (l.headD 0, l.tail) else (0, l)

/-- Decode the copy opcode arguments (offset, length) from the bytes that
follow `op`, as in `git/delta.rs::patch` lines 67-93.  The caller checks
that at least `flagCount op` bytes are available (the Rust code instead
errors with `TruncatedDelta` at the first missing byte; the net result is
identical).  A zero length encodes 0x10000. -/
def readCopyOffLen (op : Nat) (l : List Nat) : Nat × Nat :=
  let r0 := takeFlag (op &&& 0x01 != 0) l
  let r1 := takeFlag (op &&& 0x02 != 0) r0.2
  let r2 := takeFlag (op &&& 0x04 != 0) r1.2
  let r3 := takeFlag (op &&& 0x08 != 0) r2.2
  let r4 := takeFlag (op &&& 0x10 != 0) r3.2
  let r5 := takeFlag (op &&& 0x20 != 0) r4.2
  let r6 := takeFlag (op &&& 0x40 != 0) r5.2
  let offset := r0.1 ||| (r1.1 <<< 8) ||| (r2.1 <<< 16) ||| (r3.1 <<< 24)
  let len := r4.1 ||| (r5.1 <<< 8) ||| (r6.1 <<< 16)
  (offset, if len = 0 then 0x10000 else len)

/-- The op-processing loop of `git/delta.rs::patch` (lines 54-110), with
`out` the output accumulator.  `none` models a Rust panic: the inline-copy
arm executes `out.extend(&rem_delta[..len])` without checking that `len`
bytes remain in the delta stream.  Each iteration consumes at least the
opcode byte, so `fuel = l.length` never runs out. -/
def patchBody (base : List Nat) : Nat → List Nat → List Nat →
    Option (Except PatchError (List Nat))
  | _, [], out => some (.ok out)
  | 0, _ :: _, _ => none
  | fuel + 1, op :: rest, out =>
    if op = 0 then some (.error .invalidOpcode)
    else if op &&& 0x80 ≠ 0 then
      if flagCount op ≤ rest.length then
        let ol := readCopyOffLen op (rest.take (flagCount op))
        if ol.1 + ol.2 ≤ base.length then
          patchBody base fuel (rest.drop (flagCount op))
            (out ++ (base.drop ol.1).take ol.2)
        else some (.error .srcOutOfBounds)
      else some (.error .truncatedDelta)
    else
      if op ≤ rest.length then
        patchBody base fuel (rest.drop op) (out ++ rest.take op)
      else none

/-- `git/delta.rs::patch`.  `none` models a panic (see `patchBody`). -/
def patch (base delta : List Nat) : Option (Except PatchError (List Nat)) :=
  match readHeaderSize delta with
  | none => some (.error .badHeaderSize)
  | some (baseLen, r1) =>
    if base.length ≠ baseLen then
      some (.error (.unexpectedBaseSize baseLen base.length))
    else
      match readHeaderSize r1 with
      | none => some (.error .badHeaderSize)
      | some (outLen, r2) =>
        match patchBody base r2.length r2 [] with
        | none => none
        | some (.error e) => some (.error e)
        | some (.ok out) =>
          if out.length = outLen then some (.ok out)
          else some (.error (.unexpectedOutputSize outLen out.length))

end GitDelta

namespace SvnDiff

/-- Error type of `svn/diff.rs::ApplyError`.  `DestIo` is omitted: the
destination writer is modelled as a pure list accumulator, which cannot
fail.  On a 64-bit target the `OffsetTooLarge`/`LenTooLarge` conversions
from `u64` to `usize` are infallible, so those variants are unreachable;
they are kept for completeness. -/
inductive ApplyError where
  | invalidDeltaHeader
  | invalidVarLenInt
  | offsetTooLarge
  | lenTooLarge
  | sourceViewOutOfBounds (sourceLen viewOffset viewLen : Nat)
  | truncatedInstrs
  | truncatedNewData
  | notEnoughNewData
  | invalidInstr
  | mismatchedTargetLen
  deriving DecidableEq, Repr

/-- Loop of `svn/diff.rs::read_var_len_int`: big-endian 7-bit chunks,
with the `value > u64::MAX >> 7` overflow guard checked before each shift
(so the accumulated value always stays below `2 ^ 64` exactly). -/
def readVarLenIntGo : Nat → List Nat → Except ApplyError (Nat × List Nat)
  | _, [] => .error .invalidVarLenInt
  | value, b :: rest =>
    if (2 ^ 64 - 1) >>> 7 < value then .error .invalidVarLenInt
    else
      let value' := (value <<< 7) ||| (b &&& 0x7F)
      if b &&& 0x80 = 0 then .ok (value', rest)
      else readVarLenIntGo value' rest

/-- `svn/diff.rs::read_var_len_int`. -/
def readVarLenInt (l : List Nat) : Except ApplyError (Nat × List Nat) :=
  readVarLenIntGo 0 l

theorem readVarLenIntGo_length_lt {v : Nat} {l l' : List Nat} {n : Nat}
    (h : readVarLenIntGo v l = .ok (n, l')) : l'.length < l.length := by
  induction l generalizing v with
  | nil => simp [readVarLenIntGo] at h
  | cons b rest ih =>
    unfold readVarLenIntGo at h
    split at h
    · exact absurd h (by simp)
    · split at h
      · cases h
        simp
      · have := ih h
        simp only [List.length_cons]
        omega

theorem readVarLenInt_length_lt {l l' : List Nat} {n : Nat}
    (h : readVarLenInt l = .ok (n, l')) : l'.length < l.length :=
  readVarLenIntGo_length_lt h

/-- Self-referential copy of `svn/diff.rs::apply` instruction `0b01`
(lines 115-117): push `buf[off]`, `buf[off+1]`, ... one at a time, each
push growing the buffer (this is what makes overlapping / run-length
copies work).  The caller guarantees `off < buf.length`, which keeps every
index in bounds. -/
def pushCopyGo (buf : List Nat) (off : Nat) : Nat → List Nat
  | 0 => buf
  | n + 1 => pushCopyGo (buf ++ [buf.getD off 0]) (off + 1) n

/-- The instruction loop of `svn/diff.rs::apply` (lines 96-134), together
with the inlined `read_instruction`.  `none` models a Rust panic:
the copy-from-source arm indexes `source_view[copy_offset..copy_offset+copy_len]`
and the copy-from-target arm indexes `target_buf[copy_offset + i]`, both
without bounds checks.  Each iteration consumes at least the instruction
byte, so `fuel = instrs.length` never runs out. -/
def applyInstrs (sourceView : List Nat) : Nat → List Nat → List Nat → List Nat →
    Option (Except ApplyError (List Nat))
  | _, [], _, targetBuf => some (.ok targetBuf)
  | 0, _ :: _, _, _ => none
  | fuel + 1, b :: rest, newData, targetBuf =>
    let instr := b >>> 6
    match (if b &&& 0x3F ≠ 0 then Except.ok (b &&& 0x3F, rest)
        else readVarLenInt rest : Except ApplyError (Nat × List Nat)) with
    | .error e => some (.error e)
    | .ok (copyLen, r1) =>
      if instr = 0 then
        match readVarLenInt r1 with
        | .error e => some (.error e)
        | .ok (copyOffset, r2) =>
          if copyOffset + copyLen ≤ sourceView.length then
            applyInstrs sourceView fuel r2 newData
              (targetBuf ++ (sourceView.drop copyOffset).take copyLen)
          else none
      else if instr = 1 then
        match readVarLenInt r1 with
        | .error e => some (.error e)
        | .ok (copyOffset, r2) =>
          if copyLen ≠ 0 ∧ targetBuf.length ≤ copyOffset then none
          else
            applyInstrs sourceView fuel r2 newData
              (pushCopyGo targetBuf copyOffset copyLen)
      else if instr = 2 then
        if newData.length < copyLen then some (.error .notEnoughNewData)
        else
          applyInstrs sourceView fuel r1 (newData.drop copyLen)
            (targetBuf ++ newData.take copyLen)
      else some (.error .invalidInstr)

/-- The window loop of `svn/diff.rs::apply` (lines 59-141), with `dest`
the pure accumulator standing for the destination writer.  Each window
consumes at least its five header var-ints, so `fuel = remDelta.length`
never runs out. -/
def applyGo (source : List Nat) : Nat → List Nat → List Nat →
    Option (Except ApplyError (List Nat))
  | _, [], dest => some (.ok dest)
  | 0, _ :: _, _ => none
  | fuel + 1, remDelta, dest =>
    match readVarLenInt remDelta with
    | .error e => some (.error e)
    | .ok (sourceViewOff, r1) =>
      match readVarLenInt r1 with
      | .error e => some (.error e)
      | .ok (sourceViewLen, r2) =>
        match readVarLenInt r2 with
        | .error e => some (.error e)
        | .ok (targetViewLen, r3) =>
          match readVarLenInt r3 with
          | .error e => some (.error e)
          | .ok (instrsLen, r4) =>
            match readVarLenInt r4 with
            | .error e => some (.error e)
            | .ok (newDataLen, r5) =>
              if sourceViewOff + sourceViewLen ≤ source.length then
                let sourceView := (source.drop sourceViewOff).take sourceViewLen
                if r5.length < instrsLen then some (.error .truncatedInstrs)
                else
                  if (r5.drop instrsLen).length < newDataLen then
                    some (.error .truncatedNewData)
                  else
                    match applyInstrs sourceView instrsLen (r5.take instrsLen)
                        ((r5.drop instrsLen).take newDataLen) [] with
                    | none => none
                    | some (.error e) => some (.error e)
                    | some (.ok targetBuf) =>
                      if targetBuf.length ≠ targetViewLen then
                        some (.error .mismatchedTargetLen)
                      else
                        applyGo source fuel ((r5.drop instrsLen).drop newDataLen)
                          (dest ++ targetBuf)
              else
                some (.error (.sourceViewOutOfBounds source.length
                  sourceViewOff sourceViewLen))

/-- `svn/diff.rs::apply`: strip the `"SVN\0"` header, then run the window
loop.  `none` models a panic (see `applyInstrs`). -/
def apply (delta source : List Nat) : Option (Except ApplyError (List Nat)) :=
  match delta with
  | 83 :: 86 :: 78 :: 0 :: rest => applyGo source rest.length rest []
  | _ => some (.error .invalidDeltaHeader)

end SvnDiff

deriving instance DecidableEq for Except

/-- C4: applying the svndiff v0 delta with bytes
`[53 56 4E 00, 00, 0C, 10, 07, 01, 04 00, 04 08, 81, 47 08, 64]` to the
source `"aaaabbbbcccc"` succeeds and produces exactly `"aaaaccccdddddddd"`
(bytes: a = 97, b = 98, c = 99, d = 100). -/
theorem claim_C4_svndiff_example :
    SvnDiff.apply
      [0x53, 0x56, 0x4E, 0x00, 0x00, 0x0C, 0x10, 0x07, 0x01,
        0x04, 0x00, 0x04, 0x08, 0x81, 0x47, 0x08, 0x64]
      [97, 97, 97, 97, 98, 98, 98, 98, 99, 99, 99, 99] =
    some (.ok [97, 97, 97, 97, 99, 99, 99, 99,
      100, 100, 100, 100, 100, 100, 100, 100]) := by decide

/-- C9: the Git-delta patch function is NOT total: on base `[]` and delta
`[0x00, 0x00, 0x05]` (base size 0, output size 0, then an inline-copy
opcode announcing 5 literal bytes with none remaining) the Rust code
panics at `out.extend(&rem_delta[..len])` (`git/delta.rs` line 107)
instead of returning a `PatchError`; the embedding returns the panic
marker `none`. -/
theorem claim_C9_patch_inline_panics :
    GitDelta.patch [] [0x00, 0x00, 0x05] = none := by decide

/-- C10: the svndiff v0 applier is NOT total.  First conjunct: a
copy-from-source instruction whose offset+length exceeds the source view
(`source_view[copy_offset..copy_offset+copy_len]`, `svn/diff.rs` line 107)
panics.  Second conjunct: a copy-from-target instruction whose offset is
at or beyond the already-produced target length (`target_buf[copy_offset + i]`,
line 116) panics.  The embedding returns the panic marker `none` on both. -/
theorem claim_C10_apply_copy_panics :
    SvnDiff.apply [83, 86, 78, 0, 0, 0, 1, 2, 0, 0x01, 0x01] [] = none ∧
      SvnDiff.apply [83, 86, 78, 0, 0, 0, 1, 2, 0, 0x41, 0x00] [] = none := by
  decide

namespace Stage1

/-- Error type of `convert/mod.rs::ConvertError` (a unit struct). -/
structure ConvertError where
  deriving DecidableEq, Repr

/-- `convert/stage1.rs::handle_svn_rev` (lines 334-383), projected onto
the sequence of `svn_rev` values of the kept `root_rev_data` table: first
the monotonicity check `self.root_rev_data.last().is_some_and(|prev|
svn_rev <= prev.svn_rev)` fails the conversion, then (when the check
passes) the revision is processed and pushed.  `treeOk` abstracts the
fallible tree-building work between the check and the push
(`read_svn_rev_tree` / `split_branches` / per-branch processing); any
failure there aborts the conversion without pushing. -/
def handleSvnRev (treeOk : Nat → Bool) (rootRevs : List Nat) (svnRev : Nat) :
    Except ConvertError (List Nat) :=
  if (match rootRevs.getLast? with
      | some prev => decide (svnRev ≤ prev)
      | none => false) then
    .error {}
  else if treeOk svnRev then .ok (rootRevs ++ [svnRev])
  else .error {}

/-- The `Record::Rev` arm of the `convert/stage1.rs::run_inner` loop,
folding `handleSvnRev` over the stream of revision records. -/
def processRevs (treeOk : Nat → Bool) : List Nat → List Nat →
    Except ConvertError (List Nat)
  | [], acc => .ok acc
  | r :: rs, acc =>
    match handleSvnRev treeOk acc r with
    | .error e => .error e
    | .ok acc' => processRevs treeOk rs acc'

end Stage1

/-- C7: SVN revision numbers accepted across consecutive Rev records
strictly increase.  First conjunct: handling a Rev record whose `rev_no`
is at most the previously kept revision's number fails the conversion
with an error.  Second conjunct: the revision numbers kept by any
successful run form a strictly increasing sequence. -/
theorem claim_C7_rev_monotonic :
    (∀ (treeOk : Nat → Bool) (l : List Nat) (rev prev : Nat),
      l.getLast? = some prev → rev ≤ prev →
        Stage1.handleSvnRev treeOk l rev = .error {}) ∧
    (∀ (treeOk : Nat → Bool) (revs out : List Nat),
      Stage1.processRevs treeOk revs [] = .ok out → out.Chain' (· < ·)) := by
  constructor
  · intro treeOk l rev prev hlast hle
    unfold Stage1.handleSvnRev
    rw [hlast]
    simp [hle]
  · intro treeOk revs out h
    suffices hgen : ∀ (rs acc out : List Nat), acc.Chain' (· < ·) →
        Stage1.processRevs treeOk rs acc = .ok out → out.Chain' (· < ·) by
      exact hgen revs [] out List.chain'_nil h
    intro rs
    induction rs with
    | nil =>
      intro acc out hacc h
      cases h
      exact hacc
    | cons r rs ih =>
      intro acc out hacc h
      unfold Stage1.processRevs at h
      cases hstep : Stage1.handleSvnRev treeOk acc r with
      | error e =>
        rw [hstep] at h
        exact absurd h (by simp)
      | ok acc' =>
        rw [hstep] at h
        refine ih acc' out ?_ h
        unfold Stage1.handleSvnRev at hstep
        split at hstep
        · exact absurd hstep (by simp)
        · split at hstep
          · cases hstep
            rw [List.chain'_append]
            refine ⟨hacc, List.chain'_singleton r, ?_⟩
            intro x hx y hy
            simp only [Option.mem_def] at hx
            simp only [List.head?_cons, Option.mem_def, Option.some.injEq] at hy
            subst hy
            rename_i hcheck _
            rw [hx] at hcheck
            simp only [decide_eq_true_eq] at hcheck
            omega
          · exact absurd hstep (by simp)

/-- Witness for C7 at a concrete input: with previously kept revision 5,
handling revision 3 errors; and a successful run keeps a strictly
increasing sequence. -/
theorem claim_C7_rev_monotonic_witness :
    Stage1.handleSvnRev (fun _ => true) [5] 3 = .error {} ∧
      List.Chain' (· < ·) [1, 4] :=
  ⟨claim_C7_rev_monotonic.1 (fun _ => true) [5] 3 5 (by decide) (by decide),
    claim_C7_rev_monotonic.2 (fun _ => true) [1, 4] [1, 4] (by decide)⟩

namespace GitRefs

/-- `git/mod.rs::legalize_branch_name::legalize_component` (lines 7-17):
a component ending in `".lock"` has that suffix replaced by `"_lock"`
(truncate 5 chars, then push `"_lock"`); a component ending in `'.'` has
the dot replaced by `'_'`; a component equal to `"refs"` gets `'_'`
appended. -/
def legalizeComponent (name : List Char) : List Char :=
  if (".lock".toList).isSuffixOf name then
    name.take (name.length - 5) ++ "_lock".toList
  else if name.getLast? = some '.' then name.dropLast ++ ['_']
  else if name = "refs".toList then name ++ ['_']
  else name

/-- The char of `git/mod.rs::legalize_branch_name` lines 27-40: a char is
disallowed when in `'\0'..=' '`, one of `* : ? [ \ ] ^`, an opening or
closing curly bracket, or at least `'~'` (which also covers every
non-ASCII char, in particular the U+FFFD replacements produced by the
lossy UTF-8 decoding). -/
def disallowedChr (c : Char) : Bool :=
  c ≤ ' ' || c = '*' || c = ':' || c = '?' || c = '[' || c = '\\' ||
    c = ']' || c = '^' || c = '\x7b' || c = '\x7d' || '~' ≤ c

/-- The character loop of `git/mod.rs::legalize_branch_name` (lines
20-53) with accumulator `acc` (`legal_name` in the source).  A `'/'` is
dropped when it would create an empty leading or intermediate component,
and otherwise ends the current component (legalizing it); any disallowed
char, a dot starting a component or following a dot, and a leading dash
are replaced by `'_'`. -/
def legalizeGo : List Char → List Char → List Char
  | [], acc => acc
  | c :: rest, acc =>
    if c = '/' then
      if acc.getLast? ≠ some '/' ∧ acc ≠ [] then
        legalizeGo rest (legalizeComponent acc ++ ['/'])
      else legalizeGo rest acc
    else
      if disallowedChr c ∨
          ((acc.getLast? = some '/' ∨ acc = [] ∨ acc.getLast? = some '.') ∧
            c = '.') ∨
          (acc = [] ∧ c = '-') then
        legalizeGo rest (acc ++ ['_'])
      else legalizeGo rest (acc ++ [c])

/-- `git/mod.rs::legalize_branch_name` (lines 6-64).  The Rust function
takes raw bytes and iterates `String::from_utf8_lossy(raw_name).chars()`;
the embedding operates on that decoded char sequence (the lossy UTF-8
decoding itself is not modelled; every char `≥ '~'`, hence every
non-ASCII char, is replaced by `'_'` anyway). -/
def legalizeBranchName (rawName : List Char) : List Char :=
  let n := legalizeGo rawName []
  let n' := if n.getLast? = some '/' then n.dropLast else n
  let n'' := legalizeComponent n'
  if n'' = [] then ['_'] else n''

end GitRefs

namespace GitRefs

theorem legalizeGo_cons (c : Char) (rest acc : List Char) :
    legalizeGo (c :: rest) acc =
      if c = '/' then
        if acc.getLast? ≠ some '/' ∧ acc ≠ [] then
          legalizeGo rest (legalizeComponent acc ++ ['/'])
        else legalizeGo rest acc
      else
        if disallowedChr c ∨
            ((acc.getLast? = some '/' ∨ acc = [] ∨ acc.getLast? = some '.') ∧
              c = '.') ∨
            (acc = [] ∧ c = '-') then
          legalizeGo rest (acc ++ ['_'])
        else legalizeGo rest (acc ++ [c]) := rfl

theorem legalizeGo_append (xs ys acc : List Char) :
    legalizeGo (xs ++ ys) acc = legalizeGo ys (legalizeGo xs acc) := by
  induction xs generalizing acc with
  | nil => rfl
  | cons x xs ih =>
    rw [List.cons_append, legalizeGo_cons, legalizeGo_cons]
    split_ifs <;> exact ih _

theorem legalizeGo_plain {c : Char} (rest acc : List Char)
    (h1 : c ≠ '/') (h2 : disallowedChr c = false) (h3 : c ≠ '.')
    (h4 : c ≠ '-') :
    legalizeGo (c :: rest) acc = legalizeGo rest (acc ++ [c]) := by
  rw [legalizeGo_cons, if_neg h1, if_neg]
  rintro (hd | ⟨-, hdot⟩ | ⟨-, hdash⟩)
  · rw [h2] at hd
    cases hd
  · exact h3 hdot
  · exact h4 hdash

theorem legalizeGo_dot (rest acc : List Char) :
    legalizeGo ('.' :: rest) acc =
      legalizeGo rest (acc ++
        [if acc.getLast? = some '/' ∨ acc = [] ∨ acc.getLast? = some '.'
          then '_' else '.']) := by
  rw [legalizeGo_cons, if_neg (by decide : ¬(('.' : Char) = '/'))]
  by_cases hP : acc.getLast? = some '/' ∨ acc = [] ∨ acc.getLast? = some '.'
  · rw [if_pos (Or.inr (Or.inl ⟨hP, rfl⟩)), if_pos hP]
  · rw [if_neg, if_neg hP]
    rintro (hd | ⟨hP', -⟩ | ⟨hnil, -⟩)
    · exact absurd hd (by decide)
    · exact hP hP'
    · exact hP (Or.inr (Or.inl hnil))

theorem legalizeGo_lock (acc : List Char) :
    legalizeGo ['.', 'l', 'o', 'c', 'k'] acc =
      acc ++
        [if acc.getLast? = some '/' ∨ acc = [] ∨ acc.getLast? = some '.'
          then '_' else '.'] ++ ['l', 'o', 'c', 'k'] := by
  rw [legalizeGo_dot]
  rw [legalizeGo_plain _ _ (by decide) (by decide) (by decide) (by decide)]
  rw [legalizeGo_plain _ _ (by decide) (by decide) (by decide) (by decide)]
  rw [legalizeGo_plain _ _ (by decide) (by decide) (by decide) (by decide)]
  rw [legalizeGo_plain _ _ (by decide) (by decide) (by decide) (by decide)]
  show acc ++ [_] ++ ['l'] ++ ['o'] ++ ['c'] ++ ['k'] = _
  simp [List.append_assoc]

theorem legalizeComponent_lock_case (A : List Char) (d : Char)
    (hd : d = '.' ∨ d = '_') :
    legalizeComponent (A ++ d :: ['l', 'o', 'c', 'k']) =
      A ++ ['_', 'l', 'o', 'c', 'k'] := by
  cases hd with
  | inl hd =>
    subst hd
    unfold legalizeComponent
    rw [if_pos ((List.isSuffixOf_iff_suffix).2
      (by exact List.suffix_append A ['.', 'l', 'o', 'c', 'k']))]
    have hlen : (A ++ '.' :: ['l', 'o', 'c', 'k']).length - 5 = A.length := by
      simp
    rw [hlen, List.take_left]
    rfl
  | inr hd =>
    subst hd
    have hsuf : ¬((".lock".toList.isSuffixOf
        (A ++ '_' :: ['l', 'o', 'c', 'k'])) = true) := by
      intro h
      obtain ⟨t, ht⟩ := (List.isSuffixOf_iff_suffix).1 h
      have hlen : t.length = A.length := by
        have hl := congrArg List.length ht
        simp at hl
        omega
      have heq := List.append_inj_right ht hlen
      exact absurd heq (by decide)
    have hdot : ¬((A ++ '_' :: ['l', 'o', 'c', 'k']).getLast? = some '.') := by
      rw [List.getLast?_append]
      intro h
      have h' : some 'k' = some '.' := h
      simp at h'
    have hrefs : ¬(A ++ '_' :: ['l', 'o', 'c', 'k'] = "refs".toList) := by
      intro h
      have hl := congrArg List.length h
      simp [String.toList] at hl
    unfold legalizeComponent
    rw [if_neg hsuf, if_neg hdot, if_neg hrefs]

end GitRefs

/-- C8 counterexample: ref-name legalization does not strip the `".lock"`
suffix: the name `"foo.lock"` legalizes to `"foo_lock"`, not `"foo"`. -/
theorem claim_C8_lock_counterexample :
    GitRefs.legalizeBranchName "foo.lock".toList = "foo_lock".toList ∧
      "foo_lock".toList ≠ "foo".toList := by decide

/-- C8 (amended): for every ref name whose final component ends in
`".lock"`, legalization replaces that `".lock"` suffix by `"_lock"`
(truncating the 5 chars and appending `"_lock"`, so a branch pre-named
`"foo.lock"` yields component `"foo_lock"`), as part of producing a name
that satisfies Git ref naming rules: legalizing `cs ++ ".lock"` always
yields the legalization of `cs` followed by `"_lock"`. -/
theorem claim_C8_lock_amended (cs : List Char) :
    GitRefs.legalizeBranchName (cs ++ ".lock".toList) =
      GitRefs.legalizeGo cs [] ++ "_lock".toList := by
  have hlist : ".lock".toList = ['.', 'l', 'o', 'c', 'k'] := rfl
  rw [hlist]
  simp only [GitRefs.legalizeBranchName]
  rw [GitRefs.legalizeGo_append, GitRefs.legalizeGo_lock]
  have hlast : (GitRefs.legalizeGo cs [] ++
      [if (GitRefs.legalizeGo cs []).getLast? = some '/' ∨
          GitRefs.legalizeGo cs [] = [] ∨
          (GitRefs.legalizeGo cs []).getLast? = some '.'
        then '_' else '.'] ++ ['l', 'o', 'c', 'k']).getLast? = some 'k' := by
    rw [List.getLast?_append]
    rfl
  rw [hlast, if_neg (by decide : ¬(some 'k' = some '/'))]
  rw [List.append_assoc, List.singleton_append]
  by_cases hP : (GitRefs.legalizeGo cs []).getLast? = some '/' ∨
      GitRefs.legalizeGo cs [] = [] ∨
      (GitRefs.legalizeGo cs []).getLast? = some '.'
  · rw [if_pos hP,
      GitRefs.legalizeComponent_lock_case _ '_' (Or.inr rfl),
      if_neg (by simp)]
    rfl
  · rw [if_neg hP,
      GitRefs.legalizeComponent_lock_case _ '.' (Or.inl rfl),
      if_neg (by simp)]
    rfl

namespace Classify

/-- `convert/options.rs::DirSpecNode`: a node of the configured branch
trie is either a branch leaf (`Branch(is_tag)`) or a container
(`ContainerDirSpecNode { wildcard, subdirs }`).  The `FHashMap` of
subdirectories is modelled as an association list with unique keys (the
map's iteration order is never observed). -/
inductive DirSpecNode where
  | branch (isTag : Bool)
  | container (wildcard : Option Bool) (subdirs : List (List Nat × DirSpecNode))

/-- Association-list lookup standing for `FHashMap::get`. -/
def lookupSub : List (List Nat × DirSpecNode) → List Nat → Option DirSpecNode
  | [], _ => none
  | (k, n) :: rest, key => if k = key then some n else lookupSub rest key

/-- Association-list insert-or-replace standing for the
`FHashMap::entry` occupied/vacant update. -/
def updateSub (subdirs : List (List Nat × DirSpecNode)) (key : List Nat)
    (n : DirSpecNode) : List (List Nat × DirSpecNode) :=
  match subdirs with
  | [] => [(key, n)]
  | (k, m) :: rest =>
    if k = key then (k, n) :: rest else (k, m) :: updateSub rest key n

/-- `convert/options.rs::DirClass`. -/
inductive DirClass where
  | unbranched
  | branch (branchPath : List Nat) (isTag : Bool) (subPath : List Nat)
  | branchParent
  deriving DecidableEq, Repr

/-- Path splitting `path.split(|&c| c == b'/')` (byte 47). -/
def splitPath (path : List Nat) : List (List Nat) :=
  List.splitOn 47 path

/-- Joining components back with `'/'`; `joinPath (consumed)` equals the
byte slice `path[..current_path_len]` that the source computes, and
`joinPath rest` the `sub_path` slice `path[(current_path_len + 1)..]`. -/
def joinPath (comps : List (List Nat)) : List Nat :=
  List.intercalate [47] comps

/-- The component loop of `convert/options.rs::Options::classify_dir`
(lines 199-247): look the component up in the current container's
subdirs; a branch leaf yields `Branch`, a container recurses, and a
missing entry yields `Branch` via the container's wildcard or
`Unbranched`.  With all components consumed, the final check (lines
242-246) yields `BranchParent` iff the container has a wildcard or a
nonempty subdir map. -/
def classifyDirGo (wildcard : Option Bool)
    (subdirs : List (List Nat × DirSpecNode)) (consumed : List (List Nat)) :
    List (List Nat) → DirClass
  | [] =>
    if wildcard.isSome || !subdirs.isEmpty then .branchParent else .unbranched
  | comp :: rest =>
    match lookupSub subdirs comp with
    | some (.branch isTag) =>
      .branch (joinPath (consumed ++ [comp])) isTag (joinPath rest)
    | some (.container w subs) => classifyDirGo w subs (consumed ++ [comp]) rest
    | none =>
      match wildcard with
      | some isTag =>
        .branch (joinPath (consumed ++ [comp])) isTag (joinPath rest)
      | none => .unbranched

/-- `convert/options.rs::Options::classify_dir`, with the root container
given as the pair `(wildcard, subdirs)`.  The empty path skips the
component loop (in Rust because `b"".split` would yield one empty
component). -/
def classifyDir (root : Option Bool × List (List Nat × DirSpecNode))
    (path : List Nat) : DirClass :=
  classifyDirGo root.1 root.2 []
    (if path = [] then [] else splitPath path)

/-- The walk of `convert/options.rs::Options::add_branch_dir`
(lines 119-172) over the non-final components (`comps`), carrying the
final component `lastComp`, the original `path` (used in the
whole-path error payloads), and the current container `(wildcard,
subdirs)`.  The imperative code mutates the trie in place; this
functional version returns the updated container on success.  (On error
the Rust code can leave freshly created empty containers behind, but any
error aborts configuration loading — see `main.rs` lines 113-145 — so
configured tries arise only from all-`Ok` sequences, on which the two
agree.) -/
def addBranchDirGo (isTag : Bool) (path : List Nat) (lastComp : List Nat)
    (consumed : List (List Nat)) :
    List (List Nat) → Option Bool → List (List Nat × DirSpecNode) →
      Except (Option (List Nat)) (Option Bool × List (List Nat × DirSpecNode))
  | [], wildcard, subdirs =>
    if lastComp = [42] then
      match wildcard with
      | some _ => .error (some path)
      | none => .ok (some isTag, subdirs)
    else
      match lookupSub subdirs lastComp with
      | some _ => .error (some path)
      | none => .ok (wildcard, updateSub subdirs lastComp (.branch isTag))
  | comp :: rest, wildcard, subdirs =>
    if comp = [42] then .error none
    else
      match lookupSub subdirs comp with
      | some (.branch _) => .error (some (joinPath (consumed ++ [comp])))
      | some (.container w subs) =>
        match addBranchDirGo isTag path lastComp (consumed ++ [comp]) rest w subs with
        | .error e => .error e
        | .ok (w', subs') =>
          .ok (wildcard, updateSub subdirs comp (.container w' subs'))
      | none =>
        match addBranchDirGo isTag path lastComp (consumed ++ [comp]) rest none [] with
        | .error e => .error e
        | .ok (w', subs') =>
          .ok (wildcard, updateSub subdirs comp (.container w' subs'))

/-- `convert/options.rs::Options::add_branch_dir` (lines 110-173):
reject empty paths and leading/trailing `'/'`, split into components,
and walk/extend the trie. -/
def addBranchDir (root : Option Bool × List (List Nat × DirSpecNode))
    (path : List Nat) (isTag : Bool) :
    Except (Option (List Nat)) (Option Bool × List (List Nat × DirSpecNode)) :=
  if path = [] ∨ path.head? = some 47 ∨ path.getLast? = some 47 then
    .error none
  else
    let comps := splitPath path
    addBranchDirGo isTag path (comps.getLastD []) [] comps.dropLast root.1 root.2

/-- Folding `addBranchDir` over a configuration's branch/tag path list,
starting from the empty root (`Options::new`); the first error aborts,
as configuration loading does. -/
def buildTrie : (Option Bool × List (List Nat × DirSpecNode)) →
    List (List Nat × Bool) →
      Except (Option (List Nat)) (Option Bool × List (List Nat × DirSpecNode))
  | root, [] => .ok root
  | root, (p, tag) :: rest =>
    match addBranchDir root p tag with
    | .error e => .error e
    | .ok root' => buildTrie root' rest

mutual

/-- A node contains a configured branch below it: it is a branch leaf,
or a container with a wildcard (which makes its immediate children
branches), or one of its subdirectories does. -/
def nodeHasBranch : DirSpecNode → Bool
  | .branch _ => true
  | .container w subs => w.isSome || subdirsHaveBranch subs

/-- Some entry of the subdir list contains a configured branch. -/
def subdirsHaveBranch : List (List Nat × DirSpecNode) → Bool
  | [] => false
  | (_, n) :: rest => nodeHasBranch n || subdirsHaveBranch rest

end

mutual

/-- Well-formedness of a trie node: every container in it (itself
included) has a branch or wildcard somewhere below each of its child
subtrees.  This is the invariant maintained by successful
`add_branch_dir` calls. -/
def nodeWF : DirSpecNode → Bool
  | .branch _ => true
  | .container _ subs => subdirsWF subs

/-- Well-formedness of a subdir list: every child subtree is well-formed
and contains a branch or wildcard. -/
def subdirsWF : List (List Nat × DirSpecNode) → Bool
  | [] => true
  | (_, n) :: rest => nodeHasBranch n && nodeWF n && subdirsWF rest

end

/-- The container walk that `classifyDirGo` performs while components
keep matching containers: returns the container reached after consuming
the whole path, if any. -/
def walkContainer (wildcard : Option Bool)
    (subdirs : List (List Nat × DirSpecNode)) :
    List (List Nat) →
      Option (Option Bool × List (List Nat × DirSpecNode))
  | [] => some (wildcard, subdirs)
  | comp :: rest =>
    match lookupSub subdirs comp with
    | some (.container w subs) => walkContainer w subs rest
    | _ => none

end Classify

namespace Classify

theorem lookupSub_wf {s : List (List Nat × DirSpecNode)} {k : List Nat}
    {n : DirSpecNode} (hwf : subdirsWF s = true) (h : lookupSub s k = some n) :
    nodeHasBranch n = true ∧ nodeWF n = true := by
  induction s with
  | nil => simp [lookupSub] at h
  | cons p rest ih =>
    obtain ⟨k', m⟩ := p
    simp only [subdirsWF, Bool.and_eq_true] at hwf
    unfold lookupSub at h
    split at h
    · cases h
      exact ⟨hwf.1.1, hwf.1.2⟩
    · exact ih hwf.2 h

theorem subdirsHaveBranch_updateSub {n : DirSpecNode}
    (s : List (List Nat × DirSpecNode)) (k : List Nat)
    (hn : nodeHasBranch n = true) :
    subdirsHaveBranch (updateSub s k n) = true := by
  induction s with
  | nil => simp [updateSub, subdirsHaveBranch, hn]
  | cons p rest ih =>
    obtain ⟨k', m⟩ := p
    unfold updateSub
    split
    · simp [subdirsHaveBranch, hn]
    · simp [subdirsHaveBranch, ih]

theorem subdirsWF_updateSub {n : DirSpecNode}
    {s : List (List Nat × DirSpecNode)} (k : List Nat)
    (hwf : subdirsWF s = true) (hn : nodeHasBranch n = true)
    (hwfn : nodeWF n = true) : subdirsWF (updateSub s k n) = true := by
  induction s with
  | nil => simp [updateSub, subdirsWF, hn, hwfn]
  | cons p rest ih =>
    obtain ⟨k', m⟩ := p
    simp only [subdirsWF, Bool.and_eq_true] at hwf
    unfold updateSub
    split
    · simp [subdirsWF, hn, hwfn, hwf.2]
    · simp [subdirsWF, hwf.1.1, hwf.1.2, ih hwf.2]

theorem subdirsHaveBranch_eq_nonempty {s : List (List Nat × DirSpecNode)}
    (hwf : subdirsWF s = true) : subdirsHaveBranch s = !s.isEmpty := by
  cases s with
  | nil => rfl
  | cons p rest =>
    obtain ⟨k, n⟩ := p
    simp only [subdirsWF, Bool.and_eq_true] at hwf
    simp [subdirsHaveBranch, hwf.1.1]

theorem addBranchDirGo_wf {isTag : Bool} {path lastComp : List Nat} :
    ∀ (comps : List (List Nat)) (consumed : List (List Nat))
      (w : Option Bool) (s : List (List Nat × DirSpecNode))
      (w' : Option Bool) (s' : List (List Nat × DirSpecNode)),
      subdirsWF s = true →
      addBranchDirGo isTag path lastComp consumed comps w s = .ok (w', s') →
      subdirsWF s' = true ∧ (w'.isSome || subdirsHaveBranch s') = true := by
  intro comps
  induction comps with
  | nil =>
    intro consumed w s w' s' hwf h
    unfold addBranchDirGo at h
    split at h
    · cases hw : w with
      | some b => rw [hw] at h; exact absurd h (by simp)
      | none =>
        rw [hw] at h
        cases h
        exact ⟨hwf, by simp⟩
    · split at h
      · exact absurd h (by simp)
      · cases h
        refine ⟨subdirsWF_updateSub _ hwf rfl rfl, ?_⟩
        simp [subdirsHaveBranch_updateSub _ _ (rfl : nodeHasBranch (.branch isTag) = true)]
  | cons comp rest ih =>
    intro consumed w s w' s' hwf h
    unfold addBranchDirGo at h
    split at h
    · exact absurd h (by simp)
    · split at h
      · exact absurd h (by simp)
      · rename_i cw csubs heq
        split at h
        · exact absurd h (by simp)
        · rename_i res rw' rs' hrec
          cases h
          have hcw := lookupSub_wf hwf heq
          have hsub : subdirsWF csubs = true := hcw.2
          have hres := ih (consumed ++ [comp]) cw csubs rw' rs' hsub hrec
          refine ⟨subdirsWF_updateSub _ hwf ?_ ?_, ?_⟩
          · show (rw'.isSome || subdirsHaveBranch rs') = true
            exact hres.2
          · exact hres.1
          · simp [subdirsHaveBranch_updateSub _ _
              (show nodeHasBranch (.container rw' rs') = true from hres.2)]
      · rename_i heq
        split at h
        · exact absurd h (by simp)
        · rename_i res rw' rs' hrec
          cases h
          have hres := ih (consumed ++ [comp]) none [] rw' rs' rfl hrec
          refine ⟨subdirsWF_updateSub _ hwf ?_ ?_, ?_⟩
          · show (rw'.isSome || subdirsHaveBranch rs') = true
            exact hres.2
          · exact hres.1
          · simp [subdirsHaveBranch_updateSub _ _
              (show nodeHasBranch (.container rw' rs') = true from hres.2)]

theorem addBranchDir_wf {root root' : Option Bool × List (List Nat × DirSpecNode)}
    {path : List Nat} {isTag : Bool} (hwf : subdirsWF root.2 = true)
    (h : addBranchDir root path isTag = .ok root') :
    subdirsWF root'.2 = true := by
  unfold addBranchDir at h
  split at h
  · exact absurd h (by simp)
  · cases hrec : addBranchDirGo isTag path ((splitPath path).getLastD []) []
        (splitPath path).dropLast root.1 root.2 with
    | error e => rw [hrec] at h; exact absurd h (by simp)
    | ok res =>
      rw [hrec] at h
      cases h
      exact (addBranchDirGo_wf _ _ _ _ _ _ hwf hrec).1

theorem buildTrie_wf :
    ∀ (adds : List (List Nat × Bool))
      (root root' : Option Bool × List (List Nat × DirSpecNode)),
      subdirsWF root.2 = true → buildTrie root adds = .ok root' →
      subdirsWF root'.2 = true := by
  intro adds
  induction adds with
  | nil =>
    intro root root' hwf h
    cases h
    exact hwf
  | cons a rest ih =>
    intro root root' hwf h
    obtain ⟨p, tag⟩ := a
    unfold buildTrie at h
    cases hstep : addBranchDir root p tag with
    | error e => rw [hstep] at h; exact absurd h (by simp)
    | ok mid =>
      rw [hstep] at h
      exact ih mid root' (addBranchDir_wf hwf hstep) h

theorem classifyDirGo_nil (w : Option Bool)
    (s : List (List Nat × DirSpecNode)) (consumed : List (List Nat)) :
    classifyDirGo w s consumed [] =
      if w.isSome || !s.isEmpty then .branchParent else .unbranched := rfl

theorem classifyDirGo_cons (w : Option Bool)
    (s : List (List Nat × DirSpecNode)) (consumed : List (List Nat))
    (comp : List Nat) (rest : List (List Nat)) :
    classifyDirGo w s consumed (comp :: rest) =
      match lookupSub s comp with
      | some (.branch isTag) =>
        .branch (joinPath (consumed ++ [comp])) isTag (joinPath rest)
      | some (.container cw csubs) =>
        classifyDirGo cw csubs (consumed ++ [comp]) rest
      | none =>
        match w with
        | some isTag =>
          .branch (joinPath (consumed ++ [comp])) isTag (joinPath rest)
        | none => .unbranched := rfl

theorem walkContainer_nil (w : Option Bool)
    (s : List (List Nat × DirSpecNode)) :
    walkContainer w s [] = some (w, s) := rfl

theorem walkContainer_cons (w : Option Bool)
    (s : List (List Nat × DirSpecNode)) (comp : List Nat)
    (rest : List (List Nat)) :
    walkContainer w s (comp :: rest) =
      match lookupSub s comp with
      | some (.container cw csubs) => walkContainer cw csubs rest
      | _ => none := rfl

theorem classifyDirGo_branchParent_iff :
    ∀ (comps : List (List Nat)) (consumed : List (List Nat))
      (w : Option Bool) (s : List (List Nat × DirSpecNode)),
      subdirsWF s = true →
      (classifyDirGo w s consumed comps = .branchParent ↔
        ∃ w' s', walkContainer w s comps = some (w', s') ∧
          (w'.isSome || subdirsHaveBranch s') = true) := by
  intro comps
  induction comps with
  | nil =>
    intro consumed w s hwf
    rw [classifyDirGo_nil, walkContainer_nil]
    constructor
    · intro h
      split at h
      · refine ⟨w, s, rfl, ?_⟩
        rw [subdirsHaveBranch_eq_nonempty hwf]
        assumption
      · cases h
    · rintro ⟨w', s', hsome, hbr⟩
      cases hsome
      rw [subdirsHaveBranch_eq_nonempty hwf] at hbr
      rw [if_pos hbr]
  | cons comp rest ih =>
    intro consumed w s hwf
    rw [classifyDirGo_cons, walkContainer_cons]
    cases hlook : lookupSub s comp with
    | some m =>
      cases m with
      | branch tag => simp
      | container cw csubs =>
        have hsub : subdirsWF csubs = true := (lookupSub_wf hwf hlook).2
        exact ih (consumed ++ [comp]) cw csubs hsub
    | none =>
      cases w <;> simp

end Classify

/-- C5: for every configured branch trie (built by a sequence of
successful `add_branch_dir` calls from the empty root, as configuration
loading does) and every path, the classifier returns `BranchParent`
exactly when the path is consumed entirely inside container nodes and the
container reached has a wildcard or at least one configured branch below
it; and it returns exactly one of `Unbranched`, `Branch(..)`,
`BranchParent` — in particular `Unbranched` exactly when it returns
neither of the other two. -/
theorem claim_C5_classify_branchparent
    (adds : List (List Nat × Bool))
    (t : Option Bool × List (List Nat × Classify.DirSpecNode))
    (path : List Nat)
    (hbuild : Classify.buildTrie (none, []) adds = .ok t) :
    (Classify.classifyDir t path = .branchParent ↔
      ∃ w subs, Classify.walkContainer t.1 t.2
          (if path = [] then [] else Classify.splitPath path) =
            some (w, subs) ∧
        (w.isSome || Classify.subdirsHaveBranch subs) = true) ∧
    (Classify.classifyDir t path = .unbranched ↔
      (Classify.classifyDir t path ≠ .branchParent ∧
        ∀ bp tag sp, Classify.classifyDir t path ≠ .branch bp tag sp)) := by
  have hwf : Classify.subdirsWF t.2 = true :=
    Classify.buildTrie_wf adds (none, []) t rfl hbuild
  constructor
  · exact Classify.classifyDirGo_branchParent_iff _ [] t.1 t.2 hwf
  · cases hc : Classify.classifyDir t path with
    | unbranched => simp
    | branch bp tag sp =>
      simp only [ne_eq]
      constructor
      · intro h
        cases h
      · rintro ⟨-, hb⟩
        exact absurd rfl (hb bp tag sp)
    | branchParent =>
      simp

/-- Witness for C5 at a concrete input: the trie configured with the
single branch path `"a"`, classified at the empty (root) path, which is a
`BranchParent`. -/
theorem claim_C5_classify_branchparent_witness :
    (Classify.classifyDir (none, [([97], Classify.DirSpecNode.branch false)])
        [] = .branchParent ↔
      ∃ w subs, Classify.walkContainer none
          [([97], Classify.DirSpecNode.branch false)]
          (if ([] : List Nat) = [] then []
            else Classify.splitPath []) = some (w, subs) ∧
        (w.isSome || Classify.subdirsHaveBranch subs) = true) :=
  (claim_C5_classify_branchparent [([97], false)]
    (none, [([97], Classify.DirSpecNode.branch false)]) [] rfl).1

namespace Stage2

/-- Sorted-set membership, for the `BTreeSet<usize>` values of stage 2. -/
def smem (x : Nat) (s : List Nat) : Bool := s.contains x

/-- Sorted-set insert (`BTreeSet::insert`), keeping the list strictly
ascending. -/
def sinsert (x : Nat) : List Nat → List Nat
  | [] => [x]
  | y :: rest =>
    if x < y then x :: y :: rest
    else if x = y then y :: rest
    else y :: sinsert x rest

/-- Sorted-set removal (`BTreeSet::remove`). -/
def sremove (x : Nat) : List Nat → List Nat
  | [] => []
  | y :: rest => if x = y then rest else y :: sremove x rest

/-- `BTreeSet::extend`: insert every element of `xs`. -/
def sunionList (s : List Nat) (xs : List Nat) : List Nat :=
  xs.foldl (fun acc x => sinsert x acc) s

/-- `BTreeSet::is_subset`. -/
def ssubset (a b : List Nat) : Bool := a.all (fun x => smem x b)

/-- `BTreeSet::is_disjoint`. -/
def sdisjoint (a b : List Nat) : Bool := a.all (fun x => !smem x b)

/-- Remove every element of `b` from `a` (the `new_cherrypicks.remove`
loops at the end of `analyze_merges`). -/
def sdiff (a b : List Nat) : List Nat :=
  b.foldl (fun acc x => sremove x acc) a

/-- The fields of `convert/stage1.rs::BranchRevData` that stage 2's
commit emission reads (`tree_oid`, `removed_svn_merges` and the
serialization-only fields are not needed by the parent computation
modelled here).  Indices into the `branch_rev_data` table are plain
`Nat`. -/
structure BranchRevData where
  branch : Nat
  parent : Option Nat
  tail : Nat
  rootRev : Nat
  requiredInMergeinfo : Bool
  addedSvnMerges : List Nat
  fullyRevertedMergesIn : List Nat
  ignoreMerges : Bool
  deriving Repr, Inhabited, DecidableEq

/-- `convert/stage2.rs::BranchRevGitData` (lines 35-39), with the Git
commit oid abstracted to a `Nat`.  The `branch_rev_git_data` hash map is
modelled as a total function (the Rust code indexes it with `[..]`,
which panics on a missing key; in an emission run every looked-up rev
was processed earlier). -/
structure BranchRevGitData where
  gitCommitOid : Nat
  merges : List Nat
  cherrypicks : List Nat
  deriving Repr, Inhabited, DecidableEq

/-- `convert/stage2.rs::Stage::has_svn_merges` (lines 623-637). -/
def hasSvnMerges (avoidFullyRevertedMerges : Bool) (brd : List BranchRevData)
    (reachableRevs : List Nat) (branchRev : Nat) : Bool :=
  !(brd.getD branchRev default).ignoreMerges &&
    !(brd.getD branchRev default).addedSvnMerges.isEmpty &&
    (!avoidFullyRevertedMerges ||
      sdisjoint (brd.getD branchRev default).fullyRevertedMergesIn reachableRevs)

/-- Inner loop of the first traversal of `analyze_merges` (lines
504-514): starting from commit `c`, insert ancestors into
`merged_history` until hitting one already present or one without a
parent, gathering inherited cherry-picks and queueing merge parents. -/
def gatherInner (brd : List BranchRevData) (gitData : Nat → BranchRevGitData) :
    Nat → Nat → List Nat → List Nat → List Nat →
      Option (List Nat × List Nat × List Nat)
  | 0, _, _, _, _ => none
  | fuel + 1, c, hist, icp, queue =>
    if smem c hist then some (hist, icp, queue)
    else
      let hist := sinsert c hist
      let icp := sunionList icp (gitData c).cherrypicks
      let queue := queue ++ (gitData c).merges
      match (brd.getD c default).parent with
      | some p => gatherInner brd gitData fuel p hist icp queue
      | none => some (hist, icp, queue)

/-- Outer loop of the first traversal of `analyze_merges` (lines
502-514): drain the visit queue through `gatherInner`.  `fuel` bounds
the number of queue pops (the Rust loop terminates because the
`BranchRev` graph built by stage 1 is acyclic; `none` marks fuel
exhaustion, which a caller avoids by passing enough fuel). -/
def gatherOuter (brd : List BranchRevData) (gitData : Nat → BranchRevGitData) :
    Nat → List Nat → List Nat → List Nat → Option (List Nat × List Nat)
  | _, [], hist, icp => some (hist, icp)
  | 0, _ :: _, _, _ => none
  | fuel + 1, c :: queue, hist, icp =>
    match gatherInner brd gitData (brd.length + 1) c hist icp queue with
    | none => none
    | some (hist, icp, queue) => gatherOuter brd gitData fuel queue hist icp

/-- Second loop of `analyze_merges` (lines 517-530): walk the branch's
own history collecting `added_svn_merges` of every rev that
`has_svn_merges`. -/
def gatherSvnMerges (avoidFullyRevertedMerges : Bool)
    (brd : List BranchRevData) (reachableRevs : List Nat) :
    Nat → Option Nat → List Nat → Option (List Nat)
  | _, none, acc => some acc
  | 0, some _, _ => none
  | fuel + 1, some c, acc =>
    let acc :=
      if hasSvnMerges avoidFullyRevertedMerges brd reachableRevs c then
        sunionList acc (brd.getD c default).addedSvnMerges
      else acc
    gatherSvnMerges avoidFullyRevertedMerges brd reachableRevs fuel
      (brd.getD c default).parent acc

/-- The per-merge parent walk of `analyze_merges` (lines 549-585):
follow parents from the merge source until reaching a commit already in
`merged_history` (merge), skipping commits not required in mergeinfo and
merge commits whose merged/cherry-picked sets are already in the
history; any other gap leaves it a cherry-pick.  `none` models the
`parent.unwrap()` panic or fuel exhaustion. -/
def mergedCheck (brd : List BranchRevData) (gitData : Nat → BranchRevGitData)
    (hist : List Nat) : Nat → Nat → Option Bool
  | 0, _ => none
  | fuel + 1, cur =>
    match (brd.getD cur default).parent with
    | none => none
    | some p =>
      if smem p hist then some true
      else if !(brd.getD p default).requiredInMergeinfo then
        mergedCheck brd gitData hist fuel p
      else
        if (!(gitData p).merges.isEmpty || !(gitData p).cherrypicks.isEmpty) &&
            ssubset (gitData p).merges hist &&
            ssubset (gitData p).cherrypicks hist then
          mergedCheck brd gitData hist fuel p
        else some false

/-- Inner loop of the merged-case queue drain (lines 596-605): insert
ancestors of `c` into the history, dropping each from `new_merges`
("remove parent in favor of merging the child"); the commit found
already present is also dropped from `new_merges`.  Unlike the first
traversal, a missing parent panics (`unwrap`), modelled as `none`. -/
def drainInner (brd : List BranchRevData) (gitData : Nat → BranchRevGitData) :
    Nat → Nat → List Nat → List Nat → List Nat →
      Option (List Nat × List Nat × List Nat)
  | 0, _, _, _, _ => none
  | fuel + 1, c, hist, icp, nm =>
    if smem c hist then some (hist, icp, sremove c nm)
    else
      let hist := sinsert c hist
      let icp := sunionList icp (gitData c).cherrypicks
      let nm := sremove c nm
      match (brd.getD c default).parent with
      | none => none
      | some p => drainInner brd gitData fuel p hist icp nm

/-- Outer loop of the merged-case queue drain (lines 596-605). -/
def drainQueue (brd : List BranchRevData) (gitData : Nat → BranchRevGitData) :
    Nat → List Nat → List Nat → List Nat → List Nat →
      Option (List Nat × List Nat × List Nat)
  | _, [], hist, icp, nm => some (hist, icp, nm)
  | 0, _ :: _, _, _, _ => none
  | fuel + 1, c :: queue, hist, icp, nm =>
    match drainInner brd gitData (brd.length + 1) c hist icp nm with
    | none => none
    | some (hist, icp, nm) => drainQueue brd gitData fuel queue hist icp nm

/-- The conversion loop of `analyze_merges` (lines 537-609): for each
gathered SVN merge (in ascending order), decide merge vs cherry-pick. -/
def convertGo (brd : List BranchRevData) (gitData : Nat → BranchRevGitData)
    (branchTail : Nat) (fuel : Nat) :
    List Nat → List Nat → List Nat → List Nat → List Nat →
      Option (List Nat × List Nat)
  | [], _, _, nm, ncp => some (nm, ncp)
  | m :: rest, hist, icp, nm, ncp =>
    if smem m hist then convertGo brd gitData branchTail fuel rest hist icp nm ncp
    else if (brd.getD m default).tail ≠ branchTail then
      convertGo brd gitData branchTail fuel rest hist icp nm (sinsert m ncp)
    else
      match mergedCheck brd gitData hist (brd.length + 1) m with
      | none => none
      | some false =>
        convertGo brd gitData branchTail fuel rest hist icp nm (sinsert m ncp)
      | some true =>
        let nm := sinsert m nm
        let hist := sinsert m hist
        let icp := sunionList icp (gitData m).cherrypicks
        match (brd.getD m default).parent with
        | none => none
        | some p =>
          match drainQueue brd gitData fuel (p :: (gitData m).merges)
              hist icp nm with
          | none => none
          | some (hist, icp, nm) =>
            convertGo brd gitData branchTail fuel rest hist icp nm ncp

/-- `convert/stage2.rs::Stage::analyze_merges` (lines 478-621).  All
loops carry explicit fuel (see the individual loop functions); `none`
models a panic or fuel exhaustion and never occurs on the data produced
by a stage-1 run with enough fuel. -/
def analyzeMerges (avoidFullyRevertedMerges : Bool)
    (brd : List BranchRevData) (gitData : Nat → BranchRevGitData)
    (reachableRevs : List Nat) (fuel : Nat) (branchCommit : Nat) :
    Option (List Nat × List Nat) :=
  if !hasSvnMerges avoidFullyRevertedMerges brd reachableRevs branchCommit then
    some ([], [])
  else
    match (brd.getD branchCommit default).parent with
    | none => none
    | some parentCommit =>
      match gatherOuter brd gitData fuel [parentCommit] [] [] with
      | none => none
      | some (mergedHistory, inhCherrypicks) =>
        match gatherSvnMerges avoidFullyRevertedMerges brd reachableRevs
            (brd.length + 1) (some branchCommit) [] with
        | none => none
        | some svnMerges =>
          match convertGo brd gitData (brd.getD branchCommit default).tail
              fuel svnMerges mergedHistory inhCherrypicks [] [] with
          | none => none
          | some (newMerges, newCherrypicks) =>
            some (newMerges, sdiff (sdiff newCherrypicks inhCherrypicks)
              mergedHistory)

/-- The parent-list computation of
`convert/stage2.rs::Stage::make_branch_commit` (lines 326-385): run
`analyze_merges` when merges are enabled and a parent exists, map the
candidate merges to commit oids, drop them all when cherry-picks
coexist, and prepend the mapped parent commit. -/
def makeBranchCommitParents (enableMerges avoidFullyRevertedMerges : Bool)
    (brd : List BranchRevData) (gitData : Nat → BranchRevGitData)
    (reachableRevs : List Nat) (fuel : Nat) (branchRev : Nat) :
    Option (List Nat) :=
  match (if enableMerges && (brd.getD branchRev default).parent.isSome then
      analyzeMerges avoidFullyRevertedMerges brd gitData reachableRevs fuel
        branchRev
    else some ([], [])) with
  | none => none
  | some (newMerges, newCherrypicks) =>
    let gitMerges := newMerges.map (fun m => (gitData m).gitCommitOid)
    let gitMerges :=
      if !gitMerges.isEmpty && !newCherrypicks.isEmpty then [] else gitMerges
    some ((match (brd.getD branchRev default).parent with
      | some c => [(gitData c).gitCommitOid]
      | none => []) ++ gitMerges)

end Stage2

/-- C6: for every reachable BranchRev whose `ignore_merges` flag is
true, the emitted Git commit's parent list contains at most the single
mapped parent commit: `has_svn_merges` is false for it, so
`analyze_merges` returns empty sets and no synthesized merge parents are
added. -/
theorem claim_C6_ignore_merges_single_parent
    (enableMerges avoidFullyRevertedMerges : Bool)
    (brd : List Stage2.BranchRevData)
    (gitData : Nat → Stage2.BranchRevGitData) (reachableRevs : List Nat)
    (fuel : Nat) (branchRev : Nat)
    (hreach : Stage2.smem branchRev reachableRevs = true)
    (hignore : (brd.getD branchRev default).ignoreMerges = true) :
    ∃ parents,
      Stage2.makeBranchCommitParents enableMerges avoidFullyRevertedMerges
          brd gitData reachableRevs fuel branchRev = some parents ∧
        parents.length ≤ 1 := by
  have hno : Stage2.hasSvnMerges avoidFullyRevertedMerges brd reachableRevs
      branchRev = false := by
    unfold Stage2.hasSvnMerges
    rw [hignore]
    rfl
  have hana : (if enableMerges && (brd.getD branchRev default).parent.isSome
      then Stage2.analyzeMerges avoidFullyRevertedMerges brd gitData
        reachableRevs fuel branchRev
      else some ([], [])) = some ([], []) := by
    split
    · unfold Stage2.analyzeMerges
      rw [hno]
      rfl
    · rfl
  unfold Stage2.makeBranchCommitParents
  rw [hana]
  refine ⟨_, rfl, ?_⟩
  cases (brd.getD branchRev default).parent <;> simp

/-- Witness for C6 at a concrete input: a single reachable branch rev
with `ignore_merges = true` and no parent yields an empty parent list. -/
theorem claim_C6_ignore_merges_single_parent_witness :
    ∃ parents,
      Stage2.makeBranchCommitParents true true
          [{ branch := 0, parent := none, tail := 0, rootRev := 0,
             requiredInMergeinfo := true, addedSvnMerges := [5],
             fullyRevertedMergesIn := [], ignoreMerges := true }]
          (fun _ => default) [0] 3 0 = some parents ∧
        parents.length ≤ 1 :=
  claim_C6_ignore_merges_single_parent true true _ _ [0] 3 0
    (by decide) (by decide)

namespace GitDelta

/-- The `u32::MAX` sentinel of the `DeltaTable` (an empty slot). -/
def U32MAX : Nat := 4294967295

/-- Loop body of `git/delta.rs::encode_header_size` (lines 365-381):
little-endian 7-bit chunks, MSB marks continuation.  The loop runs once
per 7 bits; fuel 10 covers every `usize` value (`128 ^ 11 > 2 ^ 70`). -/
def encodeHeaderSizeGo : Nat → Nat → List Nat
  | 0, n => [n % 128]
  | fuel + 1, n =>
    if n / 128 = 0 then [n % 128]
    else (n % 128 + 128) :: encodeHeaderSizeGo fuel (n / 128)

/-- `git/delta.rs::encode_header_size`. -/
def encodeHeaderSize (n : Nat) : List Nat :=
  encodeHeaderSizeGo 10 n

/-- `git/delta.rs::DeltaTable::insert` (lines 177-182): open addressing
with a single slot per bucket, first insertion wins. -/
def tableInsert (t : List Nat) (mask hash offset : Nat) : List Nat :=
  let idx := hash &&& mask
  match t.get? idx with
  | some e => if e = U32MAX then t.set idx offset else t
  | none => t

/-- `git/delta.rs::DeltaTable::get` (lines 184-191). -/
def tableGet (t : List Nat) (mask hash : Nat) : Option Nat :=
  match t.get? (hash &&& mask) with
  | some e => if e ≠ U32MAX then some e else none
  | none => none

/-- The fill loop of `git/delta.rs::DeltaTable::create` (lines 167-172):
hash each window-aligned chunk of the base and record its offset.
`rwh` is the window hash: the external `cyclic_poly_23::CyclicPoly32`
rolling hash is abstracted as an arbitrary function of the window bytes
(its incremental `rotate` update equals rehashing the window, which is
the external crate's contract); every use below is quantified over it. -/
def tableFill (rwh : List Nat → Nat) (src : List Nat) (w mask : Nat) :
    Nat → Nat → List Nat → List Nat
  | 0, _, t => t
  | k + 1, i, t =>
    tableFill rwh src w mask k (i + 1)
      (tableInsert t mask (rwh ((src.drop (i * w)).take w)) (i * w))

/-- `usize::next_power_of_two`: the smallest power of two that is at
least `n` (1 for `n = 0`).  Doubling from 1 reaches `n` within `n`
steps, so fuel `n` always suffices. -/
def nextPow2Go (n : Nat) : Nat → Nat → Nat
  | 0, power => power
  | fuel + 1, power => if n ≤ power then power else nextPow2Go n fuel (power * 2)

def nextPow2 (n : Nat) : Nat := nextPow2Go n n 1

/-- `git/delta.rs::DeltaTable::create` (lines 155-175): clamp the
indexable region to `u32::MAX`, size the table to the next power of two
of the window count, and fill it. -/
def tableCreate (rwh : List Nat → Nat) (src : List Nat) (windowShift : Nat) :
    List Nat × Nat :=
  let maxOffset := min src.length U32MAX
  let windowLen := 2 ^ windowShift
  let numEntries := nextPow2 (maxOffset >>> windowShift)
  let mask := numEntries - 1
  (tableFill rwh src windowLen mask (maxOffset / windowLen) 0
    (List.replicate numEntries U32MAX), mask)

/-- The backward match extension of `git/delta.rs::diff` (lines
220-226): decrement both range starts while the preceding bytes agree.
Structural recursion on the source start position. -/
def extendBack (base target : List Nat) : Nat → Nat → Nat × Nat
  | 0, t => (0, t)
  | s + 1, 0 => (s + 1, 0)
  | s + 1, t + 1 =>
    if base.getD s 0 = target.getD t 0 then extendBack base target s t
    else (s + 1, t + 1)

/-- The forward match extension of `git/delta.rs::diff` (lines 228-234):
increment both range ends while in bounds and the bytes agree.  Any
`fuel ≥ base.length` suffices (the loop stops at `base.length`). -/
def extendFwd (base target : List Nat) : Nat → Nat → Nat → Nat × Nat
  | 0, s, t => (s, t)
  | fuel + 1, s, t =>
    if s ≠ base.length ∧ t ≠ target.length ∧ target.getD t 0 = base.getD s 0 then
      extendFwd base target fuel (s + 1) (t + 1)
    else (s, t)

/-- The backtracking loop of `git/delta.rs::diff` (lines 238-246): pop
emitted chunks whose target position lies at or after the new match
start, moving the effective start and output truncation point back.
`chunks` is the stack with the newest entry first (Rust pushes/pops at
the vector's end). -/
def popChunks (targetRangeStart : Nat) :
    List (Nat × Nat) → Nat → Nat → List (Nat × Nat) × Nat × Nat
  | [], teff, eol => ([], teff, eol)
  | (pt, po) :: rest, teff, eol =>
    if pt < targetRangeStart then ((pt, po) :: rest, teff, eol)
    else popChunks targetRangeStart rest pt po

/-- The inline-data emission of `git/delta.rs::diff` (lines 250-258):
emit `target[handled..teff)` as inline ops of at most 0x7F bytes,
pushing a chunk marker per op.  Any `fuel ≥ teff - handled` suffices. -/
def emitInlineGo (target : List Nat) :
    Nat → Nat → Nat → List (Nat × Nat) → List Nat →
      Nat × List (Nat × Nat) × List Nat
  | 0, handled, _, chunks, out => (handled, chunks, out)
  | fuel + 1, handled, teff, chunks, out =>
    if handled < teff then
      let len := min 0x7F (teff - handled)
      emitInlineGo target fuel (handled + len) teff
        ((handled, out.length) :: chunks)
        (out ++ [len] ++ (target.drop handled).take len)
    else (handled, chunks, out)

/-- One copy opcode with its argument bytes, as emitted by
`git/delta.rs::diff` lines 275-323: select bits 0x01..0x08 for the
nonzero offset bytes and 0x10..0x40 for the nonzero length bytes (none
when the length is exactly 0x10000), then the selected bytes in
little-endian order. -/
def encodeCopyOp (srcOffset srcChunkLen : Nat) : List Nat :=
  let op := 0x80 |||
    (if srcOffset &&& 0xFF ≠ 0 then 0x01 else 0) |||
    (if srcOffset &&& 0xFF00 ≠ 0 then 0x02 else 0) |||
    (if srcOffset &&& 0xFF0000 ≠ 0 then 0x04 else 0) |||
    (if srcOffset &&& 0xFF000000 ≠ 0 then 0x08 else 0) |||
    (if srcChunkLen ≠ 0x10000 then
      (if srcChunkLen &&& 0xFF ≠ 0 then 0x10 else 0) |||
        (if srcChunkLen &&& 0xFF00 ≠ 0 then 0x20 else 0) |||
        (if srcChunkLen &&& 0xFF0000 ≠ 0 then 0x40 else 0)
    else 0)
  [op] ++
    (if srcOffset &&& 0xFF ≠ 0 then [srcOffset &&& 0xFF] else []) ++
    (if srcOffset &&& 0xFF00 ≠ 0 then [(srcOffset >>> 8) &&& 0xFF] else []) ++
    (if srcOffset &&& 0xFF0000 ≠ 0 then [(srcOffset >>> 16) &&& 0xFF] else []) ++
    (if srcOffset &&& 0xFF000000 ≠ 0 then [(srcOffset >>> 24) &&& 0xFF] else []) ++
    (if srcChunkLen ≠ 0x10000 then
      (if srcChunkLen &&& 0xFF ≠ 0 then [srcChunkLen &&& 0xFF] else []) ++
        (if srcChunkLen &&& 0xFF00 ≠ 0 then [(srcChunkLen >>> 8) &&& 0xFF] else []) ++
        (if srcChunkLen &&& 0xFF0000 ≠ 0 then [(srcChunkLen >>> 16) &&& 0xFF] else [])
    else [])

/-- The copy emission loop of `git/delta.rs::diff` (lines 262-328):
split the source range into copies of at most 0xFFFFFF bytes, pushing a
chunk marker before each op.  Any `fuel ≥ srcLen` suffices (each
iteration consumes at least one source byte). -/
def emitCopyGo :
    Nat → Nat → Nat → Nat → List (Nat × Nat) → List Nat →
      Nat × List (Nat × Nat) × List Nat
  | 0, teff, _, _, chunks, out => (teff, chunks, out)
  | fuel + 1, teff, srcOffset, srcLen, chunks, out =>
    if srcLen = 0 then (teff, chunks, out)
    else
      let chunkLen := min srcLen 0xFFFFFF
      emitCopyGo fuel (teff + chunkLen) (srcOffset + chunkLen)
        (srcLen - chunkLen) ((teff, out.length) :: chunks)
        (out ++ encodeCopyOp srcOffset chunkLen)

/-- The trailing inline emission of `git/delta.rs::diff` (lines
350-356): emit the unhandled target tail as inline ops (no chunk
markers; the stack is no longer used). -/
def emitInlineTail (target : List Nat) : Nat → Nat → List Nat → List Nat
  | 0, _, out => out
  | fuel + 1, handled, out =>
    if handled < target.length then
      let len := min 0x7F (target.length - handled)
      emitInlineTail target fuel (handled + len)
        (out ++ [len] ++ (target.drop handled).take len)
    else out

/-- The body of a verified table hit in `git/delta.rs::diff` (lines
217-331): extend the match in both directions, backtrack the chunk
stack, truncate the output, emit the pending inline data and the copy
ops.  Returns the new `target_handled` (= `target_range.end`), the
chunk stack and the output. -/
def hitStep (base target : List Nat) (w si ti handled : Nat)
    (chunks : List (Nat × Nat)) (out : List Nat) :
    Nat × List (Nat × Nat) × List Nat :=
  let sb := extendBack base target si ti
  let sf := extendFwd base target (base.length - (si + w)) (si + w) (ti + w)
  let pc := popChunks sb.2 chunks (max handled sb.2) out.length
  let out1 := out.take pc.2.2
  let hco :=
    if pc.2.1 > handled then
      emitInlineGo target (pc.2.1 - handled) handled pc.2.1 pc.1 out1
    else (handled, pc.1, out1)
  let srcOffset := sb.1 + (pc.2.1 - sb.2)
  let ec := emitCopyGo (sf.1 - srcOffset) pc.2.1 srcOffset (sf.1 - srcOffset)
    hco.2.1 hco.2.2
  (sf.2, ec.2.1, ec.2.2)

/-- The main scan loop of `git/delta.rs::diff` (lines 211-348).  At each
position the window starting at `ti` is hashed and looked up; a
byte-verified hit is processed by `hitStep` and the scan resumes after
the match; otherwise the window advances one byte.  Returns the final
`target_handled` and the output.  `ti` strictly increases each
iteration, so any `fuel ≥ target.length + 1` suffices. -/
def diffGo (rwh : List Nat → Nat) (base target : List Nat) (w : Nat)
    (table : List Nat) (mask : Nat) :
    Nat → Nat → Nat → List (Nat × Nat) → List Nat → Nat × List Nat
  | 0, _, handled, _, out => (handled, out)
  | fuel + 1, ti, handled, chunks, out =>
    let hash := rwh ((target.drop ti).take w)
    match tableGet table mask hash with
    | some si =>
      if (base.drop si).take w = (target.drop ti).take w then
        let r := hitStep base target w si ti handled chunks out
        if target.length - r.1 < w then (r.1, r.2.2)
        else diffGo rwh base target w table mask fuel r.1 r.1 r.2.1 r.2.2
      else
        match target.get? (ti + w) with
        | none => (handled, out)
        | some _ => diffGo rwh base target w table mask fuel (ti + 1) handled chunks out
    | none =>
      match target.get? (ti + w) with
      | none => (handled, out)
      | some _ => diffGo rwh base target w table mask fuel (ti + 1) handled chunks out

/-- `git/delta.rs::diff` (lines 194-363), parameterized over the window
hash `rwh` (see `tableFill`).  Returns `none` when the target is too
small or the delta would not be smaller than the target.  (For
`windowShift ≥ 64` the Rust code panics in `checked_shl().unwrap()`
before ever returning; in the model `2 ^ windowShift` then exceeds any
target length, so the result is `none` — in neither case is a delta
produced.) -/
def diff (rwh : List Nat → Nat) (base target : List Nat) (windowShift : Nat) :
    Option (List Nat) :=
  let windowLen := 2 ^ windowShift
  if target.length ≤ max windowLen 16 then none
  else
    let tm := tableCreate rwh base windowShift
    let r := diffGo rwh base target windowLen tm.1 tm.2 (target.length + 1) 0 0
      [] (encodeHeaderSize base.length ++ encodeHeaderSize target.length)
    let out :=
      if r.1 < target.length then
        emitInlineTail target (target.length - r.1) r.1 r.2
      else r.2
    if target.length ≤ out.length then none else some out

end GitDelta

namespace TempStore

/-- `gix_object::Kind` (external crate, a plain four-variant enum). -/
inductive ObjKind where
  | blob
  | tree
  | commit
  | tag
  deriving DecidableEq, Repr, Inhabited

/-- Subset of `git/import/mod.rs::ImportError` reachable from the
temp-storage operations modelled here; the file-I/O variants are
collapsed into `ioError`. -/
inductive ImportError where
  | objectNotFound (oid : Nat)
  | unexpectedObjectKind (oid : Nat) (kind : ObjKind)
  | deltaPatchError
  | ioError
  deriving DecidableEq, Repr

/-- The `u64::MAX` sentinel marking a reservation
(`git/import/temp_storage.rs` line 234: "offset == MAX signals
reservation pending write"). -/
def MAXOFF : Nat := 2 ^ 64 - 1

/-- `git/import/temp_storage.rs::ObjInfo` (lines 209-215), with oids
abstracted to `Nat`.  A reservation has `offset = MAXOFF` and
`deltaDepth = 255` (`u8::MAX`). -/
structure ObjInfo where
  offset : Nat
  kind : ObjKind
  deltaDepth : Nat
  deltaBase : Option Nat
  deriving DecidableEq, Repr, Inhabited

/-- The sequential state of a `TempStorage`: the append-only backing
file as the list of appended records (a record's offset is its index;
the byte-position arithmetic and the LZ4 frame compression live in the
external `seek`/`lz4_flex` calls, whose round-trip is their contract,
so records are stored uncompressed here), the `oid → info` map and the
LRU cache, both as association lists.  The `lru_mem` crate's byte-budget
eviction is not modelled (eviction only removes cache entries; no claim
below depends on the eviction policy).  Mutexes and the reservation
condvar disappear in the sequential model: each operation runs to
completion, so no reservation is ever observable between operations. -/
structure State where
  file : List (List Nat)
  info : List (Nat × ObjInfo)
  cache : List (Nat × List Nat)
  deriving DecidableEq, Repr, Inhabited

/-- The empty storage just after `TempStorage::create`. -/
def initState : State := { file := [], info := [], cache := [] }

/-- Association-list lookup (`FHashMap::get`). -/
def lookupInfo : List (Nat × ObjInfo) → Nat → Option ObjInfo
  | [], _ => none
  | (k, i) :: rest, key => if k = key then some i else lookupInfo rest key

/-- Association-list insert-or-replace (`FHashMap` entry update). -/
def setInfo : List (Nat × ObjInfo) → Nat → ObjInfo → List (Nat × ObjInfo)
  | [], key, v => [(key, v)]
  | (k, i) :: rest, key, v =>
    if k = key then (k, v) :: rest else (k, i) :: setInfo rest key v

/-- Cache lookup (`Cache::get`; the LRU reordering is unobservable
here). -/
def cacheGet : List (Nat × List Nat) → Nat → Option (List Nat)
  | [], _ => none
  | (k, d) :: rest, key => if k = key then some d else cacheGet rest key

/-- Cache insert (`Cache::insert`). -/
def cacheInsert : List (Nat × List Nat) → Nat → List Nat → List (Nat × List Nat)
  | [], key, v => [(key, v)]
  | (k, d) :: rest, key, v =>
    if k = key then (k, v) :: rest else (k, d) :: cacheInsert rest key v

/-- The info value of a fresh reservation: `offset = u64::MAX`,
`delta_depth = u8::MAX`, no delta base (`pre_insert` lines 233-238). -/
def reservedInfo (kind : ObjKind) : ObjInfo :=
  { offset := MAXOFF, kind := kind, deltaDepth := 255, deltaBase := none }

/-- `git/import/temp_storage.rs::ObjsInfo::pre_insert` (lines 229-242):
an occupied entry returns its recorded offset; a vacant one is reserved
with `reservedInfo`. -/
def preInsert (s : State) (oid : Nat) (kind : ObjKind) : Option Nat × State :=
  match lookupInfo s.info oid with
  | some i => (some i.offset, s)
  | none =>
    (none, { s with info := setInfo s.info oid (reservedInfo kind) })

/-- `git/import/temp_storage.rs::ObjsInfo::finish_insert` (lines
244-259): `unwrap` on a missing entry and the
`assert_eq!(info.offset, u64::MAX)` are modelled as the panic marker
`none`. -/
def finishInsert (s : State) (oid offset depth : Nat) (base : Option Nat) :
    Option State :=
  match lookupInfo s.info oid with
  | none => none
  | some i =>
    if i.offset ≠ MAXOFF then none
    else
      some
        { s with
          info := setInfo s.info oid
            { offset := offset, kind := i.kind, deltaDepth := depth,
              deltaBase := base } }

/-- `git/import/temp_storage.rs::ObjsInfo::with_info`/`get` (lines
261-275): absent oids yield `some none`; a reserved entry makes the
caller block on the condvar, which in the sequential model is a
divergence, marked by the outer `none`. -/
def getInfoBlocking (s : State) (oid : Nat) : Option (Option ObjInfo) :=
  match lookupInfo s.info oid with
  | none => some none
  | some i => if i.offset = MAXOFF then none else some (some i)

/-- The chain walk of `git/import/temp_storage.rs::resolve_delta`
(lines 170-187): follow delta bases until a cached or non-delta entry,
collecting the offsets of the deltas to apply (returned bottom-up, which
matches the Rust `chain.iter().rev()` application order).  `none` models
the `unwrap` panic on a missing base (line 173), a blocked reservation,
a bad file offset, or fuel exhaustion. -/
def chainWalk (s : State) : Nat → Nat → Option (List Nat × List Nat)
  | 0, _ => none
  | fuel + 1, oid =>
    match getInfoBlocking s oid with
    | none => none
    | some none => none
    | some (some i) =>
      match cacheGet s.cache i.offset with
      | some data => some (data, [])
      | none =>
        match i.deltaBase with
        | some b =>
          match chainWalk s fuel b with
          | none => none
          | some (data, chain) => some (data, chain ++ [i.offset])
        | none =>
          match s.file.get? i.offset with
          | none => none
          | some data => some (data, [])

/-- The patch loop of `resolve_delta` (lines 189-195): apply the
collected deltas bottom-up. -/
def applyChain (s : State) : List Nat → List Nat →
    Option (Except ImportError (List Nat))
  | data, [] => some (.ok data)
  | data, off :: rest =>
    match s.file.get? off with
    | none => some (.error .ioError)
    | some deltaData =>
      match GitDelta.patch data deltaData with
      | none => none
      | some (.error _) => some (.error .deltaPatchError)
      | some (.ok next) => applyChain s next rest

/-- `git/import/temp_storage.rs::resolve_delta` (lines 167-201). -/
def resolveDelta (s : State) (fuel : Nat) (delta : List Nat) (immBase : Nat) :
    Option (Except ImportError (List Nat)) :=
  match chainWalk s fuel immBase with
  | none => none
  | some (data, chain) =>
    match applyChain s data chain with
    | none => none
    | some (.error e) => some (.error e)
    | some (.ok cur) =>
      match GitDelta.patch cur delta with
      | none => none
      | some (.error _) => some (.error .deltaPatchError)
      | some (.ok final) => some (.ok final)

/-- `git/import/temp_storage.rs::get_raw_with_info` (lines 123-151):
cache hit, else read from the file, resolve the delta chain if any, and
cache the reconstructed bytes (which updates the state). -/
def getRawWithInfo (s : State) (fuel : Nat) (oid : Nat) :
    Option (Except ImportError (ObjInfo × List Nat) × State) :=
  match getInfoBlocking s oid with
  | none => none
  | some none => some (.error (.objectNotFound oid), s)
  | some (some i) =>
    match cacheGet s.cache i.offset with
    | some data => some (.ok (i, data), s)
    | none =>
      match s.file.get? i.offset with
      | none => some (.error .ioError, s)
      | some raw =>
        match (match i.deltaBase with
          | some b => resolveDelta s fuel raw b
          | none => some (.ok raw)) with
        | none => none
        | some (.error e) => some (.error e, s)
        | some (.ok data) =>
          some (.ok (i, data), { s with cache := cacheInsert s.cache i.offset data })

/-- `git/import/temp_storage.rs::TempStorage::insert_raw_with_oid`
(lines 64-114).  The internal fuel `s.info.length + 1` bounds the base
resolution chain (a chain cannot revisit entries without diverging).
The write of `write_compress` appends one record and yields its offset;
`finish_insert` then publishes the entry, and the uncompressed object
bytes are cached under the new offset. -/
def insertRawWithOid (rwh : List Nat → Nat) (s : State) (oid : Nat)
    (kind : ObjKind) (data : List Nat) (deltaBase : Option Nat) :
    Option (Except ImportError State) :=
  match preInsert s oid kind with
  | (some offset, s1) =>
    some (.ok { s1 with cache := cacheInsert s1.cache offset data })
  | (none, s1) =>
    match (match deltaBase with
      | none => some (.ok (none, s1))
      | some b =>
        match getRawWithInfo s1 (s1.info.length + 1) b with
        | none => none
        | some (.error e, _) => some (.error e)
        | some (.ok (bi, bdata), s2) =>
          if bi.kind ≠ kind then
            some (.error (.unexpectedObjectKind b bi.kind))
          else if bi.deltaDepth < 50 then
            match GitDelta.diff rwh bdata data 4 with
            | some delta => some (.ok (some (delta, b, bi.deltaDepth + 1), s2))
            | none => some (.ok (none, s2))
          else some (.ok (none, s2)) :
      Option (Except ImportError (Option (List Nat × Nat × Nat) × State))) with
    | none => none
    | some (.error e) => some (.error e)
    | some (.ok (deltaData, s2)) =>
      match (match deltaData with
        | some (delta, b, depth) => (delta, some b, depth)
        | none => (data, none, 0) : List Nat × Option Nat × Nat) with
      | (rawData, dBase, dDepth) =>
        match finishInsert { s2 with file := s2.file ++ [rawData] } oid
            s2.file.length dDepth dBase with
        | none => none
        | some s4 =>
          some (.ok { s4 with
            cache := cacheInsert s4.cache s2.file.length data })

/-- `git/import/temp_storage_thread.rs::TempStorageThread::insert_raw`
(lines 79-105) in its sequential semantics: compute the oid by hashing
the raw object bytes (`gix_object::compute_hash`, abstracted as the
function `h`), then insert into the underlying storage and return the
oid.  (The pending map and bounded channel make writes appear
immediately consistent to readers; with the consumer drained after each
send, enqueueing followed by the consumer's `insert_raw_with_oid` equals
the direct call modelled here.) -/
def insertRaw (rwh : List Nat → Nat) (h : ObjKind → List Nat → Nat)
    (s : State) (kind : ObjKind) (data : List Nat) (deltaBase : Option Nat) :
    Option (Except ImportError (Nat × State)) :=
  match insertRawWithOid rwh s (h kind data) kind data deltaBase with
  | none => none
  | some (.error e) => some (.error e)
  | some (.ok s') => some (.ok (h kind data, s'))

/-- One insertion request, as issued by the import layer. -/
structure InsertReq where
  kind : ObjKind
  data : List Nat
  deltaBase : Option Nat
  deriving DecidableEq, Repr

/-- A sequence of insertions from a given state; any error or panic
aborts the run (the conversion treats every storage error as fatal). -/
def runInserts (rwh : List Nat → Nat) (h : ObjKind → List Nat → Nat) :
    State → List InsertReq → Option State
  | s, [] => some s
  | s, r :: rest =>
    match insertRaw rwh h s r.kind r.data r.deltaBase with
    | some (.ok (_, s')) => runInserts rwh h s' rest
    | _ => none

end TempStore

namespace TempStore

/-- The oids recorded in the info map, in insertion order. -/
def infoKeys (s : State) : List Nat := s.info.map Prod.fst

theorem lookupInfo_none_iff {l : List (Nat × ObjInfo)} {k : Nat} :
    lookupInfo l k = none ↔ k ∉ l.map Prod.fst := by
  induction l with
  | nil => simp [lookupInfo]
  | cons p rest ih =>
    obtain ⟨k', i⟩ := p
    unfold lookupInfo
    by_cases hk : k' = k
    · subst hk
      simp
    · simp only [if_neg hk, ih, List.map_cons, List.mem_cons]
      constructor
      · intro h hmem
        rcases hmem with h' | h'
        · exact hk h'.symm
        · exact h h'
      · intro h
        exact fun h' => h (Or.inr h')

theorem setInfo_map_fst_absent {l : List (Nat × ObjInfo)} {k : Nat}
    (v : ObjInfo) (h : lookupInfo l k = none) :
    (setInfo l k v).map Prod.fst = l.map Prod.fst ++ [k] := by
  induction l with
  | nil => rfl
  | cons p rest ih =>
    obtain ⟨k', i⟩ := p
    unfold lookupInfo at h
    unfold setInfo
    split at h
    · exact absurd h (by simp)
    · rename_i hk
      rw [if_neg hk]
      simp [ih h]

theorem setInfo_map_fst_present {l : List (Nat × ObjInfo)} {k : Nat}
    {i : ObjInfo} (v : ObjInfo) (h : lookupInfo l k = some i) :
    (setInfo l k v).map Prod.fst = l.map Prod.fst := by
  induction l with
  | nil => simp [lookupInfo] at h
  | cons p rest ih =>
    obtain ⟨k', j⟩ := p
    unfold lookupInfo at h
    unfold setInfo
    split at h
    · rename_i hk
      rw [if_pos hk]
      simp
    · rename_i hk
      rw [if_neg hk]
      simp [ih h]

theorem lookupInfo_setInfo_self (l : List (Nat × ObjInfo)) (k : Nat)
    (v : ObjInfo) : lookupInfo (setInfo l k v) k = some v := by
  induction l with
  | nil => simp [setInfo, lookupInfo]
  | cons p rest ih =>
    obtain ⟨k', i⟩ := p
    unfold setInfo
    by_cases hk : k' = k
    · rw [if_pos hk]
      unfold lookupInfo
      rw [if_pos hk]
    · rw [if_neg hk]
      unfold lookupInfo
      rw [if_neg hk]
      exact ih

theorem lookupInfo_setInfo_ne {l : List (Nat × ObjInfo)} {k k' : Nat}
    (v : ObjInfo) (h : k' ≠ k) :
    lookupInfo (setInfo l k v) k' = lookupInfo l k' := by
  induction l with
  | nil =>
    unfold setInfo lookupInfo
    rw [if_neg (fun he => h he.symm)]
    rfl
  | cons p rest ih =>
    obtain ⟨k'', i⟩ := p
    unfold setInfo
    by_cases hk : k'' = k
    · rw [if_pos hk]
      unfold lookupInfo
      rw [if_neg (by rw [hk]; exact fun he => h he.symm), if_neg (by rw [hk]; exact fun he => h he.symm)]
    · rw [if_neg hk]
      unfold lookupInfo
      by_cases hk' : k'' = k'
      · rw [if_pos hk', if_pos hk']
      · rw [if_neg hk', if_neg hk']
        exact ih

theorem getRawWithInfo_preserves {s s2 : State} {fuel b : Nat}
    {r : Except ImportError (ObjInfo × List Nat)}
    (h : getRawWithInfo s fuel b = some (r, s2)) :
    s2.file = s.file ∧ s2.info = s.info := by
  unfold getRawWithInfo at h
  split at h
  · exact absurd h (by simp)
  · cases h
    exact ⟨rfl, rfl⟩
  · split at h
    · cases h
      exact ⟨rfl, rfl⟩
    · split at h
      · cases h
        exact ⟨rfl, rfl⟩
      · split at h
        · exact absurd h (by simp)
        · cases h
          exact ⟨rfl, rfl⟩
        · cases h
          exact ⟨rfl, rfl⟩

theorem getInfoBlocking_some_some {s : State} {oid : Nat} {i : ObjInfo}
    (h : getInfoBlocking s oid = some (some i)) :
    lookupInfo s.info oid = some i ∧ i.offset ≠ MAXOFF := by
  unfold getInfoBlocking at h
  split at h
  · exact absurd h (by simp)
  · rename_i j hlook
    split at h
    · exact absurd h (by simp)
    · rename_i hoff
      cases h
      exact ⟨hlook, hoff⟩

theorem getRawWithInfo_ok_info {s s2 : State} {fuel b : Nat}
    {bi : ObjInfo} {bdata : List Nat}
    (h : getRawWithInfo s fuel b = some (.ok (bi, bdata), s2)) :
    lookupInfo s.info b = some bi ∧ bi.offset ≠ MAXOFF := by
  unfold getRawWithInfo at h
  split at h
  · exact absurd h (by simp)
  · exact absurd h (by simp)
  · rename_i i hblock
    have hi := getInfoBlocking_some_some hblock
    split at h
    · cases h
      exact hi
    · split at h
      · exact absurd h (by simp)
      · split at h
        · exact absurd h (by simp)
        · exact absurd h (by simp)
        · cases h
          exact hi

end TempStore

namespace TempStore

theorem insertRaw_cases {rwh : List Nat → Nat} {hf : ObjKind → List Nat → Nat}
    {s : State} {kind : ObjKind} {data : List Nat} {base : Option Nat}
    {oid : Nat} {s' : State}
    (hrun : insertRaw rwh hf s kind data base = some (.ok (oid, s'))) :
    oid = hf kind data ∧
    (((lookupInfo s.info oid).isSome ∧ s'.file = s.file ∧ s'.info = s.info) ∨
      (lookupInfo s.info oid = none ∧
        ∃ entry : ObjInfo,
          s'.file.length = s.file.length + 1 ∧
          s'.info = setInfo (setInfo s.info oid (reservedInfo kind))
            oid entry ∧
          entry.offset = s.file.length ∧ entry.deltaDepth ≤ 50 ∧
          ∀ b, entry.deltaBase = some b →
            ∃ j, lookupInfo s.info b = some j ∧
              j.deltaDepth < entry.deltaDepth)) := by
  unfold insertRaw at hrun
  cases hw : insertRawWithOid rwh s (hf kind data) kind data base with
  | none =>
    rw [hw] at hrun
    exact absurd hrun (by simp)
  | some res =>
    rw [hw] at hrun
    cases res with
    | error e => exact absurd hrun (by simp)
    | ok s'' =>
      simp only [Option.some.injEq, Except.ok.injEq, Prod.mk.injEq] at hrun
      obtain ⟨hoid, hs'⟩ := hrun
      subst hoid
      subst hs'
      refine ⟨rfl, ?_⟩
      unfold insertRawWithOid at hw
      split at hw
      · -- occupied path
        rename_i offset s1 hpre
        unfold preInsert at hpre
        split at hpre
        · rename_i i hlook
          simp only [Prod.mk.injEq] at hpre
          obtain ⟨-, hs1⟩ := hpre
          subst hs1
          simp only [Option.some.injEq, Except.ok.injEq] at hw
          subst hw
          exact Or.inl ⟨by rw [hlook]; rfl, rfl, rfl⟩
        · simp at hpre
      · -- fresh path
        rename_i s1 hpre
        unfold preInsert at hpre
        split at hpre
        · simp at hpre
        · rename_i hlook
          simp only [Prod.mk.injEq] at hpre
          have hs1 : s1 = { s with
              info := setInfo s.info (hf kind data) (reservedInfo kind) } :=
            hpre.2.symm
          subst hs1
          refine Or.inr ⟨hlook, ?_⟩
          split at hw
          · exact absurd hw (by simp)
          · exact absurd hw (by simp)
          · rename_i dpair deltaData s2 hdelta
            -- facts about (deltaData, s2)
            have hfacts : s2.file = s.file ∧
                s2.info = setInfo s.info (hf kind data) (reservedInfo kind) ∧
                ∀ delta b depth, deltaData = some (delta, b, depth) →
                  depth ≤ 50 ∧ ∃ j, lookupInfo s.info b = some j ∧
                    j.deltaDepth < depth := by
              split at hdelta
              · -- base = none
                simp only [Option.some.injEq, Except.ok.injEq,
                  Prod.mk.injEq] at hdelta
                obtain ⟨hdd, hs2⟩ := hdelta
                subst hs2
                exact ⟨rfl, rfl, by intro delta b depth hcontra
                                    rw [← hdd] at hcontra
                                    cases hcontra⟩
              · -- base = some b
                rename_i b
                split at hdelta
                · exact absurd hdelta (by simp)
                · exact absurd hdelta (by simp)
                · rename_i gres bi bdata s2' hget
                  have hpres := getRawWithInfo_preserves hget
                  have hbinfo := getRawWithInfo_ok_info hget
                  have hbne : b ≠ hf kind data := by
                    intro hbe
                    rw [hbe] at hbinfo
                    rw [show ({ s with
                        info := setInfo s.info (hf kind data)
                          (reservedInfo kind) } : State).info =
                      setInfo s.info (hf kind data) (reservedInfo kind)
                      from rfl] at hbinfo
                    rw [lookupInfo_setInfo_self] at hbinfo
                    exact hbinfo.2 (by cases hbinfo.1; rfl)
                  have hblow : lookupInfo s.info b = some bi := by
                    have hth := hbinfo.1
                    rw [show ({ s with
                        info := setInfo s.info (hf kind data)
                          (reservedInfo kind) } : State).info =
                      setInfo s.info (hf kind data) (reservedInfo kind)
                      from rfl] at hth
                    rwa [lookupInfo_setInfo_ne _ hbne] at hth
                  split at hdelta
                  · exact absurd hdelta (by simp)
                  · split at hdelta
                    · -- depth < 50, diff attempted
                      rename_i hdepth
                      split at hdelta
                      · rename_i delta hdiff
                        simp only [Option.some.injEq, Except.ok.injEq,
                          Prod.mk.injEq] at hdelta
                        obtain ⟨hdd, hs2⟩ := hdelta
                        subst hs2
                        refine ⟨hpres.1, hpres.2, ?_⟩
                        intro delta' b' depth' hdd'
                        rw [← hdd] at hdd'
                        cases hdd'
                        exact ⟨by omega, bi, hblow, by omega⟩
                      · simp only [Option.some.injEq, Except.ok.injEq,
                          Prod.mk.injEq] at hdelta
                        obtain ⟨hdd, hs2⟩ := hdelta
                        subst hs2
                        exact ⟨hpres.1, hpres.2, by intro delta b' depth hcontra
                                                    rw [← hdd] at hcontra
                                                    cases hcontra⟩
                    · simp only [Option.some.injEq, Except.ok.injEq,
                        Prod.mk.injEq] at hdelta
                      obtain ⟨hdd, hs2⟩ := hdelta
                      subst hs2
                      exact ⟨hpres.1, hpres.2, by intro delta b' depth hcontra
                                                  rw [← hdd] at hcontra
                                                  cases hcontra⟩
            obtain ⟨hs2file, hs2info, hdd⟩ := hfacts
            split at hw
            rename_i triple rawData dBase dDepth htriple
            have hdb : (∀ b, dBase = some b →
                ∃ j, lookupInfo s.info b = some j ∧ j.deltaDepth < dDepth) ∧
                dDepth ≤ 50 := by
              cases hddc : deltaData with
              | none =>
                rw [hddc] at htriple
                have h3 : ((data, none, 0) :
                    List Nat × Option Nat × Nat) = (rawData, dBase, dDepth) :=
                  htriple
                cases h3
                refine ⟨?_, Nat.zero_le _⟩
                intro b hb
                cases hb
              | some t =>
                obtain ⟨delta, b0, depth⟩ := t
                rw [hddc] at htriple
                have h3 : ((delta, some b0, depth) :
                    List Nat × Option Nat × Nat) = (rawData, dBase, dDepth) :=
                  htriple
                injection h3 with h31 h3r
                injection h3r with h32 h33
                constructor
                · intro b hb
                  rw [← h32] at hb
                  injection hb with hb0
                  cases hb0
                  rw [← h33]
                  exact (hdd delta b0 depth hddc).2
                · rw [← h33]
                  exact (hdd delta b0 depth hddc).1
            split at hw
            · exact absurd hw (by simp)
            · rename_i s4 hfin
              simp only [Option.some.injEq, Except.ok.injEq] at hw
              subst hw
              unfold finishInsert at hfin
              split at hfin
              · exact absurd hfin (by simp)
              · rename_i i hlooki
                rw [show ({ s2 with file := s2.file ++ [rawData] } : State).info =
                  s2.info from rfl, hs2info, lookupInfo_setInfo_self] at hlooki
                have hi : i = reservedInfo kind := by
                  cases hlooki
                  rfl
                subst hi
                split at hfin
                · exact absurd hfin (by simp)
                · rename_i hoff
                  simp only [Option.some.injEq] at hfin
                  subst hfin
                  refine ⟨ObjInfo.mk s2.file.length kind dDepth dBase,
                    ?_, ?_, ?_, hdb.2, hdb.1⟩
                  · simp [hs2file]
                  · show setInfo ({ s2 with
                        file := s2.file ++ [rawData] } : State).info
                      (hf kind data) _ = _
                    rw [show ({ s2 with file := s2.file ++ [rawData] } :
                      State).info = s2.info from rfl, hs2info]
                    rfl
                  · simp [hs2file]

end TempStore

namespace TempStore

theorem insertRaw_occupied {rwh : List Nat → Nat}
    {hf : ObjKind → List Nat → Nat} {s : State} {kind : ObjKind}
    {data : List Nat} {base : Option Nat} {i : ObjInfo}
    (hmem : lookupInfo s.info (hf kind data) = some i) :
    insertRaw rwh hf s kind data base =
      some (.ok (hf kind data,
        { s with cache := cacheInsert s.cache i.offset data })) := by
  have hpre : preInsert s (hf kind data) kind = (some i.offset, s) := by
    unfold preInsert
    rw [hmem]
  unfold insertRaw insertRawWithOid
  rw [hpre]

theorem insertRaw_file_keys {rwh : List Nat → Nat}
    {hf : ObjKind → List Nat → Nat} {s : State} {kind : ObjKind}
    {data : List Nat} {base : Option Nat} {oid : Nat} {s' : State}
    (hrun : insertRaw rwh hf s kind data base = some (.ok (oid, s'))) :
    s'.file.length + (infoKeys s).length =
        s.file.length + (infoKeys s').length ∧
      ((infoKeys s).Nodup → (infoKeys s').Nodup) ∧
      (∀ k, k ∈ infoKeys s' → k ∈ infoKeys s ∨ k = oid) := by
  obtain ⟨-, hcase⟩ := insertRaw_cases hrun
  cases hcase with
  | inl h =>
    obtain ⟨-, hfile, hinfo⟩ := h
    rw [show infoKeys s' = infoKeys s by unfold infoKeys; rw [hinfo], hfile]
    exact ⟨rfl, fun hn => hn, fun k hk => Or.inl hk⟩
  | inr h =>
    obtain ⟨habs, entry, hlen, hinfo, -, -, -⟩ := h
    have hkeys : infoKeys s' = infoKeys s ++ [oid] := by
      unfold infoKeys
      rw [hinfo,
        setInfo_map_fst_present entry (lookupInfo_setInfo_self _ _ _),
        setInfo_map_fst_absent _ habs]
    have hnotmem : oid ∉ infoKeys s := lookupInfo_none_iff.mp habs
    refine ⟨?_, ?_, ?_⟩
    · rw [hkeys, hlen]
      simp
      omega
    · intro hn
      rw [hkeys, List.nodup_append]
      refine ⟨hn, List.nodup_singleton oid, ?_⟩
      intro x hx hx'
      simp only [List.mem_singleton] at hx'
      subst hx'
      exact hnotmem hx
    · intro k hk
      rw [hkeys, List.mem_append, List.mem_singleton] at hk
      exact hk

theorem runInserts_facts {rwh : List Nat → Nat}
    {hf : ObjKind → List Nat → Nat} :
    ∀ (reqs : List InsertReq) (s s' : State),
      runInserts rwh hf s reqs = some s' →
      s'.file.length + (infoKeys s).length =
          s.file.length + (infoKeys s').length ∧
        ((infoKeys s).Nodup → (infoKeys s').Nodup) ∧
        (∀ k, k ∈ infoKeys s' →
          k ∈ infoKeys s ∨ k ∈ reqs.map (fun r => hf r.kind r.data)) := by
  intro reqs
  induction reqs with
  | nil =>
    intro s s' h
    cases h
    exact ⟨rfl, fun hn => hn, fun k hk => Or.inl hk⟩
  | cons r rest ih =>
    intro s s' h
    unfold runInserts at h
    split at h
    · rename_i oid s1 heq
      have hstep := insertRaw_file_keys heq
      have hoid : oid = hf r.kind r.data := (insertRaw_cases heq).1
      have hrest := ih s1 s' h
      refine ⟨by omega, fun hn => hrest.2.1 (hstep.2.1 hn), ?_⟩
      intro k hk
      rcases hrest.2.2 k hk with hk1 | hk1
      · rcases hstep.2.2 k hk1 with hk2 | hk2
        · exact Or.inl hk2
        · subst hk2
          rw [hoid]
          simp
      · simp only [List.map_cons, List.mem_cons]
        exact Or.inr (Or.inr hk1)
    · exact absurd h (by simp)

end TempStore

/-- C2: inserting an object whose bytes hash to an oid already present
returns the same oid as the first insertion and appends nothing to the
on-disk temp-store file nor changes the info map (first conjunct);
no insertion ever overwrites an earlier entry's recorded info (second
conjunct); and over any run from the empty store, the file holds at most
one record per distinct oid (third conjunct). -/
theorem claim_C2_insert_idempotent :
    (∀ (rwh : List Nat → Nat) (hf : TempStore.ObjKind → List Nat → Nat)
        (s : TempStore.State) (kind : TempStore.ObjKind) (data : List Nat)
        (base : Option Nat) (i : TempStore.ObjInfo),
      TempStore.lookupInfo s.info (hf kind data) = some i →
        ∃ s', TempStore.insertRaw rwh hf s kind data base =
            some (.ok (hf kind data, s')) ∧
          s'.file = s.file ∧ s'.info = s.info) ∧
    (∀ (rwh : List Nat → Nat) (hf : TempStore.ObjKind → List Nat → Nat)
        (s : TempStore.State) (kind : TempStore.ObjKind) (data : List Nat)
        (base : Option Nat) (oid : Nat) (s' : TempStore.State),
      TempStore.insertRaw rwh hf s kind data base = some (.ok (oid, s')) →
        ∀ k i, TempStore.lookupInfo s.info k = some i →
          TempStore.lookupInfo s'.info k = some i) ∧
    (∀ (rwh : List Nat → Nat) (hf : TempStore.ObjKind → List Nat → Nat)
        (reqs : List TempStore.InsertReq) (s' : TempStore.State),
      TempStore.runInserts rwh hf TempStore.initState reqs = some s' →
        s'.file.length ≤
          ((reqs.map (fun r => hf r.kind r.data)).dedup).length) := by
  refine ⟨?_, ?_, ?_⟩
  · intro rwh hf s kind data base i hmem
    exact ⟨_, TempStore.insertRaw_occupied hmem, rfl, rfl⟩
  · intro rwh hf s kind data base oid s' hrun k i hk
    obtain ⟨-, hcase⟩ := TempStore.insertRaw_cases hrun
    cases hcase with
    | inl h => rw [h.2.2]; exact hk
    | inr h =>
      obtain ⟨habs, entry, -, hinfo, -, -, -⟩ := h
      have hne : k ≠ oid := by
        intro he
        rw [he, habs] at hk
        cases hk
      rw [hinfo, TempStore.lookupInfo_setInfo_ne _ hne,
        TempStore.lookupInfo_setInfo_ne _ hne]
      exact hk
  · intro rwh hf reqs s' hrun
    have hfacts := TempStore.runInserts_facts reqs TempStore.initState s' hrun
    have hlen : s'.file.length = (TempStore.infoKeys s').length := by
      have h0 := hfacts.1
      have h1 : TempStore.initState.file.length = 0 := rfl
      have h2 : (TempStore.infoKeys TempStore.initState).length = 0 := rfl
      omega
    have hnodup : (TempStore.infoKeys s').Nodup :=
      hfacts.2.1 (by
        rw [show TempStore.infoKeys TempStore.initState = [] from rfl]
        exact List.nodup_nil)
    have hsub : ∀ k ∈ TempStore.infoKeys s',
        k ∈ reqs.map (fun r => hf r.kind r.data) := by
      intro k hk
      rcases hfacts.2.2 k hk with h | h
      · rw [show TempStore.infoKeys TempStore.initState = [] from rfl] at h
        cases h
      · exact h
    rw [hlen]
    have h1 : (TempStore.infoKeys s').toFinset.card =
        (TempStore.infoKeys s').length :=
      List.toFinset_card_of_nodup hnodup
    have h2 : (TempStore.infoKeys s').toFinset ⊆
        (reqs.map (fun r => hf r.kind r.data)).toFinset := by
      intro x hx
      rw [List.mem_toFinset] at hx ⊢
      exact hsub x hx
    have h3 := Finset.card_le_card h2
    rw [h1, List.card_toFinset] at h3
    exact h3

/-- Witness for C2 at a concrete input: re-inserting the bytes `[1]`
(hashing to oid 7, which the store already holds) changes neither the
file nor the info map. -/
theorem claim_C2_insert_idempotent_witness :
    ∃ s', TempStore.insertRaw (fun _ => 0) (fun _ _ => 7)
        { file := [[1]],
          info := [(7, TempStore.ObjInfo.mk 0 TempStore.ObjKind.blob 0 none)],
          cache := [] } TempStore.ObjKind.blob [1] none =
        some (.ok (7, s')) ∧
      s'.file = [[1]] ∧
      s'.info = [(7, TempStore.ObjInfo.mk 0 TempStore.ObjKind.blob 0 none)] :=
  claim_C2_insert_idempotent.1 (fun _ => 0) (fun _ _ => 7)
    { file := [[1]],
      info := [(7, TempStore.ObjInfo.mk 0 TempStore.ObjKind.blob 0 none)],
      cache := [] } TempStore.ObjKind.blob [1] none
    (TempStore.ObjInfo.mk 0 TempStore.ObjKind.blob 0 none) (by decide)

namespace TempStore

/-- Well-formedness of a sequentially reachable store: every recorded
entry is published (not reserved), points into the file, has delta depth
at most 50, and its delta base (if any) is a recorded entry of strictly
smaller delta depth. -/
def WFInfo (s : State) : Prop :=
  ∀ oid i, lookupInfo s.info oid = some i →
    i.offset ≠ MAXOFF ∧ i.offset < s.file.length ∧ i.deltaDepth ≤ 50 ∧
      ∀ b, i.deltaBase = some b →
        ∃ j, lookupInfo s.info b = some j ∧ j.deltaDepth < i.deltaDepth

theorem insertRaw_file_le {rwh : List Nat → Nat}
    {hf : ObjKind → List Nat → Nat} {s : State} {kind : ObjKind}
    {data : List Nat} {base : Option Nat} {oid : Nat} {s' : State}
    (hrun : insertRaw rwh hf s kind data base = some (.ok (oid, s'))) :
    s'.file.length ≤ s.file.length + 1 := by
  obtain ⟨-, hcase⟩ := insertRaw_cases hrun
  cases hcase with
  | inl h => rw [h.2.1]; omega
  | inr h => omega

theorem insertRaw_wf {rwh : List Nat → Nat} {hf : ObjKind → List Nat → Nat}
    {s : State} {kind : ObjKind} {data : List Nat} {base : Option Nat}
    {oid : Nat} {s' : State} (hwf : WFInfo s)
    (hbound : s.file.length < MAXOFF)
    (hrun : insertRaw rwh hf s kind data base = some (.ok (oid, s'))) :
    WFInfo s' := by
  obtain ⟨-, hcase⟩ := insertRaw_cases hrun
  cases hcase with
  | inl h =>
    obtain ⟨-, hfile, hinfo⟩ := h
    intro k i hk
    rw [hinfo] at hk
    have hold := hwf k i hk
    refine ⟨hold.1, by rw [hfile]; exact hold.2.1, hold.2.2.1, ?_⟩
    intro b hb
    obtain ⟨j, hj, hjd⟩ := hold.2.2.2 b hb
    exact ⟨j, by rw [hinfo]; exact hj, hjd⟩
  | inr h =>
    obtain ⟨habs, entry, hlen, hinfo, hoff, hdep, hbase⟩ := h
    intro k i hk
    by_cases hko : k = oid
    · subst hko
      rw [hinfo, lookupInfo_setInfo_self] at hk
      cases hk
      refine ⟨by omega, by omega, hdep, ?_⟩
      intro b hb
      obtain ⟨j, hj, hjd⟩ := hbase b hb
      have hbne : b ≠ k := by
        intro he
        rw [he, habs] at hj
        cases hj
      exact ⟨j, by
        rw [hinfo, lookupInfo_setInfo_ne _ hbne, lookupInfo_setInfo_ne _ hbne]
        exact hj, hjd⟩
    · rw [hinfo, lookupInfo_setInfo_ne _ hko, lookupInfo_setInfo_ne _ hko] at hk
      have hold := hwf k i hk
      refine ⟨hold.1, by omega, hold.2.2.1, ?_⟩
      intro b hb
      obtain ⟨j, hj, hjd⟩ := hold.2.2.2 b hb
      have hbne : b ≠ oid := by
        intro he
        rw [he, habs] at hj
        cases hj
      exact ⟨j, by
        rw [hinfo, lookupInfo_setInfo_ne _ hbne, lookupInfo_setInfo_ne _ hbne]
        exact hj, hjd⟩

theorem runInserts_wf {rwh : List Nat → Nat} {hf : ObjKind → List Nat → Nat} :
    ∀ (reqs : List InsertReq) (s s' : State), WFInfo s →
      s.file.length + reqs.length ≤ MAXOFF →
      runInserts rwh hf s reqs = some s' → WFInfo s' := by
  intro reqs
  induction reqs with
  | nil =>
    intro s s' hwf hb h
    cases h
    exact hwf
  | cons r rest ih =>
    intro s s' hwf hb h
    unfold runInserts at h
    split at h
    · rename_i oid s1 heq
      have hfl := insertRaw_file_le heq
      refine ih s1 s' (insertRaw_wf hwf (by simp at hb; omega) heq) (by
        simp only [List.length_cons] at hb
        omega) h
    · exact absurd h (by simp)

theorem chainWalk_succ (s : State) (fuel oid : Nat) :
    chainWalk s (fuel + 1) oid =
      match getInfoBlocking s oid with
      | none => none
      | some none => none
      | some (some i) =>
        match cacheGet s.cache i.offset with
        | some data => some (data, [])
        | none =>
          match i.deltaBase with
          | some b =>
            match chainWalk s fuel b with
            | none => none
            | some (data, chain) => some (data, chain ++ [i.offset])
          | none =>
            match s.file.get? i.offset with
            | none => none
            | some data => some (data, []) := rfl

theorem chainWalk_isSome {s : State} (hwf : WFInfo s) :
    ∀ (fuel oid : Nat) (i : ObjInfo), lookupInfo s.info oid = some i →
      i.deltaDepth < fuel → (chainWalk s fuel oid).isSome = true := by
  intro fuel
  induction fuel with
  | zero =>
    intro oid i hi hd
    exact absurd hd (Nat.not_lt_zero _)
  | succ fuel ih =>
    intro oid i hi hd
    have hw := hwf oid i hi
    have hblock : getInfoBlocking s oid = some (some i) := by
      unfold getInfoBlocking
      rw [hi]
      show (if i.offset = MAXOFF then none else some (some i)) = some (some i)
      rw [if_neg hw.1]
    cases hc : cacheGet s.cache i.offset with
    | some data =>
      simp only [chainWalk_succ, hblock, hc, Option.isSome_some]
    | none =>
      cases hb : i.deltaBase with
      | some b =>
        obtain ⟨j, hj, hjd⟩ := hw.2.2.2 b hb
        have hrec := ih b j hj (by omega)
        cases hcw : chainWalk s fuel b with
        | none =>
          rw [hcw] at hrec
          cases hrec
        | some pr =>
          obtain ⟨data, chain⟩ := pr
          simp only [chainWalk_succ, hblock, hc, hb, hcw, Option.isSome_some]
      | none =>
        cases hfg : s.file.get? i.offset with
        | none =>
          exact absurd (List.get?_eq_none.mp hfg) (by
            have := hw.2.1
            omega)
        | some data =>
          simp only [chainWalk_succ, hblock, hc, hb, hfg, Option.isSome_some]

end TempStore

/-- C3: after any successful sequence of insertions (at most
`u64::MAX` of them, as the offsets are 64-bit), every stored entry has
delta depth at most 50 — a delta is only attempted when the chosen
base's depth is strictly below 50, recording depth base+1 — and the
recursive chain walk performed when reading any stored object back
terminates (it succeeds within 51 steps). -/
theorem claim_C3_delta_chain_terminates
    (rwh : List Nat → Nat) (hf : TempStore.ObjKind → List Nat → Nat)
    (reqs : List TempStore.InsertReq) (s' : TempStore.State)
    (hlen : reqs.length ≤ TempStore.MAXOFF)
    (hrun : TempStore.runInserts rwh hf TempStore.initState reqs = some s') :
    ∀ oid i, TempStore.lookupInfo s'.info oid = some i →
      i.deltaDepth ≤ 50 ∧ (TempStore.chainWalk s' 51 oid).isSome = true := by
  have hwf : TempStore.WFInfo s' := by
    refine TempStore.runInserts_wf reqs TempStore.initState s' ?_ ?_ hrun
    · intro oid i hi
      cases hi
    · rw [show TempStore.initState.file.length = 0 from rfl]
      omega
  intro oid i hi
  exact ⟨(hwf oid i hi).2.2.1,
    TempStore.chainWalk_isSome hwf 51 oid i hi (by
      have := (hwf oid i hi).2.2.1
      omega)⟩

/-- Witness for C3 at a concrete input: a single blob insert; the stored
entry has depth 0 and the chain walk on it succeeds. -/
theorem claim_C3_delta_chain_terminates_witness :
    (TempStore.ObjInfo.mk 0 TempStore.ObjKind.blob 0 none).deltaDepth ≤ 50 ∧
      (TempStore.chainWalk
        { file := [[5]],
          info := [(3, TempStore.ObjInfo.mk 0 TempStore.ObjKind.blob 0 none)],
          cache := [(0, [5])] } 51 3).isSome = true :=
  claim_C3_delta_chain_terminates (fun _ => 0) (fun _ _ => 3)
    [{ kind := TempStore.ObjKind.blob, data := [5], deltaBase := none }]
    { file := [[5]],
      info := [(3, TempStore.ObjInfo.mk 0 TempStore.ObjKind.blob 0 none)],
      cache := [(0, [5])] }
    (by decide) (by decide) 3
    (TempStore.ObjInfo.mk 0 TempStore.ObjKind.blob 0 none) (by decide)

namespace GitDelta

theorem and127_of_lt {x : Nat} (h : x < 128) : x &&& 127 = x := by
  have h2 : (127 : Nat) = 2 ^ 7 - 1 := by norm_num
  rw [h2, Nat.and_pow_two_sub_one_eq_mod]
  have h3 : (2 : Nat) ^ 7 = 128 := by norm_num
  rw [h3]
  omega

theorem and127_add {x : Nat} (h : x < 128) : (x + 128) &&& 127 = x := by
  have h2 : (127 : Nat) = 2 ^ 7 - 1 := by norm_num
  rw [h2, Nat.and_pow_two_sub_one_eq_mod]
  have h3 : (2 : Nat) ^ 7 = 128 := by norm_num
  rw [h3]
  omega

theorem and128_of_lt {x : Nat} (h : x < 128) : x &&& 128 = 0 := by
  have h7 : x.testBit 7 = false := Nat.testBit_lt_two_pow (by norm_num; omega)
  have h2 : (128 : Nat) = 2 ^ 7 := by norm_num
  rw [h2, Nat.and_two_pow, h7]
  simp

theorem and128_add {x : Nat} (h : x < 128) : (x + 128) &&& 128 = 128 := by
  have h27 : (2 : Nat) ^ 7 = 128 := by norm_num
  have h1 : (x + 128) / 128 % 2 = 1 := by omega
  have h2 : (x + 128).testBit 7 = true := by
    rw [Nat.testBit_to_div_mod, h27, decide_eq_true_eq]
    omega
  calc (x + 128) &&& 128 = (x + 128) &&& 2 ^ 7 := by norm_num
    _ = ((x + 128).testBit 7).toNat * 2 ^ 7 := Nat.and_two_pow _ 7
    _ = 128 := by rw [h2]; norm_num

theorem readHeaderSizeGo_cons (b : Nat) (rest : List Nat) (shift size : Nat) :
    readHeaderSizeGo (b :: rest) shift size =
      if 64 ≤ shift then none
      else
        let chunk := b &&& 0x7F
        let shifted := (chunk <<< shift) % 2 ^ 64
        if shifted >>> shift ≠ chunk then none
        else
          let size' := size ||| shifted
          if b &&& 0x80 = 0 then some (size', rest)
          else readHeaderSizeGo rest (shift + 7) size' := rfl

theorem or_small_eq_add {size v shift : Nat} (hs : size < 2 ^ shift) :
    size ||| v * 2 ^ shift = size + v * 2 ^ shift := by
  have h := Nat.mul_add_lt_is_or hs v
  rw [Nat.or_comm, mul_comm v (2 ^ shift), ← h]
  omega

/-- One chunk-decoding step of `read_header_size` on a byte with clear
continuation bit. -/
theorem readHeaderSizeGo_last (v : Nat) (rest : List Nat) (shift size : Nat)
    (hv : v < 128) (hfit : v * 2 ^ shift < 2 ^ 64) (hsh : shift < 64)
    (hsize : size < 2 ^ shift) :
    readHeaderSizeGo (v :: rest) shift size = some (size + v * 2 ^ shift, rest) := by
  rw [readHeaderSizeGo_cons]
  rw [if_neg (by omega)]
  simp only [and127_of_lt hv, and128_of_lt hv]
  rw [Nat.shiftLeft_eq, Nat.mod_eq_of_lt hfit]
  rw [Nat.shiftRight_eq_div_pow,
    Nat.mul_div_cancel v (Nat.pos_pow_of_pos shift (by norm_num))]
  rw [if_neg (by simp)]
  rw [if_pos trivial]
  rw [or_small_eq_add hsize]

theorem header_roundtrip_go :
    ∀ (fuel n shift size : Nat) (rest : List Nat),
      n < 128 ^ (fuel + 1) →
      n * 2 ^ shift < 2 ^ 64 →
      shift < 64 →
      size < 2 ^ shift →
      readHeaderSizeGo (encodeHeaderSizeGo fuel n ++ rest) shift size
        = some (size + n * 2 ^ shift, rest) := by
  intro fuel
  induction fuel with
  | zero =>
    intro n shift size rest h1 h2 h3 h4
    have hn : n < 128 := by norm_num at h1; exact h1
    show readHeaderSizeGo ((n % 128) :: rest) shift size = _
    rw [Nat.mod_eq_of_lt hn]
    exact readHeaderSizeGo_last n rest shift size hn h2 h3 h4
  | succ fuel ih =>
    intro n shift size rest h1 h2 h3 h4
    by_cases hq : n / 128 = 0
    · have hn : n < 128 := by omega
      show readHeaderSizeGo ((if n / 128 = 0 then [n % 128]
        else (n % 128 + 128) :: encodeHeaderSizeGo fuel (n / 128)) ++ rest)
          shift size = _
      rw [if_pos hq]
      show readHeaderSizeGo ((n % 128) :: rest) shift size = _
      rw [Nat.mod_eq_of_lt hn]
      exact readHeaderSizeGo_last n rest shift size hn h2 h3 h4
    · show readHeaderSizeGo ((if n / 128 = 0 then [n % 128]
        else (n % 128 + 128) :: encodeHeaderSizeGo fuel (n / 128)) ++ rest)
          shift size = _
      rw [if_neg hq]
      show readHeaderSizeGo ((n % 128 + 128) ::
        (encodeHeaderSizeGo fuel (n / 128) ++ rest)) shift size = _
      have h27 : (2 : Nat) ^ 7 = 128 := by norm_num
      have hr : n % 128 < 128 := by omega
      have hle : n % 128 ≤ n := Nat.mod_le n 128
      have hfit : n % 128 * 2 ^ shift < 2 ^ 64 := by
        calc n % 128 * 2 ^ shift ≤ n * 2 ^ shift := Nat.mul_le_mul_right _ hle
          _ < 2 ^ 64 := h2
      rw [readHeaderSizeGo_cons]
      rw [if_neg (by omega)]
      simp only [and127_add hr, and128_add hr]
      rw [Nat.shiftLeft_eq, Nat.mod_eq_of_lt hfit]
      rw [Nat.shiftRight_eq_div_pow,
        Nat.mul_div_cancel _ (Nat.pos_pow_of_pos shift (by norm_num))]
      rw [if_neg (by simp)]
      rw [if_neg (by norm_num)]
      rw [or_small_eq_add h4]
      have h128 : (128 : Nat) ≤ n := by omega
      have hx : 2 ^ (shift + 7) = 2 ^ shift * 128 := by rw [pow_add, h27]
      have hsh7 : shift + 7 < 64 := by
        by_contra hcon
        have h64 : (64 : Nat) ≤ shift + 7 := by omega
        have ha : 2 ^ 64 ≤ 2 ^ (shift + 7) := Nat.pow_le_pow_right (by norm_num) h64
        have hb : 128 * 2 ^ shift ≤ n * 2 ^ shift := Nat.mul_le_mul_right _ h128
        have hc : 2 ^ (shift + 7) = 128 * 2 ^ shift := by rw [hx]; ring
        omega
      have hstep := ih (n / 128) (shift + 7) (size + n % 128 * 2 ^ shift) rest
        (by
          have hp : n < 128 ^ (fuel + 1) * 128 := by
            have hh := h1
            rw [pow_succ] at hh
            omega
          exact Nat.div_lt_of_lt_mul (by omega))
        (by
          rw [hx]
          calc n / 128 * (2 ^ shift * 128) = n / 128 * 128 * 2 ^ shift := by ring
            _ ≤ n * 2 ^ shift := Nat.mul_le_mul_right _ (Nat.div_mul_le_self n 128)
            _ < 2 ^ 64 := h2)
        hsh7
        (by
          have hb : n % 128 * 2 ^ shift ≤ 127 * 2 ^ shift :=
            Nat.mul_le_mul_right _ (by omega)
          omega)
      rw [hstep]
      congr 1
      congr 1
      rw [hx]
      conv_rhs => rw [← Nat.mod_add_div n 128]
      ring

/-- `read_header_size` decodes what `encode_header_size` wrote (any
`usize` value), leaving the remainder of the stream untouched. -/
theorem readHeaderSize_encode (n : Nat) (rest : List Nat) (h : n < 2 ^ 64) :
    readHeaderSize (encodeHeaderSize n ++ rest) = some (n, rest) := by
  show readHeaderSizeGo (encodeHeaderSizeGo 10 n ++ rest) 0 0 = _
  rw [header_roundtrip_go 10 n 0 0 rest (lt_trans h (by norm_num))
    (by simpa using h) (by norm_num) (by norm_num)]
  norm_num

end GitDelta

namespace GitDelta

theorem patchBody_cons (base : List Nat) (fuel op : Nat) (rest out : List Nat) :
    patchBody base (fuel + 1) (op :: rest) out =
      (if op = 0 then some (.error .invalidOpcode)
      else if op &&& 0x80 ≠ 0 then
        if flagCount op ≤ rest.length then
          if (readCopyOffLen op (rest.take (flagCount op))).1
              + (readCopyOffLen op (rest.take (flagCount op))).2 ≤ base.length then
            patchBody base fuel (rest.drop (flagCount op))
              (out ++ (base.drop
                ((readCopyOffLen op (rest.take (flagCount op))).1)).take
                ((readCopyOffLen op (rest.take (flagCount op))).2))
          else some (.error .srcOutOfBounds)
        else some (.error .truncatedDelta)
      else
        if op ≤ rest.length then
          patchBody base fuel (rest.drop op) (out ++ rest.take op)
        else none) := rfl

theorem patchBody_succ (base : List Nat) :
    ∀ (fuel : Nat) (l out : List Nat), l.length ≤ fuel →
      patchBody base (fuel + 1) l out = patchBody base fuel l out := by
  intro fuel
  induction fuel with
  | zero =>
    intro l out h
    have : l = [] := List.eq_nil_of_length_eq_zero (by omega)
    subst this
    rfl
  | succ fuel ih =>
    intro l out h
    cases l with
    | nil => rfl
    | cons op rest =>
      rw [patchBody_cons, patchBody_cons]
      simp only [List.length_cons] at h
      split_ifs
      all_goals first
        | rfl
        | exact ih _ _ (by simp [List.length_drop]; omega)

theorem patchBody_fuel (base : List Nat) :
    ∀ (fuel : Nat) (l out : List Nat), l.length ≤ fuel →
      patchBody base fuel l out = patchBody base l.length l out := by
  intro fuel
  induction fuel with
  | zero =>
    intro l out h
    have : l = [] := List.eq_nil_of_length_eq_zero (by omega)
    subst this
    rfl
  | succ fuel ih =>
    intro l out h
    by_cases he : l.length = fuel + 1
    · rw [he]
    · rw [patchBody_succ base fuel l out (by omega)]
      exact ih l out (by omega)

theorem patchBody_append (base : List Nat) :
    ∀ (F : Nat) (ops1 ops2 acc mid : List Nat), ops1.length ≤ F →
      patchBody base ops1.length ops1 acc = some (.ok mid) →
      patchBody base (ops1 ++ ops2).length (ops1 ++ ops2) acc
        = patchBody base ops2.length ops2 mid := by
  intro F
  induction F with
  | zero =>
    intro ops1 ops2 acc mid h hdec
    have : ops1 = [] := List.eq_nil_of_length_eq_zero (by omega)
    subst this
    cases hdec
    rfl
  | succ F ih =>
    intro ops1 ops2 acc mid h hdec
    cases ops1 with
    | nil =>
      cases hdec
      rfl
    | cons op rest =>
      simp only [List.length_cons] at hdec h
      rw [patchBody_cons] at hdec
      rw [show (op :: rest) ++ ops2 = op :: (rest ++ ops2) from rfl,
        List.length_cons, patchBody_cons]
      split_ifs at hdec with h1 h2 h3 h4 h5
      · exact absurd hdec (by simp)
      · -- copy op branch
        rw [if_neg h1, if_pos h2]
        have hfc : flagCount op ≤ (rest ++ ops2).length := by
          simp [List.length_append]; omega
        rw [if_pos hfc]
        rw [List.take_append_of_le_length h3, List.drop_append_of_le_length h3]
        rw [if_pos h4]
        rw [patchBody_fuel base rest.length _ _ (by simp only [List.length_drop]; omega)] at hdec
        rw [patchBody_fuel base ((rest ++ ops2).length) _ _
          (by simp only [List.length_drop, List.length_append]; omega)]
        exact ih _ ops2 _ mid (by simp only [List.length_drop]; omega) hdec
      · exact absurd hdec (by simp)
      · exact absurd hdec (by simp)
      · -- inline op branch
        rw [if_neg h1, if_neg h2]
        have hop : op ≤ (rest ++ ops2).length := by
          simp [List.length_append]; omega
        rw [if_pos hop]
        rw [List.take_append_of_le_length h5, List.drop_append_of_le_length h5]
        rw [patchBody_fuel base rest.length _ _ (by simp only [List.length_drop]; omega)] at hdec
        rw [patchBody_fuel base ((rest ++ ops2).length) _ _
          (by simp only [List.length_drop, List.length_append]; omega)]
        exact ih _ ops2 _ mid (by simp only [List.length_drop]; omega) hdec

end GitDelta

namespace GitDelta

theorem inlineOp_decode (base : List Nat) (n : Nat) (data acc : List Nat)
    (h1 : 1 ≤ n) (h2 : n ≤ 127) (hd : data.length = n) :
    patchBody base (n :: data).length (n :: data) acc
      = some (.ok (acc ++ data)) := by
  rw [List.length_cons, hd, patchBody_cons]
  rw [if_neg (by omega)]
  have hop : n &&& 128 = 0 := and128_of_lt (by omega)
  rw [if_neg (by simp [hop])]
  rw [if_pos (show n ≤ data.length by omega)]
  have hdrop : data.drop n = [] := by rw [← hd]; exact List.drop_length data
  have htake : data.take n = data := by rw [← hd]; exact List.take_length data
  rw [hdrop, htake]
  obtain ⟨m, rfl⟩ : ∃ m, n = m + 1 := ⟨n - 1, by omega⟩
  rfl

theorem takeFlag_cond (c : Prop) [Decidable c] (b : Nat) (rest : List Nat) :
    takeFlag (decide c) ((if c then [b] else []) ++ rest)
      = ((if c then b else 0), rest) := by
  by_cases h : c
  · simp [takeFlag, h]
  · simp [takeFlag, h]

theorem takeFlag_cond_last (c : Prop) [Decidable c] (b : Nat) :
    takeFlag (decide c) (if c then [b] else [])
      = ((if c then b else 0), []) := by
  by_cases h : c
  · simp [takeFlag, h]
  · simp [takeFlag, h]

theorem and_shiftRight (x y n : Nat) : (x &&& y) >>> n = x >>> n &&& y >>> n := by
  apply Nat.eq_of_testBit_eq
  intro i
  simp [Nat.testBit_shiftRight, Nat.testBit_and]

theorem mul_or_small {b k : Nat} (c : Nat) (hb : b < 2 ^ k) :
    c * 2 ^ k ||| b = c * 2 ^ k + b := by
  calc c * 2 ^ k ||| b = 2 ^ k * c ||| b := by rw [mul_comm]
    _ = 2 ^ k * c + b := (Nat.mul_add_lt_is_or hb c).symm
    _ = c * 2 ^ k + b := by ring

theorem and255_eq_mod (x : Nat) : x &&& 255 = x % 256 := by
  have h : (255 : Nat) = 2 ^ 8 - 1 := by norm_num
  rw [h, Nat.and_pow_two_sub_one_eq_mod]

theorem bytes32_reconstruct (so : Nat) (h : so < 2 ^ 32) :
    (so &&& 0xFF) ||| ((so >>> 8) &&& 0xFF) <<< 8
        ||| ((so >>> 16) &&& 0xFF) <<< 16
        ||| ((so >>> 24) &&& 0xFF) <<< 24 = so := by
  rw [Nat.shiftLeft_eq, Nat.shiftLeft_eq, Nat.shiftLeft_eq,
    Nat.shiftRight_eq_div_pow, Nat.shiftRight_eq_div_pow,
    Nat.shiftRight_eq_div_pow, and255_eq_mod, and255_eq_mod,
    and255_eq_mod, and255_eq_mod]
  have h1 : so % 256 ||| so / 2 ^ 8 % 256 * 2 ^ 8 = so % 65536 := by
    rw [Nat.or_comm, mul_or_small _ (show so % 256 < 2 ^ 8 from lt_of_lt_of_le (Nat.mod_lt _ (by norm_num)) (by norm_num))]
    have he : (2 : Nat) ^ 8 = 256 := by norm_num
    rw [he]
    omega
  rw [h1]
  have h2 : so % 65536 ||| so / 2 ^ 16 % 256 * 2 ^ 16 = so % 16777216 := by
    rw [Nat.or_comm, mul_or_small _ (show so % 65536 < 2 ^ 16 from lt_of_lt_of_le (Nat.mod_lt _ (by norm_num)) (by norm_num))]
    have he : (2 : Nat) ^ 16 = 65536 := by norm_num
    rw [he]
    omega
  rw [h2]
  rw [Nat.or_comm, mul_or_small _ (show so % 16777216 < 2 ^ 24 from lt_of_lt_of_le (Nat.mod_lt _ (by norm_num)) (by norm_num))]
  have he : (2 : Nat) ^ 24 = 16777216 := by norm_num
  have h32 : so < 4294967296 := by
    have he2 : (2 : Nat) ^ 32 = 4294967296 := by norm_num
    omega
  rw [he]
  omega

theorem bytes24_reconstruct (v : Nat) (h : v < 2 ^ 24) :
    (v &&& 0xFF) ||| ((v >>> 8) &&& 0xFF) <<< 8
        ||| ((v >>> 16) &&& 0xFF) <<< 16 = v := by
  rw [Nat.shiftLeft_eq, Nat.shiftLeft_eq,
    Nat.shiftRight_eq_div_pow, Nat.shiftRight_eq_div_pow,
    and255_eq_mod, and255_eq_mod, and255_eq_mod]
  have h1 : v % 256 ||| v / 2 ^ 8 % 256 * 2 ^ 8 = v % 65536 := by
    rw [Nat.or_comm, mul_or_small _ (show v % 256 < 2 ^ 8 from lt_of_lt_of_le (Nat.mod_lt _ (by norm_num)) (by norm_num))]
    have he : (2 : Nat) ^ 8 = 256 := by norm_num
    rw [he]
    omega
  rw [h1]
  rw [Nat.or_comm, mul_or_small _ (show v % 65536 < 2 ^ 16 from lt_of_lt_of_le (Nat.mod_lt _ (by norm_num)) (by norm_num))]
  have he : (2 : Nat) ^ 16 = 65536 := by norm_num
  have h24 : v < 16777216 := by
    have he2 : (2 : Nat) ^ 24 = 16777216 := by norm_num
    omega
  rw [he]
  omega

end GitDelta

namespace GitDelta

theorem and_pow_of_testBit {x i : Nat} {c : Prop} [Decidable c]
    (h : x.testBit i = decide c) : x &&& 2 ^ i = if c then 2 ^ i else 0 := by
  rw [Nat.and_two_pow, h]
  by_cases hc : c <;> simp [hc]

theorem testBit_ite_pow {c : Prop} [Decidable c] (v i : Nat) :
    (if c then v else 0 : Nat).testBit i = (decide c && v.testBit i) := by
  by_cases h : c <;> simp [h]

theorem copyOpBitsA {a b c d : Prop}
    [Decidable a] [Decidable b] [Decidable c] [Decidable d] :
    ((0x80 ||| (if a then 0x01 else 0) ||| (if b then 0x02 else 0)
      ||| (if c then 0x04 else 0) ||| (if d then 0x08 else 0) : Nat) &&& 1 = (if a then 1 else 0)) ∧
      ((0x80 ||| (if a then 0x01 else 0) ||| (if b then 0x02 else 0)
      ||| (if c then 0x04 else 0) ||| (if d then 0x08 else 0) : Nat) &&& 2 = (if b then 2 else 0)) ∧
      ((0x80 ||| (if a then 0x01 else 0) ||| (if b then 0x02 else 0)
      ||| (if c then 0x04 else 0) ||| (if d then 0x08 else 0) : Nat) &&& 4 = (if c then 4 else 0)) ∧
      ((0x80 ||| (if a then 0x01 else 0) ||| (if b then 0x02 else 0)
      ||| (if c then 0x04 else 0) ||| (if d then 0x08 else 0) : Nat) &&& 8 = (if d then 8 else 0)) ∧
      ((0x80 ||| (if a then 0x01 else 0) ||| (if b then 0x02 else 0)
      ||| (if c then 0x04 else 0) ||| (if d then 0x08 else 0) : Nat) &&& 16 = 0) ∧
      ((0x80 ||| (if a then 0x01 else 0) ||| (if b then 0x02 else 0)
      ||| (if c then 0x04 else 0) ||| (if d then 0x08 else 0) : Nat) &&& 32 = 0) ∧
      ((0x80 ||| (if a then 0x01 else 0) ||| (if b then 0x02 else 0)
      ||| (if c then 0x04 else 0) ||| (if d then 0x08 else 0) : Nat) &&& 64 = 0) ∧
      ((0x80 ||| (if a then 0x01 else 0) ||| (if b then 0x02 else 0)
      ||| (if c then 0x04 else 0) ||| (if d then 0x08 else 0) : Nat) &&& 128 = 128) := by
  have h0 : ((0x80 ||| (if a then 0x01 else 0) ||| (if b then 0x02 else 0)
      ||| (if c then 0x04 else 0) ||| (if d then 0x08 else 0) : Nat)).testBit 0 = decide a := by
    simp only [Nat.testBit_or, testBit_ite_pow, show (128:Nat).testBit 0 = false from by decide, show (1:Nat).testBit 0 = true from by decide, show (2:Nat).testBit 0 = false from by decide, show (4:Nat).testBit 0 = false from by decide, show (8:Nat).testBit 0 = false from by decide,
      Bool.and_true, Bool.and_false, Bool.or_false, Bool.false_or,
      Bool.true_or, Bool.or_true, decide_False, decide_True]
  have h1 : ((0x80 ||| (if a then 0x01 else 0) ||| (if b then 0x02 else 0)
      ||| (if c then 0x04 else 0) ||| (if d then 0x08 else 0) : Nat)).testBit 1 = decide b := by
    simp only [Nat.testBit_or, testBit_ite_pow, show (128:Nat).testBit 1 = false from by decide, show (1:Nat).testBit 1 = false from by decide, show (2:Nat).testBit 1 = true from by decide, show (4:Nat).testBit 1 = false from by decide, show (8:Nat).testBit 1 = false from by decide,
      Bool.and_true, Bool.and_false, Bool.or_false, Bool.false_or,
      Bool.true_or, Bool.or_true, decide_False, decide_True]
  have h2 : ((0x80 ||| (if a then 0x01 else 0) ||| (if b then 0x02 else 0)
      ||| (if c then 0x04 else 0) ||| (if d then 0x08 else 0) : Nat)).testBit 2 = decide c := by
    simp only [Nat.testBit_or, testBit_ite_pow, show (128:Nat).testBit 2 = false from by decide, show (1:Nat).testBit 2 = false from by decide, show (2:Nat).testBit 2 = false from by decide, show (4:Nat).testBit 2 = true from by decide, show (8:Nat).testBit 2 = false from by decide,
      Bool.and_true, Bool.and_false, Bool.or_false, Bool.false_or,
      Bool.true_or, Bool.or_true, decide_False, decide_True]
  have h3 : ((0x80 ||| (if a then 0x01 else 0) ||| (if b then 0x02 else 0)
      ||| (if c then 0x04 else 0) ||| (if d then 0x08 else 0) : Nat)).testBit 3 = decide d := by
    simp only [Nat.testBit_or, testBit_ite_pow, show (128:Nat).testBit 3 = false from by decide, show (1:Nat).testBit 3 = false from by decide, show (2:Nat).testBit 3 = false from by decide, show (4:Nat).testBit 3 = false from by decide, show (8:Nat).testBit 3 = true from by decide,
      Bool.and_true, Bool.and_false, Bool.or_false, Bool.false_or,
      Bool.true_or, Bool.or_true, decide_False, decide_True]
  have h4 : ((0x80 ||| (if a then 0x01 else 0) ||| (if b then 0x02 else 0)
      ||| (if c then 0x04 else 0) ||| (if d then 0x08 else 0) : Nat)).testBit 4 = decide False := by
    simp only [Nat.testBit_or, testBit_ite_pow, show (128:Nat).testBit 4 = false from by decide, show (1:Nat).testBit 4 = false from by decide, show (2:Nat).testBit 4 = false from by decide, show (4:Nat).testBit 4 = false from by decide, show (8:Nat).testBit 4 = false from by decide,
      Bool.and_true, Bool.and_false, Bool.or_false, Bool.false_or,
      Bool.true_or, Bool.or_true, decide_False, decide_True]
  have h5 : ((0x80 ||| (if a then 0x01 else 0) ||| (if b then 0x02 else 0)
      ||| (if c then 0x04 else 0) ||| (if d then 0x08 else 0) : Nat)).testBit 5 = decide False := by
    simp only [Nat.testBit_or, testBit_ite_pow, show (128:Nat).testBit 5 = false from by decide, show (1:Nat).testBit 5 = false from by decide, show (2:Nat).testBit 5 = false from by decide, show (4:Nat).testBit 5 = false from by decide, show (8:Nat).testBit 5 = false from by decide,
      Bool.and_true, Bool.and_false, Bool.or_false, Bool.false_or,
      Bool.true_or, Bool.or_true, decide_False, decide_True]
  have h6 : ((0x80 ||| (if a then 0x01 else 0) ||| (if b then 0x02 else 0)
      ||| (if c then 0x04 else 0) ||| (if d then 0x08 else 0) : Nat)).testBit 6 = decide False := by
    simp only [Nat.testBit_or, testBit_ite_pow, show (128:Nat).testBit 6 = false from by decide, show (1:Nat).testBit 6 = false from by decide, show (2:Nat).testBit 6 = false from by decide, show (4:Nat).testBit 6 = false from by decide, show (8:Nat).testBit 6 = false from by decide,
      Bool.and_true, Bool.and_false, Bool.or_false, Bool.false_or,
      Bool.true_or, Bool.or_true, decide_False, decide_True]
  have h7 : ((0x80 ||| (if a then 0x01 else 0) ||| (if b then 0x02 else 0)
      ||| (if c then 0x04 else 0) ||| (if d then 0x08 else 0) : Nat)).testBit 7 = decide True := by
    simp only [Nat.testBit_or, testBit_ite_pow, show (128:Nat).testBit 7 = true from by decide, show (1:Nat).testBit 7 = false from by decide, show (2:Nat).testBit 7 = false from by decide, show (4:Nat).testBit 7 = false from by decide, show (8:Nat).testBit 7 = false from by decide,
      Bool.and_true, Bool.and_false, Bool.or_false, Bool.false_or,
      Bool.true_or, Bool.or_true, decide_False, decide_True]
  have c0 := and_pow_of_testBit h0
  have c1 := and_pow_of_testBit h1
  have c2 := and_pow_of_testBit h2
  have c3 := and_pow_of_testBit h3
  have c4 := and_pow_of_testBit h4
  have c5 := and_pow_of_testBit h5
  have c6 := and_pow_of_testBit h6
  have c7 := and_pow_of_testBit h7
  rw [pow_zero] at c0
  rw [show (2:Nat) ^ 1 = 2 from by norm_num] at c1
  rw [show (2:Nat) ^ 2 = 4 from by norm_num] at c2
  rw [show (2:Nat) ^ 3 = 8 from by norm_num] at c3
  rw [show (2:Nat) ^ 4 = 16 from by norm_num, if_neg not_false] at c4
  rw [show (2:Nat) ^ 5 = 32 from by norm_num, if_neg not_false] at c5
  rw [show (2:Nat) ^ 6 = 64 from by norm_num, if_neg not_false] at c6
  rw [show (2:Nat) ^ 7 = 128 from by norm_num, if_pos trivial] at c7
  exact ⟨c0, c1, c2, c3, c4, c5, c6, c7⟩

theorem copyOpBitsB {a b c d e f g : Prop}
    [Decidable a] [Decidable b] [Decidable c] [Decidable d]
    [Decidable e] [Decidable f] [Decidable g] :
    ((0x80 ||| (if a then 0x01 else 0) ||| (if b then 0x02 else 0)
      ||| (if c then 0x04 else 0) ||| (if d then 0x08 else 0)
      ||| ((if e then 0x10 else 0) ||| (if f then 0x20 else 0)
        ||| (if g then 0x40 else 0)) : Nat) &&& 1 = (if a then 1 else 0)) ∧
      ((0x80 ||| (if a then 0x01 else 0) ||| (if b then 0x02 else 0)
      ||| (if c then 0x04 else 0) ||| (if d then 0x08 else 0)
      ||| ((if e then 0x10 else 0) ||| (if f then 0x20 else 0)
        ||| (if g then 0x40 else 0)) : Nat) &&& 2 = (if b then 2 else 0)) ∧
      ((0x80 ||| (if a then 0x01 else 0) ||| (if b then 0x02 else 0)
      ||| (if c then 0x04 else 0) ||| (if d then 0x08 else 0)
      ||| ((if e then 0x10 else 0) ||| (if f then 0x20 else 0)
        ||| (if g then 0x40 else 0)) : Nat) &&& 4 = (if c then 4 else 0)) ∧
      ((0x80 ||| (if a then 0x01 else 0) ||| (if b then 0x02 else 0)
      ||| (if c then 0x04 else 0) ||| (if d then 0x08 else 0)
      ||| ((if e then 0x10 else 0) ||| (if f then 0x20 else 0)
        ||| (if g then 0x40 else 0)) : Nat) &&& 8 = (if d then 8 else 0)) ∧
      ((0x80 ||| (if a then 0x01 else 0) ||| (if b then 0x02 else 0)
      ||| (if c then 0x04 else 0) ||| (if d then 0x08 else 0)
      ||| ((if e then 0x10 else 0) ||| (if f then 0x20 else 0)
        ||| (if g then 0x40 else 0)) : Nat) &&& 16 = (if e then 16 else 0)) ∧
      ((0x80 ||| (if a then 0x01 else 0) ||| (if b then 0x02 else 0)
      ||| (if c then 0x04 else 0) ||| (if d then 0x08 else 0)
      ||| ((if e then 0x10 else 0) ||| (if f then 0x20 else 0)
        ||| (if g then 0x40 else 0)) : Nat) &&& 32 = (if f then 32 else 0)) ∧
      ((0x80 ||| (if a then 0x01 else 0) ||| (if b then 0x02 else 0)
      ||| (if c then 0x04 else 0) ||| (if d then 0x08 else 0)
      ||| ((if e then 0x10 else 0) ||| (if f then 0x20 else 0)
        ||| (if g then 0x40 else 0)) : Nat) &&& 64 = (if g then 64 else 0)) ∧
      ((0x80 ||| (if a then 0x01 else 0) ||| (if b then 0x02 else 0)
      ||| (if c then 0x04 else 0) ||| (if d then 0x08 else 0)
      ||| ((if e then 0x10 else 0) ||| (if f then 0x20 else 0)
        ||| (if g then 0x40 else 0)) : Nat) &&& 128 = 128) := by
  have h0 : ((0x80 ||| (if a then 0x01 else 0) ||| (if b then 0x02 else 0)
      ||| (if c then 0x04 else 0) ||| (if d then 0x08 else 0)
      ||| ((if e then 0x10 else 0) ||| (if f then 0x20 else 0)
        ||| (if g then 0x40 else 0)) : Nat)).testBit 0 = decide a := by
    by_cases h : a <;>
      simp only [Nat.testBit_or, testBit_ite_pow, show (128:Nat).testBit 0 = false from by decide, show (1:Nat).testBit 0 = true from by decide, show (2:Nat).testBit 0 = false from by decide, show (4:Nat).testBit 0 = false from by decide, show (8:Nat).testBit 0 = false from by decide, show (16:Nat).testBit 0 = false from by decide, show (32:Nat).testBit 0 = false from by decide, show (64:Nat).testBit 0 = false from by decide,
        Bool.and_true, Bool.and_false, Bool.or_false, Bool.false_or,
        Bool.true_or, Bool.or_true, decide_False, decide_True]
  have h1 : ((0x80 ||| (if a then 0x01 else 0) ||| (if b then 0x02 else 0)
      ||| (if c then 0x04 else 0) ||| (if d then 0x08 else 0)
      ||| ((if e then 0x10 else 0) ||| (if f then 0x20 else 0)
        ||| (if g then 0x40 else 0)) : Nat)).testBit 1 = decide b := by
    by_cases h : b <;>
      simp only [Nat.testBit_or, testBit_ite_pow, show (128:Nat).testBit 1 = false from by decide, show (1:Nat).testBit 1 = false from by decide, show (2:Nat).testBit 1 = true from by decide, show (4:Nat).testBit 1 = false from by decide, show (8:Nat).testBit 1 = false from by decide, show (16:Nat).testBit 1 = false from by decide, show (32:Nat).testBit 1 = false from by decide, show (64:Nat).testBit 1 = false from by decide,
        Bool.and_true, Bool.and_false, Bool.or_false, Bool.false_or,
        Bool.true_or, Bool.or_true, decide_False, decide_True]
  have h2 : ((0x80 ||| (if a then 0x01 else 0) ||| (if b then 0x02 else 0)
      ||| (if c then 0x04 else 0) ||| (if d then 0x08 else 0)
      ||| ((if e then 0x10 else 0) ||| (if f then 0x20 else 0)
        ||| (if g then 0x40 else 0)) : Nat)).testBit 2 = decide c := by
    by_cases h : c <;>
      simp only [Nat.testBit_or, testBit_ite_pow, show (128:Nat).testBit 2 = false from by decide, show (1:Nat).testBit 2 = false from by decide, show (2:Nat).testBit 2 = false from by decide, show (4:Nat).testBit 2 = true from by decide, show (8:Nat).testBit 2 = false from by decide, show (16:Nat).testBit 2 = false from by decide, show (32:Nat).testBit 2 = false from by decide, show (64:Nat).testBit 2 = false from by decide,
        Bool.and_true, Bool.and_false, Bool.or_false, Bool.false_or,
        Bool.true_or, Bool.or_true, decide_False, decide_True]
  have h3 : ((0x80 ||| (if a then 0x01 else 0) ||| (if b then 0x02 else 0)
      ||| (if c then 0x04 else 0) ||| (if d then 0x08 else 0)
      ||| ((if e then 0x10 else 0) ||| (if f then 0x20 else 0)
        ||| (if g then 0x40 else 0)) : Nat)).testBit 3 = decide d := by
    by_cases h : d <;>
      simp only [Nat.testBit_or, testBit_ite_pow, show (128:Nat).testBit 3 = false from by decide, show (1:Nat).testBit 3 = false from by decide, show (2:Nat).testBit 3 = false from by decide, show (4:Nat).testBit 3 = false from by decide, show (8:Nat).testBit 3 = true from by decide, show (16:Nat).testBit 3 = false from by decide, show (32:Nat).testBit 3 = false from by decide, show (64:Nat).testBit 3 = false from by decide,
        Bool.and_true, Bool.and_false, Bool.or_false, Bool.false_or,
        Bool.true_or, Bool.or_true, decide_False, decide_True]
  have h4 : ((0x80 ||| (if a then 0x01 else 0) ||| (if b then 0x02 else 0)
      ||| (if c then 0x04 else 0) ||| (if d then 0x08 else 0)
      ||| ((if e then 0x10 else 0) ||| (if f then 0x20 else 0)
        ||| (if g then 0x40 else 0)) : Nat)).testBit 4 = decide e := by
    by_cases h : e <;>
      simp only [Nat.testBit_or, testBit_ite_pow, show (128:Nat).testBit 4 = false from by decide, show (1:Nat).testBit 4 = false from by decide, show (2:Nat).testBit 4 = false from by decide, show (4:Nat).testBit 4 = false from by decide, show (8:Nat).testBit 4 = false from by decide, show (16:Nat).testBit 4 = true from by decide, show (32:Nat).testBit 4 = false from by decide, show (64:Nat).testBit 4 = false from by decide,
        Bool.and_true, Bool.and_false, Bool.or_false, Bool.false_or,
        Bool.true_or, Bool.or_true, decide_False, decide_True]
  have h5 : ((0x80 ||| (if a then 0x01 else 0) ||| (if b then 0x02 else 0)
      ||| (if c then 0x04 else 0) ||| (if d then 0x08 else 0)
      ||| ((if e then 0x10 else 0) ||| (if f then 0x20 else 0)
        ||| (if g then 0x40 else 0)) : Nat)).testBit 5 = decide f := by
    by_cases h : f <;>
      simp only [Nat.testBit_or, testBit_ite_pow, show (128:Nat).testBit 5 = false from by decide, show (1:Nat).testBit 5 = false from by decide, show (2:Nat).testBit 5 = false from by decide, show (4:Nat).testBit 5 = false from by decide, show (8:Nat).testBit 5 = false from by decide, show (16:Nat).testBit 5 = false from by decide, show (32:Nat).testBit 5 = true from by decide, show (64:Nat).testBit 5 = false from by decide,
        Bool.and_true, Bool.and_false, Bool.or_false, Bool.false_or,
        Bool.true_or, Bool.or_true, decide_False, decide_True]
  have h6 : ((0x80 ||| (if a then 0x01 else 0) ||| (if b then 0x02 else 0)
      ||| (if c then 0x04 else 0) ||| (if d then 0x08 else 0)
      ||| ((if e then 0x10 else 0) ||| (if f then 0x20 else 0)
        ||| (if g then 0x40 else 0)) : Nat)).testBit 6 = decide g := by
    by_cases h : g <;>
      simp only [Nat.testBit_or, testBit_ite_pow, show (128:Nat).testBit 6 = false from by decide, show (1:Nat).testBit 6 = false from by decide, show (2:Nat).testBit 6 = false from by decide, show (4:Nat).testBit 6 = false from by decide, show (8:Nat).testBit 6 = false from by decide, show (16:Nat).testBit 6 = false from by decide, show (32:Nat).testBit 6 = false from by decide, show (64:Nat).testBit 6 = true from by decide,
        Bool.and_true, Bool.and_false, Bool.or_false, Bool.false_or,
        Bool.true_or, Bool.or_true, decide_False, decide_True]
  have h7 : ((0x80 ||| (if a then 0x01 else 0) ||| (if b then 0x02 else 0)
      ||| (if c then 0x04 else 0) ||| (if d then 0x08 else 0)
      ||| ((if e then 0x10 else 0) ||| (if f then 0x20 else 0)
        ||| (if g then 0x40 else 0)) : Nat)).testBit 7 = decide True := by
    simp only [Nat.testBit_or, testBit_ite_pow, show (128:Nat).testBit 7 = true from by decide, show (1:Nat).testBit 7 = false from by decide, show (2:Nat).testBit 7 = false from by decide, show (4:Nat).testBit 7 = false from by decide, show (8:Nat).testBit 7 = false from by decide, show (16:Nat).testBit 7 = false from by decide, show (32:Nat).testBit 7 = false from by decide, show (64:Nat).testBit 7 = false from by decide,
      Bool.and_true, Bool.and_false, Bool.or_false, Bool.false_or,
      Bool.true_or, Bool.or_true, decide_False, decide_True]
  have c0 := and_pow_of_testBit h0
  have c1 := and_pow_of_testBit h1
  have c2 := and_pow_of_testBit h2
  have c3 := and_pow_of_testBit h3
  have c4 := and_pow_of_testBit h4
  have c5 := and_pow_of_testBit h5
  have c6 := and_pow_of_testBit h6
  have c7 := and_pow_of_testBit h7
  rw [pow_zero] at c0
  rw [show (2:Nat) ^ 1 = 2 from by norm_num] at c1
  rw [show (2:Nat) ^ 2 = 4 from by norm_num] at c2
  rw [show (2:Nat) ^ 3 = 8 from by norm_num] at c3
  rw [show (2:Nat) ^ 4 = 16 from by norm_num] at c4
  rw [show (2:Nat) ^ 5 = 32 from by norm_num] at c5
  rw [show (2:Nat) ^ 6 = 64 from by norm_num] at c6
  rw [show (2:Nat) ^ 7 = 128 from by norm_num, if_pos trivial] at c7
  exact ⟨c0, c1, c2, c3, c4, c5, c6, c7⟩

end GitDelta

namespace GitDelta

theorem patchBody_nil (base : List Nat) (fuel : Nat) (out : List Nat) :
    patchBody base fuel [] out = some (.ok out) := by
  cases fuel <;> rfl

theorem encodeCopyOp_eq (so len : Nat) :
    encodeCopyOp so len =
      (0x80 ||| (if so &&& 0xFF ≠ 0 then 0x01 else 0)
        ||| (if so &&& 0xFF00 ≠ 0 then 0x02 else 0)
        ||| (if so &&& 0xFF0000 ≠ 0 then 0x04 else 0)
        ||| (if so &&& 0xFF000000 ≠ 0 then 0x08 else 0)
        ||| (if len ≠ 0x10000 then
              (if len &&& 0xFF ≠ 0 then 0x10 else 0)
                ||| (if len &&& 0xFF00 ≠ 0 then 0x20 else 0)
                ||| (if len &&& 0xFF0000 ≠ 0 then 0x40 else 0)
            else 0)) ::
      (((((if so &&& 0xFF ≠ 0 then [so &&& 0xFF] else []) ++
        (if so &&& 0xFF00 ≠ 0 then [(so >>> 8) &&& 0xFF] else [])) ++
        (if so &&& 0xFF0000 ≠ 0 then [(so >>> 16) &&& 0xFF] else [])) ++
        (if so &&& 0xFF000000 ≠ 0 then [(so >>> 24) &&& 0xFF] else [])) ++
        (if len ≠ 0x10000 then
          (if len &&& 0xFF ≠ 0 then [len &&& 0xFF] else []) ++
            (if len &&& 0xFF00 ≠ 0 then [(len >>> 8) &&& 0xFF] else []) ++
            (if len &&& 0xFF0000 ≠ 0 then [(len >>> 16) &&& 0xFF] else [])
        else [])) := rfl

theorem readCopyOffLen_emit {C1 C2 C3 C4 C5 C6 C7 : Prop}
    [Decidable C1] [Decidable C2] [Decidable C3] [Decidable C4]
    [Decidable C5] [Decidable C6] [Decidable C7]
    (op : Nat) (b1 b2 b3 b4 b5 b6 b7 : Nat)
    (h1 : (op &&& 0x01 != 0) = decide C1)
    (h2 : (op &&& 0x02 != 0) = decide C2)
    (h3 : (op &&& 0x04 != 0) = decide C3)
    (h4 : (op &&& 0x08 != 0) = decide C4)
    (h5 : (op &&& 0x10 != 0) = decide C5)
    (h6 : (op &&& 0x20 != 0) = decide C6)
    (h7 : (op &&& 0x40 != 0) = decide C7) :
    readCopyOffLen op
      ((if C1 then [b1] else []) ++ ((if C2 then [b2] else []) ++
        ((if C3 then [b3] else []) ++ ((if C4 then [b4] else []) ++
        ((if C5 then [b5] else []) ++ ((if C6 then [b6] else [])
          ++ (if C7 then [b7] else []))))))) =
      ((if C1 then b1 else 0) ||| (if C2 then b2 else 0) <<< 8
          ||| (if C3 then b3 else 0) <<< 16 ||| (if C4 then b4 else 0) <<< 24,
        if ((if C5 then b5 else 0) ||| (if C6 then b6 else 0) <<< 8
          ||| (if C7 then b7 else 0) <<< 16) = 0 then 0x10000
        else ((if C5 then b5 else 0) ||| (if C6 then b6 else 0) <<< 8
          ||| (if C7 then b7 else 0) <<< 16)) := by
  simp only [readCopyOffLen, h1, h2, h3, h4, h5, h6, h7,
    takeFlag_cond, takeFlag_cond_last]

end GitDelta

namespace GitDelta

theorem flag_red (C : Prop) [Decidable C] (v : Nat) (hv : v ≠ 0) :
    (if (if C then v else 0) ≠ 0 then 1 else 0) = if C then 1 else 0 := by
  by_cases h : C <;> simp [h, hv]

theorem copyOp_decode (base : List Nat) (so len : Nat) (acc : List Nat)
    (hso : so < 2 ^ 32) (hl1 : 1 ≤ len) (hl2 : len ≤ 0xFFFFFF)
    (hb : so + len ≤ base.length) :
    patchBody base (encodeCopyOp so len).length (encodeCopyOp so len) acc
      = some (.ok (acc ++ (base.drop so).take len)) := by
  have hTop : (if len ≠ 0x10000 then
        (if len &&& 0xFF ≠ 0 then (0x10:Nat) else 0)
          ||| (if len &&& 0xFF00 ≠ 0 then 0x20 else 0)
          ||| (if len &&& 0xFF0000 ≠ 0 then 0x40 else 0)
      else 0) =
      (if len ≠ 0x10000 ∧ len &&& 0xFF ≠ 0 then (0x10:Nat) else 0)
        ||| (if len ≠ 0x10000 ∧ len &&& 0xFF00 ≠ 0 then 0x20 else 0)
        ||| (if len ≠ 0x10000 ∧ len &&& 0xFF0000 ≠ 0 then 0x40 else 0) := by
    by_cases h : len ≠ 0x10000
    · simp [h]
    · simp [h]
  have hTargs : (if len ≠ 0x10000 then
        (if len &&& 0xFF ≠ 0 then [len &&& 0xFF] else []) ++
          (if len &&& 0xFF00 ≠ 0 then [(len >>> 8) &&& 0xFF] else []) ++
          (if len &&& 0xFF0000 ≠ 0 then [(len >>> 16) &&& 0xFF] else [])
      else []) =
      (if len ≠ 0x10000 ∧ len &&& 0xFF ≠ 0 then [len &&& 0xFF] else []) ++
        ((if len ≠ 0x10000 ∧ len &&& 0xFF00 ≠ 0 then [(len >>> 8) &&& 0xFF]
          else []) ++
        (if len ≠ 0x10000 ∧ len &&& 0xFF0000 ≠ 0 then [(len >>> 16) &&& 0xFF]
          else [])) := by
    by_cases h : len ≠ 0x10000
    · simp [h]
    · simp [h]
  rw [encodeCopyOp_eq, hTop, hTargs]
  simp only [List.append_assoc]
  obtain ⟨c0, c1, c2, c3, c4, c5, c6, c7⟩ :=
    @copyOpBitsB (so &&& 0xFF ≠ 0) (so &&& 0xFF00 ≠ 0) (so &&& 0xFF0000 ≠ 0)
      (so &&& 0xFF000000 ≠ 0) (len ≠ 0x10000 ∧ len &&& 0xFF ≠ 0)
      (len ≠ 0x10000 ∧ len &&& 0xFF00 ≠ 0) (len ≠ 0x10000 ∧ len &&& 0xFF0000 ≠ 0)
      inferInstance inferInstance inferInstance inferInstance
      inferInstance inferInstance inferInstance
  generalize hop : (0x80 ||| (if so &&& 0xFF ≠ 0 then 0x01 else 0)
      ||| (if so &&& 0xFF00 ≠ 0 then 0x02 else 0)
      ||| (if so &&& 0xFF0000 ≠ 0 then 0x04 else 0)
      ||| (if so &&& 0xFF000000 ≠ 0 then 0x08 else 0)
      ||| ((if len ≠ 0x10000 ∧ len &&& 0xFF ≠ 0 then (0x10:Nat) else 0)
        ||| (if len ≠ 0x10000 ∧ len &&& 0xFF00 ≠ 0 then 0x20 else 0)
        ||| (if len ≠ 0x10000 ∧ len &&& 0xFF0000 ≠ 0 then 0x40 else 0)) : Nat)
      = op at *
  have hne0 : op ≠ 0 := by
    intro h
    rw [h] at c7
    simp at c7
  have hB1 : (op &&& 0x01 != 0) = decide (so &&& 0xFF ≠ 0) := by
    by_cases h : so &&& 0xFF ≠ 0 <;> simp [c0, h]
  have hB2 : (op &&& 0x02 != 0) = decide (so &&& 0xFF00 ≠ 0) := by
    by_cases h : so &&& 0xFF00 ≠ 0 <;> simp [c1, h]
  have hB3 : (op &&& 0x04 != 0) = decide (so &&& 0xFF0000 ≠ 0) := by
    by_cases h : so &&& 0xFF0000 ≠ 0 <;> simp [c2, h]
  have hB4 : (op &&& 0x08 != 0) = decide (so &&& 0xFF000000 ≠ 0) := by
    by_cases h : so &&& 0xFF000000 ≠ 0 <;> simp [c3, h]
  have hB5 : (op &&& 0x10 != 0) = decide (len ≠ 0x10000 ∧ len &&& 0xFF ≠ 0) := by
    by_cases h : len ≠ 0x10000 ∧ len &&& 0xFF ≠ 0 <;> simp [c4, h]
  have hB6 : (op &&& 0x20 != 0) = decide (len ≠ 0x10000 ∧ len &&& 0xFF00 ≠ 0) := by
    by_cases h : len ≠ 0x10000 ∧ len &&& 0xFF00 ≠ 0 <;> simp [c5, h]
  have hB7 : (op &&& 0x40 != 0)
      = decide (len ≠ 0x10000 ∧ len &&& 0xFF0000 ≠ 0) := by
    by_cases h : len ≠ 0x10000 ∧ len &&& 0xFF0000 ≠ 0 <;> simp [c6, h]
  have hemit := readCopyOffLen_emit op (so &&& 0xFF) ((so >>> 8) &&& 0xFF)
    ((so >>> 16) &&& 0xFF) ((so >>> 24) &&& 0xFF) (len &&& 0xFF)
    ((len >>> 8) &&& 0xFF) ((len >>> 16) &&& 0xFF) hB1 hB2 hB3 hB4 hB5 hB6 hB7
  -- offset reconstruction
  have t1 : (if so &&& 0xFF ≠ 0 then so &&& 0xFF else 0) = so &&& 0xFF := by
    by_cases h : so &&& 0xFF ≠ 0
    · rw [if_pos h]
    · rw [if_neg h]
      exact (not_ne_iff.mp h).symm
  have t2 : (if so &&& 0xFF00 ≠ 0 then (so >>> 8) &&& 0xFF else 0)
      = (so >>> 8) &&& 0xFF := by
    by_cases h : so &&& 0xFF00 ≠ 0
    · rw [if_pos h]
    · rw [if_neg h]
      rw [show (so >>> 8) &&& 0xFF = (so &&& 0xFF00) >>> 8 by
        rw [and_shiftRight, show (0xFF00:Nat) >>> 8 = 0xFF from by decide]]
      rw [not_ne_iff.mp h]
      simp
  have t3 : (if so &&& 0xFF0000 ≠ 0 then (so >>> 16) &&& 0xFF else 0)
      = (so >>> 16) &&& 0xFF := by
    by_cases h : so &&& 0xFF0000 ≠ 0
    · rw [if_pos h]
    · rw [if_neg h]
      rw [show (so >>> 16) &&& 0xFF = (so &&& 0xFF0000) >>> 16 by
        rw [and_shiftRight, show (0xFF0000:Nat) >>> 16 = 0xFF from by decide]]
      rw [not_ne_iff.mp h]
      simp
  have t4 : (if so &&& 0xFF000000 ≠ 0 then (so >>> 24) &&& 0xFF else 0)
      = (so >>> 24) &&& 0xFF := by
    by_cases h : so &&& 0xFF000000 ≠ 0
    · rw [if_pos h]
    · rw [if_neg h]
      rw [show (so >>> 24) &&& 0xFF = (so &&& 0xFF000000) >>> 24 by
        rw [and_shiftRight, show (0xFF000000:Nat) >>> 24 = 0xFF from by decide]]
      rw [not_ne_iff.mp h]
      simp
  rw [t1, t2, t3, t4, bytes32_reconstruct so hso] at hemit
  -- length value
  have hlenv : (if ((if len ≠ 0x10000 ∧ len &&& 0xFF ≠ 0 then len &&& 0xFF else 0)
        ||| (if len ≠ 0x10000 ∧ len &&& 0xFF00 ≠ 0 then (len >>> 8) &&& 0xFF
          else 0) <<< 8
        ||| (if len ≠ 0x10000 ∧ len &&& 0xFF0000 ≠ 0 then (len >>> 16) &&& 0xFF
          else 0) <<< 16) = 0 then (0x10000 : Nat)
      else ((if len ≠ 0x10000 ∧ len &&& 0xFF ≠ 0 then len &&& 0xFF else 0)
        ||| (if len ≠ 0x10000 ∧ len &&& 0xFF00 ≠ 0 then (len >>> 8) &&& 0xFF
          else 0) <<< 8
        ||| (if len ≠ 0x10000 ∧ len &&& 0xFF0000 ≠ 0 then (len >>> 16) &&& 0xFF
          else 0) <<< 16)) = len := by
    by_cases hsp : len = 0x10000
    · simp [hsp]
    · have u1 : (if len ≠ 0x10000 ∧ len &&& 0xFF ≠ 0 then len &&& 0xFF else 0)
          = len &&& 0xFF := by
        by_cases h : len &&& 0xFF ≠ 0
        · rw [if_pos ⟨hsp, h⟩]
        · rw [if_neg (by simp [h])]
          exact (not_ne_iff.mp h).symm
      have u2 : (if len ≠ 0x10000 ∧ len &&& 0xFF00 ≠ 0
            then (len >>> 8) &&& 0xFF else 0) = (len >>> 8) &&& 0xFF := by
        by_cases h : len &&& 0xFF00 ≠ 0
        · rw [if_pos ⟨hsp, h⟩]
        · rw [if_neg (by simp [h])]
          rw [show (len >>> 8) &&& 0xFF = (len &&& 0xFF00) >>> 8 by
            rw [and_shiftRight, show (0xFF00:Nat) >>> 8 = 0xFF from by decide]]
          rw [not_ne_iff.mp h]
          simp
      simp
      have u3 : (if len ≠ 0x10000 ∧ len &&& 0xFF0000 ≠ 0
            then (len >>> 16) &&& 0xFF else 0) = (len >>> 16) &&& 0xFF := by
        by_cases h : len &&& 0xFF0000 ≠ 0
        · rw [if_pos ⟨hsp, h⟩]
        · rw [if_neg (by simp [h])]
          rw [show (len >>> 16) &&& 0xFF = (len &&& 0xFF0000) >>> 16 by
            rw [and_shiftRight, show (0xFF0000:Nat) >>> 16 = 0xFF from by decide]]
          rw [not_ne_iff.mp h]
          simp
      rw [u1, u2, u3, bytes24_reconstruct len (by norm_num; omega)]
      rw [if_neg (by omega)]
  rw [hlenv] at hemit
  -- flagCount equals the number of emitted argument bytes
  have hfc : flagCount op =
      ((if so &&& 0xFF ≠ 0 then [so &&& 0xFF] else []) ++
        ((if so &&& 0xFF00 ≠ 0 then [(so >>> 8) &&& 0xFF] else []) ++
        ((if so &&& 0xFF0000 ≠ 0 then [(so >>> 16) &&& 0xFF] else []) ++
        ((if so &&& 0xFF000000 ≠ 0 then [(so >>> 24) &&& 0xFF] else []) ++
        ((if len ≠ 0x10000 ∧ len &&& 0xFF ≠ 0 then [len &&& 0xFF] else []) ++
        ((if len ≠ 0x10000 ∧ len &&& 0xFF00 ≠ 0 then [(len >>> 8) &&& 0xFF]
          else []) ++
        (if len ≠ 0x10000 ∧ len &&& 0xFF0000 ≠ 0 then [(len >>> 16) &&& 0xFF]
          else []))))))).length := by
    simp only [flagCount, c0, c1, c2, c3, c4, c5, c6,
      flag_red _ 1 (by norm_num), flag_red _ 2 (by norm_num),
      flag_red _ 4 (by norm_num), flag_red _ 8 (by norm_num),
      flag_red _ 16 (by norm_num), flag_red _ 32 (by norm_num),
      flag_red _ 64 (by norm_num),
      List.length_append, apply_ite List.length, List.length_singleton,
      List.length_nil]
    omega
  rw [List.length_cons, patchBody_cons]
  rw [if_neg hne0]
  rw [if_pos (show op &&& 0x80 ≠ 0 by rw [c7]; norm_num)]
  rw [if_pos (le_of_eq hfc)]
  rw [hfc, List.take_length, List.drop_length]
  rw [hemit]
  rw [if_pos hb]
  exact patchBody_nil base _ (acc ++ (base.drop so).take len)

end GitDelta

namespace GitDelta

/-- The delta `out` consists of the two size headers `H` followed by a
body that `patch`'s op loop decodes to the first `p` target bytes. -/
def decodesTo (base target H out : List Nat) (p : Nat) : Prop :=
  ∃ body, out = H ++ body ∧
    patchBody base body.length body [] = some (Except.ok (target.take p))

theorem decodesTo_extend {base target H out : List Nat} {p q : Nat}
    (h : decodesTo base target H out p) (ops : List Nat)
    (hops : patchBody base ops.length ops (target.take p)
      = some (.ok (target.take q))) :
    decodesTo base target H (out ++ ops) q := by
  obtain ⟨body, rfl, hdec⟩ := h
  refine ⟨body ++ ops, by rw [List.append_assoc], ?_⟩
  rw [patchBody_append base body.length body ops [] (target.take p) le_rfl hdec]
  exact hops

theorem decodesTo_inline {base target H out : List Nat} {p : Nat}
    (h : decodesTo base target H out p) (len : Nat)
    (h1 : 1 ≤ len) (h2 : len ≤ 127) (hp : p + len ≤ target.length) :
    decodesTo base target H (out ++ (len :: (target.drop p).take len))
      (p + len) := by
  refine decodesTo_extend h _ ?_
  have hd : ((target.drop p).take len).length = len := by
    rw [List.length_take, List.length_drop]
    omega
  rw [inlineOp_decode base len _ _ h1 h2 hd, ← List.take_add]

theorem decodesTo_copy {base target H out : List Nat} {p : Nat}
    (h : decodesTo base target H out p) (so len : Nat)
    (hso : so < 2 ^ 32) (h1 : 1 ≤ len) (h2 : len ≤ 0xFFFFFF)
    (hb : so + len ≤ base.length)
    (hslice : (base.drop so).take len = (target.drop p).take len) :
    decodesTo base target H (out ++ encodeCopyOp so len) (p + len) := by
  refine decodesTo_extend h _ ?_
  rw [copyOp_decode base so len (target.take p) hso h1 h2 hb, hslice,
    ← List.take_add]

/-- Invariant of the backtracking chunk stack: each entry `(p, o)` marks a
valid checkpoint (truncating the output to `o` leaves a delta decoding
to the first `p` target bytes), with positions strictly decreasing and
output marks non-increasing from newest to oldest. -/
def StackInv (base target H out : List Nat) :
    List (Nat × Nat) → Nat → Nat → Prop
  | [], _, _ => True
  | (p, o) :: rest, pB, oB =>
      p < pB ∧ o ≤ oB ∧ decodesTo base target H (out.take o) p ∧
        StackInv base target H out rest p o

theorem StackInv_mono {base target H out : List Nat}
    {chunks : List (Nat × Nat)} {pB oB pB' oB' : Nat}
    (h : StackInv base target H out chunks pB oB)
    (hp : pB ≤ pB') (ho : oB ≤ oB') :
    StackInv base target H out chunks pB' oB' := by
  cases chunks with
  | nil => trivial
  | cons e rest =>
    obtain ⟨p, o⟩ := e
    exact ⟨lt_of_lt_of_le h.1 hp, le_trans h.2.1 ho, h.2.2.1, h.2.2.2⟩

theorem StackInv_append {base target H out ext : List Nat}
    {chunks : List (Nat × Nat)} {pB oB : Nat}
    (h : StackInv base target H out chunks pB oB) (hoB : oB ≤ out.length) :
    StackInv base target H (out ++ ext) chunks pB oB := by
  induction chunks generalizing pB oB with
  | nil => trivial
  | cons e rest ih =>
    obtain ⟨p, o⟩ := e
    obtain ⟨h1, h2, h3, h4⟩ := h
    exact ⟨h1, h2,
      by rw [List.take_append_of_le_length (le_trans h2 hoB)]; exact h3,
      ih h4 (le_trans h2 hoB)⟩

theorem StackInv_take {base target H out : List Nat}
    {chunks : List (Nat × Nat)} {pB oB e : Nat}
    (h : StackInv base target H out chunks pB oB) (he : oB ≤ e) :
    StackInv base target H (out.take e) chunks pB oB := by
  induction chunks generalizing pB oB with
  | nil => trivial
  | cons hd rest ih =>
    obtain ⟨p, o⟩ := hd
    obtain ⟨h1, h2, h3, h4⟩ := h
    refine ⟨h1, h2, ?_, ih h4 (le_trans h2 he)⟩
    rw [List.take_take, min_eq_left (le_trans h2 he)]
    exact h3

theorem popChunks_nil (ts t e : Nat) : popChunks ts [] t e = ([], t, e) := rfl

theorem popChunks_cons (ts p o t e : Nat) (rest : List (Nat × Nat)) :
    popChunks ts ((p, o) :: rest) t e =
      if p < ts then ((p, o) :: rest, t, e) else popChunks ts rest p o := rfl

theorem popChunks_spec {base target H out : List Nat} (ts : Nat) :
    ∀ (chunks : List (Nat × Nat)) (t0 e0 : Nat),
      decodesTo base target H (out.take e0) t0 →
      StackInv base target H out chunks t0 e0 →
      ts ≤ t0 →
      decodesTo base target H (out.take (popChunks ts chunks t0 e0).2.2)
          (popChunks ts chunks t0 e0).2.1 ∧
        StackInv base target H out (popChunks ts chunks t0 e0).1
          (popChunks ts chunks t0 e0).2.1 (popChunks ts chunks t0 e0).2.2 ∧
        ts ≤ (popChunks ts chunks t0 e0).2.1 ∧
        (popChunks ts chunks t0 e0).2.1 ≤ t0 ∧
        (popChunks ts chunks t0 e0).2.2 ≤ e0 := by
  intro chunks
  induction chunks with
  | nil =>
    intro t0 e0 hdec hst hts
    rw [popChunks_nil]
    exact ⟨hdec, trivial, hts, le_rfl, le_rfl⟩
  | cons hd rest ih =>
    obtain ⟨p, o⟩ := hd
    intro t0 e0 hdec hst hts
    obtain ⟨h1, h2, h3, h4⟩ := hst
    rw [popChunks_cons]
    by_cases hp : p < ts
    · rw [if_pos hp]
      exact ⟨hdec, ⟨h1, h2, h3, h4⟩, hts, le_rfl, le_rfl⟩
    · rw [if_neg hp]
      have hr := ih p o h3 h4 (by omega)
      exact ⟨hr.1, hr.2.1, hr.2.2.1, le_trans hr.2.2.2.1 (le_of_lt h1),
        le_trans hr.2.2.2.2 h2⟩

theorem popChunks_no_pop {base target H out : List Nat}
    {chunks : List (Nat × Nat)} {pB oB : Nat} (ts t0 e0 : Nat)
    (hst : StackInv base target H out chunks pB oB) (hpB : pB ≤ ts) :
    popChunks ts chunks t0 e0 = (chunks, t0, e0) := by
  cases chunks with
  | nil => rfl
  | cons hd rest =>
    obtain ⟨p, o⟩ := hd
    rw [popChunks_cons, if_pos (by have := hst.1; omega)]

end GitDelta

namespace GitDelta

theorem emitInlineGo_zero (target : List Nat) (handled teff : Nat)
    (chunks : List (Nat × Nat)) (out : List Nat) :
    emitInlineGo target 0 handled teff chunks out = (handled, chunks, out) := rfl

theorem emitInlineGo_succ (target : List Nat) (fuel handled teff : Nat)
    (chunks : List (Nat × Nat)) (out : List Nat) :
    emitInlineGo target (fuel + 1) handled teff chunks out =
      if handled < teff then
        emitInlineGo target fuel (handled + min 0x7F (teff - handled)) teff
          ((handled, out.length) :: chunks)
          (out ++ [min 0x7F (teff - handled)]
            ++ (target.drop handled).take (min 0x7F (teff - handled)))
      else (handled, chunks, out) := rfl

theorem emitInlineGo_spec {base H : List Nat} (target : List Nat) :
    ∀ (fuel handled teff : Nat) (chunks : List (Nat × Nat)) (out : List Nat),
      teff - handled ≤ fuel → handled ≤ teff → teff ≤ target.length →
      decodesTo base target H out handled →
      StackInv base target H out chunks handled out.length →
      (emitInlineGo target fuel handled teff chunks out).1 = teff ∧
        decodesTo base target H
          (emitInlineGo target fuel handled teff chunks out).2.2 teff ∧
        StackInv base target H
          (emitInlineGo target fuel handled teff chunks out).2.2
          (emitInlineGo target fuel handled teff chunks out).2.1 teff
          (emitInlineGo target fuel handled teff chunks out).2.2.length ∧
        out.length ≤ (emitInlineGo target fuel handled teff chunks out).2.2.length := by
  intro fuel
  induction fuel with
  | zero =>
    intro handled teff chunks out hf hh ht hdec hst
    obtain rfl : teff = handled := by omega
    rw [emitInlineGo_zero]
    exact ⟨rfl, hdec, hst, le_rfl⟩
  | succ fuel ih =>
    intro handled teff chunks out hf hh ht hdec hst
    rw [emitInlineGo_succ]
    by_cases hlt : handled < teff
    · rw [if_pos hlt, List.append_assoc]
      have hlen1 : 1 ≤ min 0x7F (teff - handled) := by omega
      have hlen2 : min 0x7F (teff - handled) ≤ 127 := by omega
      have hnd : decodesTo base target H
          (out ++ ([min 0x7F (teff - handled)]
            ++ (target.drop handled).take (min 0x7F (teff - handled))))
          (handled + min 0x7F (teff - handled)) :=
        decodesTo_inline hdec _ hlen1 hlen2 (by omega)
      have hns : StackInv base target H
          (out ++ ([min 0x7F (teff - handled)]
            ++ (target.drop handled).take (min 0x7F (teff - handled))))
          ((handled, out.length) :: chunks)
          (handled + min 0x7F (teff - handled))
          (out ++ ([min 0x7F (teff - handled)]
            ++ (target.drop handled).take (min 0x7F (teff - handled)))).length := by
        refine ⟨by omega, by simp, ?_, StackInv_append hst le_rfl⟩
        rw [List.take_left]
        exact hdec
      have hr := ih (handled + min 0x7F (teff - handled)) teff
        ((handled, out.length) :: chunks)
        (out ++ ([min 0x7F (teff - handled)]
          ++ (target.drop handled).take (min 0x7F (teff - handled))))
        (by omega) (by omega) ht hnd hns
      refine ⟨hr.1, hr.2.1, hr.2.2.1, le_trans (by simp) hr.2.2.2⟩
    · rw [if_neg hlt]
      obtain rfl : teff = handled := by omega
      exact ⟨rfl, hdec, hst, le_rfl⟩

end GitDelta

namespace GitDelta

theorem emitCopyGo_zero (teff so srcLen : Nat) (chunks : List (Nat × Nat))
    (out : List Nat) : emitCopyGo 0 teff so srcLen chunks out
      = (teff, chunks, out) := rfl

theorem emitCopyGo_succ (fuel teff so srcLen : Nat)
    (chunks : List (Nat × Nat)) (out : List Nat) :
    emitCopyGo (fuel + 1) teff so srcLen chunks out =
      if srcLen = 0 then (teff, chunks, out)
      else emitCopyGo fuel (teff + min srcLen 0xFFFFFF)
        (so + min srcLen 0xFFFFFF) (srcLen - min srcLen 0xFFFFFF)
        ((teff, out.length) :: chunks)
        (out ++ encodeCopyOp so (min srcLen 0xFFFFFF)) := rfl

theorem emitCopyGo_spec {base target H : List Nat}
    (hbase32 : base.length ≤ U32MAX) :
    ∀ (fuel teff so srcLen : Nat) (chunks : List (Nat × Nat)) (out : List Nat),
      srcLen ≤ fuel → so + srcLen ≤ base.length →
      teff + srcLen ≤ target.length →
      (base.drop so).take srcLen = (target.drop teff).take srcLen →
      decodesTo base target H out teff →
      StackInv base target H out chunks teff out.length →
      (emitCopyGo fuel teff so srcLen chunks out).1 = teff + srcLen ∧
        decodesTo base target H (emitCopyGo fuel teff so srcLen chunks out).2.2
          (teff + srcLen) ∧
        StackInv base target H (emitCopyGo fuel teff so srcLen chunks out).2.2
          (emitCopyGo fuel teff so srcLen chunks out).2.1 (teff + srcLen)
          (emitCopyGo fuel teff so srcLen chunks out).2.2.length ∧
        out.length ≤ (emitCopyGo fuel teff so srcLen chunks out).2.2.length := by
  intro fuel
  induction fuel with
  | zero =>
    intro teff so srcLen chunks out hf hsb htb hsl hdec hst
    obtain rfl : srcLen = 0 := by omega
    rw [emitCopyGo_zero]
    exact ⟨by omega, by rw [Nat.add_zero]; exact hdec,
      by rw [Nat.add_zero]; exact hst, le_rfl⟩
  | succ fuel ih =>
    intro teff so srcLen chunks out hf hsb htb hsl hdec hst
    rw [emitCopyGo_succ]
    by_cases hz : srcLen = 0
    · subst hz
      rw [if_pos rfl]
      exact ⟨by omega, by rw [Nat.add_zero]; exact hdec,
        by rw [Nat.add_zero]; exact hst, le_rfl⟩
    · rw [if_neg hz]
      have hso32 : so < 2 ^ 32 := by
        have hU : U32MAX = 4294967295 := rfl
        have h32 : (2 : Nat) ^ 32 = 4294967296 := by norm_num
        omega
      have hsl2 : (base.drop so).take (min srcLen 0xFFFFFF)
          = (target.drop teff).take (min srcLen 0xFFFFFF) := by
        have h := congrArg (List.take (min srcLen 0xFFFFFF)) hsl
        rw [List.take_take, List.take_take, min_eq_left (by omega)] at h
        exact h
      have hnd : decodesTo base target H
          (out ++ encodeCopyOp so (min srcLen 0xFFFFFF))
          (teff + min srcLen 0xFFFFFF) :=
        decodesTo_copy hdec so (min srcLen 0xFFFFFF) hso32 (by omega) (by omega)
          (by omega) hsl2
      have hns : StackInv base target H
          (out ++ encodeCopyOp so (min srcLen 0xFFFFFF))
          ((teff, out.length) :: chunks) (teff + min srcLen 0xFFFFFF)
          (out ++ encodeCopyOp so (min srcLen 0xFFFFFF)).length := by
        refine ⟨by omega, by simp, ?_, StackInv_append hst le_rfl⟩
        rw [List.take_left]
        exact hdec
      have hslr : (base.drop (so + min srcLen 0xFFFFFF)).take
            (srcLen - min srcLen 0xFFFFFF)
          = (target.drop (teff + min srcLen 0xFFFFFF)).take
            (srcLen - min srcLen 0xFFFFFF) := by
        have h := congrArg (List.drop (min srcLen 0xFFFFFF)) hsl
        rw [List.drop_take, List.drop_take, List.drop_drop, List.drop_drop] at h
        exact h
      have hr := ih (teff + min srcLen 0xFFFFFF) (so + min srcLen 0xFFFFFF)
        (srcLen - min srcLen 0xFFFFFF) ((teff, out.length) :: chunks)
        (out ++ encodeCopyOp so (min srcLen 0xFFFFFF))
        (by omega) (by omega) (by omega) hslr hnd hns
      have harith : teff + min srcLen 0xFFFFFF + (srcLen - min srcLen 0xFFFFFF)
          = teff + srcLen := by omega
      rw [harith] at hr
      exact ⟨hr.1, hr.2.1, hr.2.2.1, le_trans (by simp) hr.2.2.2⟩

theorem emitInlineTail_zero (target : List Nat) (handled : Nat)
    (out : List Nat) : emitInlineTail target 0 handled out = out := rfl

theorem emitInlineTail_succ (target : List Nat) (fuel handled : Nat)
    (out : List Nat) :
    emitInlineTail target (fuel + 1) handled out =
      if handled < target.length then
        emitInlineTail target fuel
          (handled + min 0x7F (target.length - handled))
          (out ++ [min 0x7F (target.length - handled)]
            ++ (target.drop handled).take
              (min 0x7F (target.length - handled)))
      else out := rfl

theorem emitInlineTail_spec {base H : List Nat} (target : List Nat) :
    ∀ (fuel handled : Nat) (out : List Nat),
      target.length - handled ≤ fuel → handled ≤ target.length →
      decodesTo base target H out handled →
      decodesTo base target H (emitInlineTail target fuel handled out)
        target.length := by
  intro fuel
  induction fuel with
  | zero =>
    intro handled out hf hh hdec
    obtain rfl : handled = target.length := by omega
    rw [emitInlineTail_zero]
    exact hdec
  | succ fuel ih =>
    intro handled out hf hh hdec
    rw [emitInlineTail_succ]
    by_cases hlt : handled < target.length
    · rw [if_pos hlt, List.append_assoc]
      exact ih _ _ (by omega) (by omega)
        (decodesTo_inline hdec _ (by omega) (by omega) (by omega))
    · rw [if_neg hlt]
      obtain rfl : handled = target.length := by omega
      exact hdec

end GitDelta

namespace GitDelta

theorem getD_of_take_drop_eq {xs ys : List Nat} {a b n : Nat}
    (h : (xs.drop a).take n = (ys.drop b).take n) :
    ∀ k, k < n → xs.getD (a + k) 0 = ys.getD (b + k) 0 := by
  intro k hk
  have h1 : ((xs.drop a).take n)[k]? = ((ys.drop b).take n)[k]? := by rw [h]
  rw [List.getElem?_take_of_lt hk, List.getElem?_take_of_lt hk,
    List.getElem?_drop, List.getElem?_drop] at h1
  rw [List.getD_eq_getD_get? xs 0 (a + k), List.getD_eq_getD_get? ys 0 (b + k),
    List.get?_eq_getElem?, List.get?_eq_getElem?, h1]

theorem take_drop_eq_of_getD {xs ys : List Nat} {a b n : Nat}
    (ha : a + n ≤ xs.length) (hb : b + n ≤ ys.length)
    (h : ∀ k, k < n → xs.getD (a + k) 0 = ys.getD (b + k) 0) :
    (xs.drop a).take n = (ys.drop b).take n := by
  apply List.ext_getElem?
  intro i
  by_cases hi : i < n
  · rw [List.getElem?_take_of_lt hi, List.getElem?_take_of_lt hi,
      List.getElem?_drop, List.getElem?_drop]
    have hxa : a + i < xs.length := by omega
    have hyb : b + i < ys.length := by omega
    rw [List.getElem?_eq_getElem hxa, List.getElem?_eq_getElem hyb]
    have hh := h i hi
    rw [List.getD_eq_getElem xs 0 hxa, List.getD_eq_getElem ys 0 hyb] at hh
    rw [hh]
  · rw [List.getElem?_eq_none (by rw [List.length_take]; omega),
      List.getElem?_eq_none (by rw [List.length_take]; omega)]

theorem extendBack_spec (base target : List Nat) :
    ∀ (s t : Nat), s ≤ base.length → t ≤ target.length →
      (extendBack base target s t).1 ≤ s ∧
        (extendBack base target s t).2 ≤ t ∧
        s - (extendBack base target s t).1 = t - (extendBack base target s t).2 ∧
        ∀ k, (extendBack base target s t).1 ≤ k → k < s →
          base.getD k 0
            = target.getD ((extendBack base target s t).2
              + (k - (extendBack base target s t).1)) 0 := by
  intro s
  induction s with
  | zero =>
    intro t hs ht
    rw [show extendBack base target 0 t = (0, t) from rfl]
    exact ⟨le_rfl, le_rfl, by simp, fun k hk1 hk2 => absurd hk2 (by omega)⟩
  | succ s ih =>
    intro t hs ht
    cases t with
    | zero =>
      rw [show extendBack base target (s + 1) 0 = (s + 1, 0) from rfl]
      exact ⟨le_rfl, le_rfl, by omega, fun k hk1 hk2 => absurd hk2 (by omega)⟩
    | succ t =>
      rw [show extendBack base target (s + 1) (t + 1)
        = (if base.getD s 0 = target.getD t 0 then extendBack base target s t
          else (s + 1, t + 1)) from rfl]
      by_cases heq : base.getD s 0 = target.getD t 0
      · rw [if_pos heq]
        have hr := ih t (by omega) (by omega)
        refine ⟨le_trans hr.1 (by omega), le_trans hr.2.1 (by omega),
          by omega, ?_⟩
        intro k hk1 hk2
        by_cases hks : k < s
        · exact hr.2.2.2 k hk1 hks
        · have hk : k = s := by omega
          rw [hk, show (extendBack base target s t).2
              + (s - (extendBack base target s t).1) = t from by omega]
          exact heq
      · rw [if_neg heq]
        exact ⟨le_rfl, le_rfl, by omega, fun k hk1 hk2 => absurd hk2 (by omega)⟩

theorem extendFwd_spec (base target : List Nat) :
    ∀ (fuel s t : Nat), s ≤ base.length → t ≤ target.length →
      s ≤ (extendFwd base target fuel s t).1 ∧
        (extendFwd base target fuel s t).1 - s
          = (extendFwd base target fuel s t).2 - t ∧
        t ≤ (extendFwd base target fuel s t).2 ∧
        (extendFwd base target fuel s t).1 ≤ base.length ∧
        (extendFwd base target fuel s t).2 ≤ target.length ∧
        ∀ k, s ≤ k → k < (extendFwd base target fuel s t).1 →
          base.getD k 0 = target.getD (t + (k - s)) 0 := by
  intro fuel
  induction fuel with
  | zero =>
    intro s t hs ht
    rw [show extendFwd base target 0 s t = (s, t) from rfl]
    exact ⟨le_rfl, by omega, le_rfl, hs, ht,
      fun k hk1 hk2 => absurd hk2 (by omega)⟩
  | succ fuel ih =>
    intro s t hs ht
    rw [show extendFwd base target (fuel + 1) s t
      = (if s ≠ base.length ∧ t ≠ target.length
            ∧ target.getD t 0 = base.getD s 0 then
          extendFwd base target fuel (s + 1) (t + 1)
        else (s, t)) from rfl]
    by_cases hc : s ≠ base.length ∧ t ≠ target.length
        ∧ target.getD t 0 = base.getD s 0
    · rw [if_pos hc]
      have hr := ih (s + 1) (t + 1) (by omega) (by omega)
      refine ⟨by omega, by omega, by omega, hr.2.2.2.1, hr.2.2.2.2.1, ?_⟩
      intro k hk1 hk2
      by_cases hks : s + 1 ≤ k
      · have := hr.2.2.2.2.2 k hks hk2
        rw [show t + 1 + (k - (s + 1)) = t + (k - s) from by omega] at this
        exact this
      · have hk : k = s := by omega
        rw [hk, show t + (s - s) = t from by omega]
        exact hc.2.2.symm
    · rw [if_neg hc]
      exact ⟨le_rfl, by omega, le_rfl, hs, ht,
        fun k hk1 hk2 => absurd hk2 (by omega)⟩

end GitDelta

namespace GitDelta

theorem hitStep_spec {base target H : List Nat} {w si ti handled : Nat}
    {chunks : List (Nat × Nat)} {out : List Nat}
    (hbase32 : base.length ≤ U32MAX) (hw : 1 ≤ w)
    (hti : ti + w ≤ target.length) (hhi : handled ≤ ti)
    (hmatch : (base.drop si).take w = (target.drop ti).take w)
    (hdec : decodesTo base target H out handled)
    (hst : StackInv base target H out chunks handled out.length) :
    ti + w ≤ (hitStep base target w si ti handled chunks out).1 ∧
      (hitStep base target w si ti handled chunks out).1 ≤ target.length ∧
      decodesTo base target H
        (hitStep base target w si ti handled chunks out).2.2
        (hitStep base target w si ti handled chunks out).1 ∧
      StackInv base target H
        (hitStep base target w si ti handled chunks out).2.2
        (hitStep base target w si ti handled chunks out).2.1
        (hitStep base target w si ti handled chunks out).1
        (hitStep base target w si ti handled chunks out).2.2.length := by
  have hsiw : si + w ≤ base.length := by
    have hlen := congrArg List.length hmatch
    rw [List.length_take, List.length_take, List.length_drop,
      List.length_drop] at hlen
    omega
  rcases hEB : extendBack base target si ti with ⟨ss, ts⟩
  rcases hEF : extendFwd base target (base.length - (si + w)) (si + w) (ti + w)
    with ⟨se, te⟩
  have hB := extendBack_spec base target si ti (by omega) (by omega)
  rw [hEB] at hB
  dsimp only at hB
  obtain ⟨hB1, hB2, hB3, hB4⟩ := hB
  have hF := extendFwd_spec base target (base.length - (si + w)) (si + w)
    (ti + w) (by omega) (by omega)
  rw [hEF] at hF
  dsimp only at hF
  obtain ⟨hF1, hF2, hF3, hF4, hF5, hF6⟩ := hF
  have hWin := getD_of_take_drop_eq hmatch
  have hpoint : ∀ k, ss ≤ k → k < se →
      base.getD k 0 = target.getD (ts + (k - ss)) 0 := by
    intro k hk1 hk2
    by_cases hka : k < si
    · exact hB4 k hk1 hka
    · by_cases hkb : k < si + w
      · have hwk := hWin (k - si) (by omega)
        rw [show si + (k - si) = k from by omega] at hwk
        rw [show ts + (k - ss) = ti + (k - si) from by omega]
        exact hwk
      · have hfk := hF6 k (by omega) hk2
        rw [show ti + w + (k - (si + w)) = ts + (k - ss) from by omega] at hfk
        exact hfk
  simp only [hitStep]
  rw [hEB, hEF]
  dsimp only
  by_cases hts : ts ≤ handled
  · rw [Nat.max_eq_left hts]
    have hPC := popChunks_spec ts chunks handled out.length
      (by rw [List.take_length]; exact hdec) hst hts
    obtain ⟨hPdec, hPst, hPts, hPt0, hPe0⟩ := hPC
    rw [if_neg (by omega :
      ¬ (popChunks ts chunks handled out.length).2.1 > handled)]
    dsimp only
    have hlen1 : (out.take (popChunks ts chunks handled out.length).2.2).length
        = (popChunks ts chunks handled out.length).2.2 := by
      rw [List.length_take]
      omega
    have hslice : (base.drop
          (ss + ((popChunks ts chunks handled out.length).2.1 - ts))).take
          (se - (ss + ((popChunks ts chunks handled out.length).2.1 - ts)))
        = (target.drop (popChunks ts chunks handled out.length).2.1).take
          (se - (ss + ((popChunks ts chunks handled out.length).2.1 - ts))) := by
      refine take_drop_eq_of_getD (by omega) (by omega) ?_
      intro k hk
      have hp := hpoint (ss + ((popChunks ts chunks handled out.length).2.1 - ts)
        + k) (by omega) (by omega)
      rw [show ts + (ss + ((popChunks ts chunks handled out.length).2.1 - ts)
          + k - ss) = (popChunks ts chunks handled out.length).2.1 + k
        from by omega] at hp
      exact hp
    have hEC := emitCopyGo_spec hbase32
      (se - (ss + ((popChunks ts chunks handled out.length).2.1 - ts)))
      (popChunks ts chunks handled out.length).2.1
      (ss + ((popChunks ts chunks handled out.length).2.1 - ts))
      (se - (ss + ((popChunks ts chunks handled out.length).2.1 - ts)))
      (popChunks ts chunks handled out.length).1
      (out.take (popChunks ts chunks handled out.length).2.2)
      le_rfl (by omega) (by omega) hslice hPdec
      (by rw [hlen1]; exact StackInv_take hPst le_rfl)
    rw [show (popChunks ts chunks handled out.length).2.1
        + (se - (ss + ((popChunks ts chunks handled out.length).2.1 - ts)))
        = te from by omega] at hEC
    exact ⟨by omega, by omega, hEC.2.1, hEC.2.2.1⟩
  · rw [Nat.max_eq_right (by omega : handled ≤ ts)]
    rw [popChunks_no_pop ts ts out.length hst (by omega)]
    dsimp only
    rw [if_pos (by omega : ts > handled), List.take_length]
    have hIL := emitInlineGo_spec target (ts - handled) handled ts chunks out
      le_rfl (by omega) (by omega) hdec hst
    obtain ⟨hI1, hI2, hI3, hI4⟩ := hIL
    have hslice : (base.drop (ss + (ts - ts))).take (se - (ss + (ts - ts)))
        = (target.drop ts).take (se - (ss + (ts - ts))) := by
      refine take_drop_eq_of_getD (by omega) (by omega) ?_
      intro k hk
      have hp := hpoint (ss + (ts - ts) + k) (by omega) (by omega)
      rw [show ts + (ss + (ts - ts) + k - ss) = ts + k from by omega] at hp
      exact hp
    have hEC := emitCopyGo_spec hbase32 (se - (ss + (ts - ts))) ts
      (ss + (ts - ts)) (se - (ss + (ts - ts)))
      (emitInlineGo target (ts - handled) handled ts chunks out).2.1
      (emitInlineGo target (ts - handled) handled ts chunks out).2.2
      le_rfl (by omega) (by omega) hslice hI2 (by rw [← hI1] at hI3 ⊢; exact hI3)
    rw [show ts + (se - (ss + (ts - ts))) = te from by omega] at hEC
    exact ⟨by omega, by omega, hEC.2.1, hEC.2.2.1⟩

end GitDelta

namespace GitDelta

theorem diffGo_zero (rwh : List Nat → Nat) (base target : List Nat)
    (w : Nat) (table : List Nat) (mask ti handled : Nat)
    (chunks : List (Nat × Nat)) (out : List Nat) :
    diffGo rwh base target w table mask 0 ti handled chunks out
      = (handled, out) := rfl

theorem diffGo_succ (rwh : List Nat → Nat) (base target : List Nat)
    (w : Nat) (table : List Nat) (mask fuel ti handled : Nat)
    (chunks : List (Nat × Nat)) (out : List Nat) :
    diffGo rwh base target w table mask (fuel + 1) ti handled chunks out =
      (match tableGet table mask (rwh ((target.drop ti).take w)) with
      | some si =>
        if (base.drop si).take w = (target.drop ti).take w then
          if target.length
              - (hitStep base target w si ti handled chunks out).1 < w then
            ((hitStep base target w si ti handled chunks out).1,
              (hitStep base target w si ti handled chunks out).2.2)
          else diffGo rwh base target w table mask fuel
            (hitStep base target w si ti handled chunks out).1
            (hitStep base target w si ti handled chunks out).1
            (hitStep base target w si ti handled chunks out).2.1
            (hitStep base target w si ti handled chunks out).2.2
        else
          match target.get? (ti + w) with
          | none => (handled, out)
          | some _ =>
            diffGo rwh base target w table mask fuel (ti + 1) handled chunks out
      | none =>
        match target.get? (ti + w) with
        | none => (handled, out)
        | some _ =>
          diffGo rwh base target w table mask fuel (ti + 1) handled chunks
            out) := rfl

theorem diffGo_spec (base target H : List Nat) (rwh : List Nat → Nat)
    (w : Nat) (table : List Nat) (mask : Nat)
    (hbase32 : base.length ≤ U32MAX) (hw : 1 ≤ w) :
    ∀ (fuel ti handled : Nat) (chunks : List (Nat × Nat)) (out : List Nat),
      ti + w ≤ target.length → handled ≤ ti →
      decodesTo base target H out handled →
      StackInv base target H out chunks handled out.length →
      (diffGo rwh base target w table mask fuel ti handled chunks out).1
          ≤ target.length ∧
        decodesTo base target H
          (diffGo rwh base target w table mask fuel ti handled chunks out).2
          (diffGo rwh base target w table mask fuel ti handled chunks out).1 := by
  intro fuel
  induction fuel with
  | zero =>
    intro ti handled chunks out hti hhi hdec hst
    rw [diffGo_zero]
    exact ⟨by omega, hdec⟩
  | succ fuel ih =>
    intro ti handled chunks out hti hhi hdec hst
    cases htg : tableGet table mask (rwh ((target.drop ti).take w)) with
    | none =>
      cases hg : target.get? (ti + w) with
      | none =>
        simp only [diffGo_succ, htg, hg]
        exact ⟨by omega, hdec⟩
      | some b =>
        simp only [diffGo_succ, htg, hg]
        have hlt : ti + w < target.length := by
          by_contra hc
          rw [List.get?_eq_none.mpr (by omega)] at hg
          cases hg
        exact ih (ti + 1) handled chunks out (by omega) (by omega) hdec hst
    | some si =>
      by_cases hvm : (base.drop si).take w = (target.drop ti).take w
      · have hHS := hitStep_spec hbase32 hw hti hhi hvm hdec hst
        by_cases hbr : target.length
            - (hitStep base target w si ti handled chunks out).1 < w
        · simp only [diffGo_succ, htg, if_pos hvm, if_pos hbr]
          exact ⟨hHS.2.1, hHS.2.2.1⟩
        · simp only [diffGo_succ, htg, if_pos hvm, if_neg hbr]
          exact ih _ _ _ _ (by omega) le_rfl hHS.2.2.1 hHS.2.2.2
      · cases hg : target.get? (ti + w) with
        | none =>
          simp only [diffGo_succ, htg, if_neg hvm, hg]
          exact ⟨by omega, hdec⟩
        | some b =>
          simp only [diffGo_succ, htg, if_neg hvm, hg]
          have hlt : ti + w < target.length := by
            by_contra hc
            rw [List.get?_eq_none.mpr (by omega)] at hg
            cases hg
          exact ih (ti + 1) handled chunks out (by omega) (by omega) hdec hst

end GitDelta

/-- C1: whenever `diff` produces a delta (`Some`), applying `patch` to the
same base reconstructs the target exactly.  The hypotheses bound the
inputs to the domain the Rust code operates in: `base` fits the 32-bit
offsets of the delta format (beyond `u32::MAX` the source panics at its
`u32` casts before ever returning a delta) and `target.length` fits in
`usize`.  The window hash is universally quantified (see `tableFill`). -/
theorem claim_C1_diff_patch_roundtrip
    (rwh : List Nat → Nat) (base target : List Nat) (windowShift : Nat)
    (delta : List Nat)
    (hbase : base.length ≤ GitDelta.U32MAX)
    (htarget : target.length < 2 ^ 64)
    (hdiff : GitDelta.diff rwh base target windowShift = some delta) :
    GitDelta.patch base delta = some (.ok target) := by
  simp only [GitDelta.diff] at hdiff
  split at hdiff
  · cases hdiff
  · rename_i hsmall
    have hw : 1 ≤ 2 ^ windowShift := Nat.one_le_two_pow
    have hmax := le_max_left (2 ^ windowShift) 16
    have hDG := GitDelta.diffGo_spec base target
      (GitDelta.encodeHeaderSize base.length
        ++ GitDelta.encodeHeaderSize target.length) rwh (2 ^ windowShift)
      (GitDelta.tableCreate rwh base windowShift).1
      (GitDelta.tableCreate rwh base windowShift).2 hbase hw
      (target.length + 1) 0 0 []
      (GitDelta.encodeHeaderSize base.length
        ++ GitDelta.encodeHeaderSize target.length)
      (by omega) le_rfl
      (by
        refine ⟨[], (List.append_nil _).symm, ?_⟩
        rw [List.take_zero]
        rfl)
      trivial
    obtain ⟨OUT, hOUT⟩ : ∃ o,
        (if (GitDelta.diffGo rwh base target (2 ^ windowShift)
              (GitDelta.tableCreate rwh base windowShift).1
              (GitDelta.tableCreate rwh base windowShift).2
              (target.length + 1) 0 0 []
              (GitDelta.encodeHeaderSize base.length
                ++ GitDelta.encodeHeaderSize target.length)).1
            < target.length then
          GitDelta.emitInlineTail target
            (target.length - (GitDelta.diffGo rwh base target (2 ^ windowShift)
              (GitDelta.tableCreate rwh base windowShift).1
              (GitDelta.tableCreate rwh base windowShift).2
              (target.length + 1) 0 0 []
              (GitDelta.encodeHeaderSize base.length
                ++ GitDelta.encodeHeaderSize target.length)).1)
            (GitDelta.diffGo rwh base target (2 ^ windowShift)
              (GitDelta.tableCreate rwh base windowShift).1
              (GitDelta.tableCreate rwh base windowShift).2
              (target.length + 1) 0 0 []
              (GitDelta.encodeHeaderSize base.length
                ++ GitDelta.encodeHeaderSize target.length)).1
            (GitDelta.diffGo rwh base target (2 ^ windowShift)
              (GitDelta.tableCreate rwh base windowShift).1
              (GitDelta.tableCreate rwh base windowShift).2
              (target.length + 1) 0 0 []
              (GitDelta.encodeHeaderSize base.length
                ++ GitDelta.encodeHeaderSize target.length)).2
        else
          (GitDelta.diffGo rwh base target (2 ^ windowShift)
            (GitDelta.tableCreate rwh base windowShift).1
            (GitDelta.tableCreate rwh base windowShift).2
            (target.length + 1) 0 0 []
            (GitDelta.encodeHeaderSize base.length
              ++ GitDelta.encodeHeaderSize target.length)).2) = o := ⟨_, rfl⟩
    rw [hOUT] at hdiff
    have hfinal : GitDelta.decodesTo base target
        (GitDelta.encodeHeaderSize base.length
          ++ GitDelta.encodeHeaderSize target.length) OUT target.length := by
      rw [← hOUT]
      split
      · rename_i hlt
        exact GitDelta.emitInlineTail_spec target _ _ _ le_rfl hDG.1 hDG.2
      · rename_i hge
        have heq := le_antisymm hDG.1 (not_lt.mp hge)
        have hd2 := hDG.2
        rw [heq] at hd2
        exact hd2
    split at hdiff
    · cases hdiff
    · injection hdiff with hdd
      rw [← hdd]
      obtain ⟨body, hsplit, hdec2⟩ := hfinal
      rw [List.take_length] at hdec2
      rw [hsplit, List.append_assoc]
      have h1 : GitDelta.readHeaderSize (GitDelta.encodeHeaderSize base.length
          ++ (GitDelta.encodeHeaderSize target.length ++ body))
          = some (base.length, GitDelta.encodeHeaderSize target.length ++ body) :=
        GitDelta.readHeaderSize_encode _ _
          (lt_of_le_of_lt hbase (by norm_num [GitDelta.U32MAX]))
      have h2 : GitDelta.readHeaderSize
          (GitDelta.encodeHeaderSize target.length ++ body)
          = some (target.length, body) :=
        GitDelta.readHeaderSize_encode _ _ htarget
      simp only [GitDelta.patch, h1, h2, hdec2]
      simp

/-- Witness for C1 at a concrete input: an 18-byte base and an identical
18-byte target with window shift 0 produce the delta
`[18, 18, 0x90, 0x12]` (two size headers, then one copy op of length 18
from offset 0), and patching reproduces the target. -/
theorem claim_C1_diff_patch_roundtrip_witness :
    GitDelta.diff (fun _ => 0) (List.replicate 18 97) (List.replicate 18 97) 0
        = some [18, 18, 144, 18] ∧
      GitDelta.patch (List.replicate 18 97) [18, 18, 144, 18]
        = some (.ok (List.replicate 18 97)) :=
  ⟨by decide, claim_C1_diff_patch_roundtrip (fun _ => 0) (List.replicate 18 97)
    (List.replicate 18 97) 0 [18, 18, 144, 18] (by decide) (by decide)
    (by decide)⟩
